import Mathlib

/-!
# ProjectGK: the 16-colour quantisation engine

A shallow embedding of `Image.cpp`, `FourBitColor.cpp`, `FourBitGrey.cpp` and
`UnsupportedDedicatedPalette.hpp`, with the legacy packing `ConvertFrom24` of
`Application.cpp`.

Conventions of the embedding.

* `Uint8`, `int` and `size_t` values are naturals or integers; every place where
  the C++ value wraps or is cast is written with an explicit `%`.
* `std::vector` is `List`; `std::array<SDL_Color, 16>` is a function on `Fin 16`.
* A member function of `Image` maps the object state to an `Outcome`: it returns
  normally with the new state, or it lets an `UnsupportedDedicatedPalette`
  escape (the state at the throw is kept), or it reaches undefined behaviour
  (an access outside a container, an integer division by zero, a signed
  overflow), recorded as a `Fault`.
-/

namespace ProjectGK

/-! ## Data model -/

/-- The struct `SDL_Color`: four `Uint8` channels. -/
structure SDL_Color where
  r : Nat
  g : Nat
  b : Nat
  a : Nat
deriving DecidableEq, Repr

/-- All four channels fit in a `Uint8`. -/
def SDL_Color.IsUint8 (c : SDL_Color) : Prop :=
  c.r < 256 ∧ c.g < 256 ∧ c.b < 256 ∧ c.a < 256

instance (c : SDL_Color) : Decidable c.IsUint8 := by
  unfold SDL_Color.IsUint8; infer_instance

/-- The helper `compareSdlColor` of `Image.cpp`: equality on r, g and b only. -/
def compareSdlColor (lhs rhs : SDL_Color) : Bool :=
  lhs.r == rhs.r && lhs.g == rhs.g && lhs.b == rhs.b

/-- The enum `Image::Transformation`. -/
inductive Transformation where
  | none
  | imposedPalette
  | dedicatedPalette
  | greyscale
  | dithering
  | ditheringGreyscale
  | medianCut
  | medianCutGreyscale
deriving DecidableEq, Repr

/-- A pixel buffer `std::vector<std::vector<SDL_Color>>`; the outer index is `x`. -/
abbrev PixelBuffer := List (List SDL_Color)

/-- The member `std::array<SDL_Color, 16> palette`. -/
abbrev Palette := Fin 16 → SDL_Color

/-- The data members of `class Image`. -/
structure Image where
  originalBmp : PixelBuffer
  transformedBmp : Option PixelBuffer
  palette : Palette
  currentTransformation : Transformation

/-- Undefined behaviour reached by the C++ code. -/
inductive Fault where
  | outOfRange
  | divisionByZero
  | signedOverflow
deriving DecidableEq, Repr

/-- How a call ends: normal return, an escaping `UnsupportedDedicatedPalette`
carrying `numColors` together with the object state left behind, or undefined
behaviour. -/
inductive Outcome (σ : Type) where
  | returned (state : σ)
  | thrown (numColors : Nat) (state : σ)
  | undefined (fault : Fault)

/-- The value `SDL_Color{0, 0, 0, 0}` used by `clearPalette`. -/
def black0 : SDL_Color := ⟨0, 0, 0, 0⟩

/-! ## Binary floating point

`FourBitColor`, `FourBitGrey`, the Bayer table, the luminance of the median
cutter and `findNeighbour` compute in `float` (24-bit significand) and `double`
(53-bit significand). Every value that occurs is finite, non-negative and, when
not zero, at least `2^-11`, so it is a multiple of `2^-64`: a floating-point
value `v` is held as the natural `v * 2^64`, and each operation is the exact
operation followed by one rounding to nearest, ties to even (IEEE 754, every
operation rounded on its own). -/

/-- Position of the leading bit, by halving; `fuel` bounds the number of steps. -/
def floorLog2Aux : Nat → Nat → Nat
  | 0, _ => 0
  | fuel + 1, n => if n < 2 then 0 else floorLog2Aux fuel (n / 2) + 1

/-- The exponent of a positive natural: `2 ^ floorLog2 n ≤ n < 2 ^ (floorLog2 n + 1)`. -/
def floorLog2 (n : Nat) : Nat := floorLog2Aux n n

/-- Bit-by-bit square root: `bits` more bits are decided, `r` holds the upper ones. -/
def floorSqrtAux (n : Nat) : Nat → Nat → Nat
  | 0, r => r
  | bits + 1, r =>
    if (r + 2 ^ bits) * (r + 2 ^ bits) ≤ n then floorSqrtAux n bits (r + 2 ^ bits)
    else floorSqrtAux n bits r

/-- The integer square root of a natural below `2 ^ 192`. -/
def floorSqrt (n : Nat) : Nat := floorSqrtAux n 96 0

/-- The fixed-point unit: a floating-point value `v` is held as `v * fpUnit`. -/
def fpUnit : Nat := 2 ^ 64

/-- Rounding of the rational `num / den` (in units of `2^-64`) to `p` significant
bits, to nearest, ties to even. `k` is the exponent of the quantum. -/
def roundNearestEven (p num den : Nat) : Nat :=
  let k := floorLog2 (num / den) + 1 - p
  let q := num / (den * 2 ^ k)
  let twiceRest := 2 * (num - q * (den * 2 ^ k))
  if twiceRest < den * 2 ^ k then q * 2 ^ k
  else if den * 2 ^ k < twiceRest then (q + 1) * 2 ^ k
  else if q % 2 = 0 then q * 2 ^ k
  else (q + 1) * 2 ^ k

/-- A decimal literal `num / den` read at precision `p` (53 for `0.299`, 24 for `0.587f`). -/
def fpLiteral (p num den : Nat) : Nat := roundNearestEven p (num * fpUnit) den

/-- Conversion of a small non-negative integer (`Uint8`, `int`) to floating point; exact. -/
def fpOfNat (n : Nat) : Nat := n * fpUnit

/-- Floating-point product at precision `p`. -/
def fpMul (p x y : Nat) : Nat := roundNearestEven p (x * y) fpUnit

/-- Floating-point sum at precision `p`. -/
def fpAdd (p x y : Nat) : Nat := roundNearestEven p (x + y) 1

/-- Floating-point difference at precision `p`, for `y ≤ x`. -/
def fpSub (p x y : Nat) : Nat := roundNearestEven p (x - y) 1

/-- Floating-point quotient at precision `p`. -/
def fpDiv (p x y : Nat) : Nat := roundNearestEven p (x * fpUnit) y

/-- The conversion `static_cast<int>` or `static_cast<Uint8>` of a non-negative
floating-point value: truncation (the `Uint8` range is applied by the caller). -/
def fpTrunc (x : Nat) : Nat := x / fpUnit

/-- The function `round` of `<cmath>` on a non-negative value: halves go up. -/
def fpRound (x : Nat) : Nat := (x + fpUnit / 2) / fpUnit

/-- The function `sqrt` of `<cmath>` in `double`: the square root rounded to 53 bits. -/
def sqrtDouble (x : Nat) : Nat :=
  let s := floorSqrt (x * fpUnit)
  let k := floorLog2 s + 1 - 53
  let q := s / 2 ^ k
  let mid := (2 * q + 1) * 2 ^ k
  if mid * mid < 4 * (x * fpUnit) then (q + 1) * 2 ^ k
  else if 4 * (x * fpUnit) < mid * mid then q * 2 ^ k
  else if q % 2 = 0 then q * 2 ^ k
  else (q + 1) * 2 ^ k

/-- The constant `std::numeric_limits<double>::max()`. -/
def doubleMax : Nat := (2 ^ 1024 - 2 ^ 971) * fpUnit

/-! ## Dedicated palette -/

/-- One step of the scan in `dedicatedPaletteTransformation`: `std::find_if` with
`compareSdlColor` over the colours found so far, `emplace_back` when absent. -/
def collectPixel (dedicatedPalette : List SDL_Color) (pixel : SDL_Color) : List SDL_Color :=
  if dedicatedPalette.any (fun color => compareSdlColor color pixel) then dedicatedPalette
  else dedicatedPalette ++ [pixel]

/-- The two nested range-for loops of `dedicatedPaletteTransformation`. -/
def scanDedicatedPalette (bmp : PixelBuffer) : List SDL_Color :=
  bmp.foldl (fun acc row => row.foldl collectPixel acc) []

/-- The method `Image::clearPalette`. -/
def clearPalette (_palette : Palette) : Palette := fun _ => black0

/-- The call `std::copy_n(src.begin(), src.size(), palette.begin())`, for a source
of at most 16 elements. -/
def copyIntoPalette (src : List SDL_Color) (palette : Palette) : Palette :=
  fun i => if h : i.val < src.length then src.get ⟨i.val, h⟩ else palette i

/-- The method `Image::dedicatedPaletteTransformation`. The argument of `reserve`
reads `originalBmp[0]`, which is outside the vector when it has no element. -/
def dedicatedPaletteTransformation (img : Image) : Outcome Image :=
  match img.originalBmp with
  | [] => .undefined .outOfRange
  | _ :: _ =>
    let dedicatedPalette := scanDedicatedPalette img.originalBmp
    if dedicatedPalette.length > 16 then
      .thrown dedicatedPalette.length img
    else
      .returned
        { img with
          currentTransformation := .dedicatedPalette
          palette := copyIntoPalette dedicatedPalette (clearPalette img.palette)
          transformedBmp := some img.originalBmp }

/-- The distinct colours of a pixel sequence in order of first occurrence, as the
specification words it: the first pixel, then the first occurrences among the
rest that differ from it on r, g or b. -/
def firstOccurrences : List SDL_Color → List SDL_Color
  | [] => []
  | p :: ps => p :: (firstOccurrences ps).filter (fun q => !compareSdlColor p q)

/-- The distinct colours of a buffer in scan order: outer index first, then inner. -/
def distinctColours (bmp : PixelBuffer) : List SDL_Color :=
  firstOccurrences bmp.flatten

/-! ## FourBitColor and FourBitGrey -/

/-- The class `FourBitColor`: the fields `r`, `g`, `b`. -/
structure FourBitColor where
  r : Nat
  g : Nat
  b : Nat
deriving DecidableEq, Repr

/-- The expression `static_cast<Uint8>(round(channel * factor / 255.0))`. -/
def reduceChannel (channel factor : Nat) : Nat :=
  fpRound (fpDiv 53 (fpMul 53 (fpOfNat channel) (fpOfNat factor)) (fpOfNat 255)) % 256

/-- The constructor `FourBitColor::FourBitColor(const SDL_Color&)`. -/
def FourBitColor.ofColor (color : SDL_Color) : FourBitColor :=
  { r := reduceChannel color.r 3
    g := reduceChannel color.g 1
    b := reduceChannel color.b 1 }

/-- The constructor `FourBitColor::FourBitColor(Uint8)`. -/
def FourBitColor.ofCode (color : Nat) : FourBitColor :=
  { r := ((color &&& 0b00001100) >>> 2) % 256
    g := ((color &&& 0b00000010) >>> 1) % 256
    b := (color &&& 0b00000001) % 256 }

/-- The expression `static_cast<Uint8>(field * 255.0 / divisor)`. -/
def expandChannel (field divisor : Nat) : Nat :=
  fpTrunc (fpDiv 53 (fpMul 53 (fpOfNat field) (fpOfNat 255)) (fpOfNat divisor)) % 256

/-- The method `FourBitColor::getSdlColor`; `g * 255.0` and `b * 255.0` have no division. -/
def FourBitColor.getSdlColor (c : FourBitColor) : SDL_Color :=
  { r := expandChannel c.r 3
    g := fpTrunc (fpMul 53 (fpOfNat c.g) (fpOfNat 255)) % 256
    b := fpTrunc (fpMul 53 (fpOfNat c.b) (fpOfNat 255)) % 256
    a := 1 }

/-- The class `FourBitGrey`: the field `grey`. -/
structure FourBitGrey where
  grey : Nat
deriving DecidableEq, Repr

/-- The value `(0.299 * color.r + 0.587f * color.g + 0.114f * color.b) * 15.0 / 255.0`
before the cast: the first product is in `double`, the other two in `float`. -/
def greyLevelDouble (color : SDL_Color) : Nat :=
  let sum := fpAdd 53
    (fpAdd 53 (fpMul 53 (fpLiteral 53 299 1000) (fpOfNat color.r))
      (fpMul 24 (fpLiteral 24 587 1000) (fpOfNat color.g)))
    (fpMul 24 (fpLiteral 24 114 1000) (fpOfNat color.b))
  fpDiv 53 (fpMul 53 sum (fpOfNat 15)) (fpOfNat 255)

/-- The constructor `FourBitGrey::FourBitGrey(const SDL_Color&)`. -/
def FourBitGrey.ofColor (color : SDL_Color) : FourBitGrey :=
  { grey := fpTrunc (greyLevelDouble color) % 256 }

/-- The constructor `FourBitGrey::FourBitGrey(Uint8)`. -/
def FourBitGrey.ofCode (color : Nat) : FourBitGrey :=
  { grey := color % 256 }

/-- The method `FourBitGrey::getSdlColor`. -/
def FourBitGrey.getSdlColor (c : FourBitGrey) : SDL_Color :=
  { r := expandChannel c.grey 15
    g := expandChannel c.grey 15
    b := expandChannel c.grey 15
    a := 1 }

/-! ## Imposed palette and greyscale -/

/-- The loop `for i < palette.size()` filling `palette[i]` from `FourBitColor{i}`. -/
def imposedPalette : Palette := fun i => (FourBitColor.ofCode i.val).getSdlColor

/-- The loop `for i < palette.size()` filling `palette[i]` from `FourBitGrey{i}`. -/
def greyscalePalette : Palette := fun i => (FourBitGrey.ofCode i.val).getSdlColor

/-- The method `Image::imposedPaletteTransformation`. -/
def imposedPaletteTransformation (img : Image) : Outcome Image :=
  .returned
    { img with
      transformedBmp :=
        some (img.originalBmp.map (fun row => row.map (fun pixel => (FourBitColor.ofColor pixel).getSdlColor)))
      palette := imposedPalette
      currentTransformation := .imposedPalette }

/-- The method `Image::greyscaleTransformation`. -/
def greyscaleTransformation (img : Image) : Outcome Image :=
  .returned
    { img with
      transformedBmp :=
        some (img.originalBmp.map (fun row => row.map (fun pixel => (FourBitGrey.ofColor pixel).getSdlColor)))
      palette := greyscalePalette
      currentTransformation := .greyscale }

/-! ## Ordered dithering -/

/-- The constant `bayerTableSize`. -/
def bayerTableSize : Nat := 4

/-- The constant `bayerTable`. -/
def bayerTable : List (List Nat) :=
  [[6, 14, 8, 16], [10, 2, 12, 4], [7, 15, 5, 13], [11, 3, 9, 1]]

/-- The function `getUpdatedBayerTable`: `factor` is the `float` `256 * 1.0f / 16`, each
entry becomes `static_cast<int>((value * factor) - factor / 2)`. -/
def getUpdatedBayerTable : List (List Nat) :=
  let factor := fpDiv 24 (fpMul 24 (fpOfNat 256) (fpOfNat 1)) (fpOfNat (bayerTableSize * bayerTableSize))
  bayerTable.map (fun row => row.map (fun value =>
    fpTrunc (fpSub 24 (fpMul 24 (fpOfNat value) factor) (fpDiv 24 factor (fpOfNat 2)))))

/-- The read `table[i][j]` of a 4 by 4 `std::array`, for `i, j < 4`. -/
def tableAt (table : List (List Nat)) (i j : Nat) : Nat :=
  (table.getD i []).getD j 0

/-- A map over a list that also passes the index, counted from `i`. -/
def mapWithIndex {α β : Type} (f : Nat → α → β) : Nat → List α → List β
  | _, [] => []
  | i, a :: as => f i a :: mapWithIndex f (i + 1) as

/-- The body of the loops of `ditheringTransformation` at position `(x, y)`: the red
branch has an empty `else`. -/
def ditherPixel (table : List (List Nat)) (x y : Nat) (original : SDL_Color) : SDL_Color :=
  let pixel := (FourBitColor.ofColor original).getSdlColor
  let updatedBayerTableValue := tableAt table (y % bayerTableSize) (x % bayerTableSize)
  let pixel := if pixel.r > updatedBayerTableValue then { pixel with r := 255 } else pixel
  let pixel := if pixel.g > updatedBayerTableValue then { pixel with g := 255 } else { pixel with g := 0 }
  if pixel.b > updatedBayerTableValue then { pixel with b := 255 } else { pixel with b := 0 }

/-- The body of the loops of `ditheringGreyscaleTransformation` at position `(x, y)`. -/
def ditherGreyscalePixel (table : List (List Nat)) (x y : Nat) (original : SDL_Color) : SDL_Color :=
  if original.r > tableAt table (y % bayerTableSize) (x % bayerTableSize) then
    { original with r := 255, g := 255, b := 255 }
  else
    { original with r := 0, g := 0, b := 0 }

/-- The method `Image::ditheringTransformation`. -/
def ditheringTransformation (img : Image) : Outcome Image :=
  let updatedBayerTable := getUpdatedBayerTable
  .returned
    { img with
      transformedBmp :=
        some (mapWithIndex (fun x row => mapWithIndex (fun y pixel => ditherPixel updatedBayerTable x y pixel) 0 row)
          0 img.originalBmp)
      palette := imposedPalette
      currentTransformation := .dithering }

/-- The method `Image::ditheringGreyscaleTransformation`. -/
def ditheringGreyscaleTransformation (img : Image) : Outcome Image :=
  let updatedBayerTable := getUpdatedBayerTable
  .returned
    { img with
      transformedBmp :=
        some (mapWithIndex
          (fun x row => mapWithIndex (fun y pixel => ditherGreyscalePixel updatedBayerTable x y pixel) 0 row)
          0 img.originalBmp)
      palette := greyscalePalette
      currentTransformation := .ditheringGreyscale }

/-! ## Median cut -/

/-- The contract of `std::sort` with a comparator `key lhs < key rhs`: the result is
a rearrangement of the input in ascending key order. The order of elements with
equal keys is not fixed by the standard, so the engine is parametrised by the
sorting routine. -/
structure StdSort where
  sort : {α : Type} → (α → Nat) → List α → List α
  perm : ∀ {α : Type} (key : α → Nat) (l : List α), List.Perm (sort key l) l
  sorted : ∀ {α : Type} (key : α → Nat) (l : List α),
    List.Pairwise (fun x y => key x ≤ key y) (sort key l)

/-- One `std::sort`: insertion sort, which keeps the order of equal keys. -/
def insertionStdSort : StdSort where
  sort := fun key l => List.insertionSort (fun x y => key x ≤ key y) l
  perm := fun key l => List.perm_insertionSort (fun x y => key x ≤ key y) l
  sorted := fun {α} key l =>
    haveI : IsTotal α (fun x y => key x ≤ key y) := ⟨fun x y => Nat.le_total (key x) (key y)⟩
    haveI : IsTrans α (fun x y => key x ≤ key y) := ⟨fun _ _ _ hxy hyz => Nat.le_trans hxy hyz⟩
    List.sorted_insertionSort (fun x y => key x ≤ key y) l

/-- The enum `Image::MedianCutter::SortBy`. -/
inductive SortBy where
  | red
  | green
  | blue
deriving DecidableEq, Repr

/-- The channel a `SortBy` value compares. -/
def SortBy.key : SortBy → SDL_Color → Nat
  | .red => fun c => c.r
  | .green => fun c => c.g
  | .blue => fun c => c.b

/-- The data members of `Image::MedianCutter`; `palette` is the referenced
palette of the image. -/
structure MedianCutter where
  image : PixelBuffer
  palette : Palette
  bucketsCount : Nat
  colorsCount : Nat
  colors : List SDL_Color
  greys : List Nat

/-- The width of `size_t`. -/
def sizeMod : Nat := 2 ^ 64

/-- The `size_t` value of `n - 1`. -/
def sizePred (n : Nat) : Nat := (n + sizeMod - 1) % sizeMod

/-- The `size_t` value of `(start + end + 1) / 2`. -/
def mediumOf (startIdx endIdx : Nat) : Nat := ((startIdx + endIdx + 1) % sizeMod) / 2

/-- The `size_t` value of `end - start + 1`. -/
def rangeCount (startIdx endIdx : Nat) : Nat := (endIdx + sizeMod - startIdx + 1) % sizeMod

/-- The conversion `static_cast<int>` of a `size_t`. -/
def toInt32 (n : Nat) : Int :=
  if n % 2 ^ 32 < 2 ^ 31 then ((n % 2 ^ 32 : Nat) : Int) else ((n % 2 ^ 32 : Nat) : Int) - 2 ^ 32

/-- The value `static_cast<Uint8>(0.299 * pixel.r + 0.587 * pixel.g + 0.114 * pixel.b)`,
all in `double`, of the constructor and of `findNeighbourGreyscale`. -/
def luminance (pixel : SDL_Color) : Nat :=
  fpTrunc (fpAdd 53
    (fpAdd 53 (fpMul 53 (fpLiteral 53 299 1000) (fpOfNat pixel.r))
      (fpMul 53 (fpLiteral 53 587 1000) (fpOfNat pixel.g)))
    (fpMul 53 (fpLiteral 53 114 1000) (fpOfNat pixel.b))) % 256

/-- The constructor `Image::MedianCutter::MedianCutter`; the arguments of
`reserve` read `image[0]`. -/
def MedianCutter.new (image : PixelBuffer) (palette : Palette) : Except Fault MedianCutter :=
  match image with
  | [] => .error .outOfRange
  | _ :: _ =>
    .ok
      { image := image
        palette := palette
        bucketsCount := 0
        colorsCount := 0
        colors := image.flatten
        greys := image.flatten.map luminance }

/-- The elements at the indices `start, ..., end` of a vector. -/
def slice {α : Type} (v : List α) (startIdx endIdx : Nat) : List α :=
  (v.drop startIdx).take (endIdx + 1 - startIdx)

/-- The loop header `for (size_t p{start}; p <= end; ++p)` around reads of `v[p]`, for
a vector of `size` elements: the loop is skipped when `end < start`, and it runs
into `v[size]` when `size <= end`. -/
def checkRangeLoop (size startIdx endIdx : Nat) : Except Fault Unit :=
  if endIdx < startIdx then .ok ()
  else if size ≤ endIdx then .error .outOfRange
  else .ok ()

/-- The six running indices of `greatestDifference`. -/
structure Extremes where
  minR : Nat
  maxR : Nat
  minG : Nat
  maxG : Nat
  minB : Nat
  maxB : Nat

/-- The body of the loop of `greatestDifference` at index `i`. -/
def updateExtremes (colors : List SDL_Color) (e : Extremes) (i : Nat) : Extremes :=
  let c := colors.getD i black0
  { minR := if c.r < (colors.getD e.minR black0).r then i else e.minR
    maxR := if c.r > (colors.getD e.maxR black0).r then i else e.maxR
    minG := if c.g < (colors.getD e.minG black0).g then i else e.minG
    maxG := if c.g > (colors.getD e.maxG black0).g then i else e.maxG
    minB := if c.b < (colors.getD e.minB black0).b then i else e.minB
    maxB := if c.b > (colors.getD e.maxB black0).b then i else e.maxB }

/-- The method `Image::MedianCutter::greatestDifference`. After the loop the six
indices, all equal to `start` when the loop was skipped, are read. -/
def greatestDifference (colors : List SDL_Color) (startIdx endIdx : Nat) : Except Fault SortBy := do
  checkRangeLoop colors.length startIdx endIdx
  if colors.length ≤ startIdx then .error .outOfRange
  else
    let e := (List.range' startIdx (endIdx + 1 - startIdx)).foldl (updateExtremes colors)
      ⟨startIdx, startIdx, startIdx, startIdx, startIdx, startIdx⟩
    let differenceR : Int := ((colors.getD e.maxR black0).r : Int) - (colors.getD e.minR black0).r
    let differenceG : Int := ((colors.getD e.maxG black0).g : Int) - (colors.getD e.minG black0).g
    let differenceB : Int := ((colors.getD e.maxB black0).b : Int) - (colors.getD e.minB black0).b
    let differenceMax := max (max differenceR differenceG) differenceB
    if differenceMax = differenceR then .ok .red
    else if differenceMax = differenceG then .ok .green
    else .ok .blue

/-- The call `std::sort(v.begin() + start, v.begin() + end, cmp)`: the iterators
must form a range inside the vector; the element at `end` is not part of it. -/
def sortRange {α : Type} (S : StdSort) (key : α → Nat) (v : List α) (startIdx endIdx : Nat) :
    Except Fault (List α) :=
  if startIdx ≤ endIdx ∧ endIdx ≤ v.length then
    .ok (v.take startIdx ++ S.sort key ((v.drop startIdx).take (endIdx - startIdx)) ++ v.drop endIdx)
  else .error .outOfRange

/-- The method `Image::MedianCutter::sortBucket`. -/
def sortBucket (S : StdSort) (colors : List SDL_Color) (startIdx endIdx : Nat) (sortBy : SortBy) :
    Except Fault (List SDL_Color) :=
  sortRange S sortBy.key colors startIdx endIdx

/-- The method `Image::MedianCutter::sortBucketGreyscale`. -/
def sortBucketGreyscale (S : StdSort) (greys : List Nat) (startIdx endIdx : Nat) :
    Except Fault (List Nat) :=
  sortRange S (fun grey => grey) greys startIdx endIdx

/-- An `int` accumulator `sum += v[p]` over non-negative values: it overflows when
the total passes `INT_MAX`. -/
def checkIntSum (sum : Nat) : Except Fault Unit :=
  if sum < 2 ^ 31 then .ok () else .error .signedOverflow

/-- The write `palette[bucketsCount++] = color`. -/
def writeBucket (m : MedianCutter) (color : SDL_Color) : Except Fault MedianCutter :=
  if h : m.bucketsCount < 16 then
    .ok { m with
          palette := Function.update m.palette ⟨m.bucketsCount, h⟩ color
          bucketsCount := m.bucketsCount + 1 }
  else .error .outOfRange

/-- The integer division `sum / divisor` of two `int`, then `static_cast<Uint8>`. -/
def divToUint8 (sum : Nat) (divisor : Int) : Except Fault Nat :=
  if divisor = 0 then .error .divisionByZero
  else .ok (Int.tdiv (sum : Int) divisor % 256).toNat

/-- The leaf part of `medianCut` (`iteration <= 0`). -/
def medianCutLeaf (m : MedianCutter) (startIdx endIdx : Nat) : Except Fault MedianCutter := do
  checkRangeLoop m.colors.length startIdx endIdx
  let bucket := slice m.colors startIdx endIdx
  let sumR := (bucket.map (fun c => c.r)).sum
  let sumG := (bucket.map (fun c => c.g)).sum
  let sumB := (bucket.map (fun c => c.b)).sum
  checkIntSum sumR
  checkIntSum sumG
  checkIntSum sumB
  let averageR ← divToUint8 sumR (toInt32 (rangeCount startIdx endIdx))
  let averageG ← divToUint8 sumG (toInt32 (rangeCount startIdx endIdx))
  let averageB ← divToUint8 sumB (toInt32 (rangeCount startIdx endIdx))
  writeBucket m ⟨averageR, averageG, averageB, 1⟩

/-- The method `Image::MedianCutter::medianCut`. -/
def medianCut (S : StdSort) (m : MedianCutter) (startIdx endIdx : Nat) :
    Nat → Except Fault MedianCutter
  | 0 => medianCutLeaf m startIdx endIdx
  | iteration + 1 => do
    let sortBy ← greatestDifference m.colors startIdx endIdx
    let colors ← sortBucket S m.colors startIdx endIdx sortBy
    let medium := mediumOf startIdx endIdx
    let m ← medianCut S { m with colors := colors } startIdx (sizePred medium) iteration
    medianCut S m medium endIdx iteration

/-- The leaf part of `medianCutGreyscale`: the divisor is cast to `Uint8`. -/
def medianCutGreyscaleLeaf (m : MedianCutter) (startIdx endIdx : Nat) : Except Fault MedianCutter := do
  checkRangeLoop m.greys.length startIdx endIdx
  let sumGrey := (slice m.greys startIdx endIdx).sum
  checkIntSum sumGrey
  let newGrey ← divToUint8 sumGrey ((rangeCount startIdx endIdx % 256 : Nat) : Int)
  writeBucket m ⟨newGrey, newGrey, newGrey, 1⟩

/-- The method `Image::MedianCutter::medianCutGreyscale`. -/
def medianCutGreyscale (S : StdSort) (m : MedianCutter) (startIdx endIdx : Nat) :
    Nat → Except Fault MedianCutter
  | 0 => medianCutGreyscaleLeaf m startIdx endIdx
  | iteration + 1 => do
    let greys ← sortBucketGreyscale S m.greys startIdx endIdx
    let medium := mediumOf startIdx endIdx
    let m ← medianCutGreyscale S { m with greys := greys } startIdx (sizePred medium) iteration
    medianCutGreyscale S m medium endIdx iteration

/-- The radicand of `findNeighbour`, computed in `int`. -/
def squaredDistance (color paletteColor : SDL_Color) : Nat :=
  ((((color.r : Int) - paletteColor.r) * ((color.r : Int) - paletteColor.r) +
    ((color.g : Int) - paletteColor.g) * ((color.g : Int) - paletteColor.g) +
    ((color.b : Int) - paletteColor.b) * ((color.b : Int) - paletteColor.b))).toNat

/-- One pass of the loop of `findNeighbour`; the state is `(minimum, minimumIndex)`. -/
def neighbourStep (palette : Palette) (color : SDL_Color) (st : Nat × Fin 16) (i : Fin 16) :
    Nat × Fin 16 :=
  let distance := sqrtDouble (fpOfNat (squaredDistance color (palette i)))
  if distance < st.1 then (distance, i) else st

/-- The method `Image::MedianCutter::findNeighbour`. -/
def findNeighbour (palette : Palette) (color : SDL_Color) : Fin 16 :=
  ((List.finRange 16).foldl (neighbourStep palette color) (doubleMax, 0)).2

/-- The value `abs(grey - palette[i].r)`, computed in `int`. -/
def greyDistance (grey : Nat) (paletteColor : SDL_Color) : Nat :=
  ((grey : Int) - paletteColor.r).natAbs

/-- One pass of the loop of `findNeighbourGreyscale`; the state is `(min, minIndex)`. -/
def neighbourGreyscaleStep (palette : Palette) (grey : Nat) (st : Nat × Fin 16) (i : Fin 16) :
    Nat × Fin 16 :=
  let distance := greyDistance grey (palette i)
  if distance < st.1 then (distance, i) else st

/-- The method `Image::MedianCutter::findNeighbourGreyscale`; `min` starts at `INT_MAX`. -/
def findNeighbourGreyscale (palette : Palette) (color : SDL_Color) : Fin 16 :=
  let grey := luminance color
  ((List.finRange 16).foldl (neighbourGreyscaleStep palette grey) (2 ^ 31 - 1, 0)).2

/-- The method `Image::MedianCutter::performColor`: the new buffer and the cutter. -/
def performColor (S : StdSort) (m : MedianCutter) : Except Fault (PixelBuffer × MedianCutter) := do
  let m ← medianCut S m 0 (sizePred m.colors.length) 4
  .ok (m.image.map (fun row => row.map (fun pixel => m.palette (findNeighbour m.palette pixel))), m)

/-- The method `Image::MedianCutter::performGreyscale`. -/
def performGreyscale (S : StdSort) (m : MedianCutter) : Except Fault (PixelBuffer × MedianCutter) := do
  let m ← medianCutGreyscale S m 0 (sizePred m.greys.length) 4
  .ok (m.image.map (fun row => row.map (fun pixel => m.palette (findNeighbourGreyscale m.palette pixel))), m)

/-- The method `Image::MedianCutter::perform`. -/
def perform (S : StdSort) (m : MedianCutter) (greyscale : Bool) :
    Except Fault (PixelBuffer × MedianCutter) :=
  if greyscale then performGreyscale S m else performColor S m

/-- The body shared by `medianCutTransformation` and `medianCutGreyscaleTransformation`:
the cutter writes through its reference into the palette of the image, the
returned buffer is assigned to `transformedBmp`. -/
def runMedianCutter (S : StdSort) (img : Image) (greyscale : Bool) : Outcome Image :=
  match MedianCutter.new img.originalBmp img.palette with
  | .error fault => .undefined fault
  | .ok medianCutter =>
    match perform S medianCutter greyscale with
    | .error fault => .undefined fault
    | .ok (buffer, medianCutter) =>
      .returned { img with palette := medianCutter.palette, transformedBmp := some buffer }

/-- The method `Image::medianCutTransformation`. -/
def medianCutTransformation (S : StdSort) (img : Image) : Outcome Image :=
  runMedianCutter S img false

/-- The method `Image::medianCutGreyscaleTransformation`. -/
def medianCutGreyscaleTransformation (S : StdSort) (img : Image) : Outcome Image :=
  runMedianCutter S img true

/-! ## The engine -/

/-- The method `Image::transform`. -/
def transform (S : StdSort) (transformation : Transformation) (img : Image) : Outcome Image :=
  match transformation with
  | .none => .returned { img with transformedBmp := Option.none }
  | .imposedPalette => imposedPaletteTransformation img
  | .dedicatedPalette => dedicatedPaletteTransformation img
  | .greyscale => greyscaleTransformation img
  | .dithering => ditheringTransformation img
  | .ditheringGreyscale => ditheringGreyscaleTransformation img
  | .medianCut => medianCutTransformation S img
  | .medianCutGreyscale => medianCutGreyscaleTransformation S img

/-! ## Example inputs -/

/-- The 2 by 2 image of the specification: red, green, blue, red. -/
def exampleTwoByTwo : Image :=
  { originalBmp := [[⟨255, 0, 0, 1⟩, ⟨0, 255, 0, 1⟩], [⟨0, 0, 255, 1⟩, ⟨255, 0, 0, 1⟩]]
    transformedBmp := none
    palette := fun _ => black0
    currentTransformation := .none }

/-- An image with 17 distinct colours, held by an engine that has already run the
imposed palette on some other content. -/
def exampleSeventeenColours : Image :=
  { originalBmp := [(List.range 17).map (fun i => ⟨i, 0, 0, 1⟩)]
    transformedBmp := some [[⟨1, 2, 3, 1⟩]]
    palette := imposedPalette
    currentTransformation := .imposedPalette }

/-- A 3 by 3 image: nine pixels, fewer than the 16 buckets of the median cut. -/
def exampleThreeByThree : Image :=
  { originalBmp := [[⟨10, 20, 30, 1⟩, ⟨40, 50, 60, 1⟩, ⟨70, 80, 90, 1⟩],
                    [⟨15, 25, 35, 1⟩, ⟨45, 55, 65, 1⟩, ⟨75, 85, 95, 1⟩],
                    [⟨100, 110, 120, 1⟩, ⟨130, 140, 150, 1⟩, ⟨160, 170, 180, 1⟩]]
    transformedBmp := none
    palette := fun _ => black0
    currentTransformation := .none }

/-- A 64 by 64 image: 4096 pixels, 256 for each of the 16 buckets. -/
def exampleSixtyFour : Image :=
  { originalBmp := List.replicate 64 (List.replicate 64 ⟨200, 100, 50, 1⟩)
    transformedBmp := none
    palette := fun _ => black0
    currentTransformation := .none }

/-- A 1 by 1 image whose pixel has red 85. -/
def exampleDarkRed : Image :=
  { originalBmp := [[⟨85, 0, 0, 1⟩]]
    transformedBmp := none
    palette := fun _ => black0
    currentTransformation := .none }

/-- A 4 by 4 image with 16 different colours. -/
def exampleFourByFour : Image :=
  { originalBmp := [[⟨0, 0, 0, 1⟩, ⟨37, 91, 13, 1⟩, ⟨74, 182, 26, 1⟩, ⟨111, 17, 39, 1⟩],
                    [⟨148, 108, 52, 1⟩, ⟨185, 199, 65, 1⟩, ⟨222, 34, 78, 1⟩, ⟨3, 125, 91, 1⟩],
                    [⟨40, 216, 104, 1⟩, ⟨77, 51, 117, 1⟩, ⟨114, 142, 130, 1⟩, ⟨151, 233, 143, 1⟩],
                    [⟨188, 68, 156, 1⟩, ⟨225, 159, 169, 1⟩, ⟨6, 250, 182, 1⟩, ⟨43, 85, 195, 1⟩]]
    transformedBmp := none
    palette := fun _ => black0
    currentTransformation := .none }

/-! ## The specification side

The roundings, grey level and channel spread in the words of the specification, to be
compared with the code. -/

/-- The rounding `round(num / den)` of the specification on a non-negative rational:
to the nearest integer, halves up. -/
def roundHalfUp (num den : Nat) : Nat := (2 * num + den) / (2 * den)

/-- The grey level as the specification words it: `round(luminance * 15 / 255)` with
`luminance = 0.299 r + 0.587 g + 0.114 b`, over the rationals. -/
def reduceGreySpec (color : SDL_Color) : Nat :=
  roundHalfUp ((299 * color.r + 587 * color.g + 114 * color.b) * 15) (1000 * 255)

/-- The greatest value of a channel over a bucket. -/
def channelMax (key : SDL_Color → Nat) (bucket : List SDL_Color) : Nat :=
  (bucket.map key).foldl max 0

/-- The least value of a channel over a bucket (0 for an empty one). -/
def channelMin (key : SDL_Color → Nat) : List SDL_Color → Nat
  | [] => 0
  | c :: cs => (cs.map key).foldl min (key c)

/-- The spread `max - min` of a channel over a bucket, as the specification words it. -/
def spread (key : SDL_Color → Nat) (bucket : List SDL_Color) : Int :=
  (channelMax key bucket : Int) - (channelMin key bucket : Int)

/-! ## Positions and further example inputs -/

/-- The read `buffer[x][y]`, when the position is inside the buffer. -/
def pixelAt (buffer : PixelBuffer) (x y : Nat) : Option SDL_Color :=
  (buffer[x]?).bind (fun row => row[y]?)

/-- A 1 by 1 white image. -/
def exampleWhite : Image :=
  { originalBmp := [[⟨255, 255, 255, 1⟩]]
    transformedBmp := none
    palette := fun _ => black0
    currentTransformation := .none }

/-- A 4 by 4 grey ramp whose last pixel is the darkest. -/
def exampleDarkLast : Image :=
  { originalBmp := [[⟨10, 10, 10, 1⟩, ⟨20, 20, 20, 1⟩, ⟨30, 30, 30, 1⟩, ⟨40, 40, 40, 1⟩],
                    [⟨50, 50, 50, 1⟩, ⟨60, 60, 60, 1⟩, ⟨70, 70, 70, 1⟩, ⟨80, 80, 80, 1⟩],
                    [⟨90, 90, 90, 1⟩, ⟨100, 100, 100, 1⟩, ⟨110, 110, 110, 1⟩, ⟨120, 120, 120, 1⟩],
                    [⟨130, 130, 130, 1⟩, ⟨140, 140, 140, 1⟩, ⟨150, 150, 150, 1⟩, ⟨0, 0, 0, 1⟩]]
    transformedBmp := none
    palette := fun _ => black0
    currentTransformation := .none }

/-- The 4 by 4 example held by an engine that has already run the imposed palette on some
other content. -/
def exampleFourByFourUsed : Image :=
  { originalBmp := exampleFourByFour.originalBmp
    transformedBmp := some [[⟨1, 2, 3, 1⟩]]
    palette := imposedPalette
    currentTransformation := .imposedPalette }

/-! ## The leaf ranges of the median cut -/

/-- The ranges `(start, end)` on which the recursion of `medianCut` and of
`medianCutGreyscale`, entered with `(start, end, iteration)`, reaches its leaf part, in
the order of the calls: `(start, medium - 1)` before `(medium, end)`. -/
def leafRanges (startIdx endIdx : Nat) : Nat → List (Nat × Nat)
  | 0 => [(startIdx, endIdx)]
  | iteration + 1 =>
    leafRanges startIdx (sizePred (mediumOf startIdx endIdx)) iteration ++
      leafRanges (mediumOf startIdx endIdx) endIdx iteration

/-- The inclusive ranges of a list follow one another without gap or overlap from
`first` up to, not including, `stop`, and none of them is empty. -/
def Contiguous : Nat → List (Nat × Nat) → Nat → Prop
  | first, [], stop => first = stop
  | first, (a, b) :: rest, stop => a = first ∧ a ≤ b ∧ Contiguous (b + 1) rest stop

/-- The per-channel arithmetic mean of a bucket, the sum divided by the member count and
integer-truncated, with the alpha 1 of a palette entry. -/
def meanColor (bucket : List SDL_Color) : SDL_Color :=
  ⟨(bucket.map (fun c => c.r)).sum / bucket.length, (bucket.map (fun c => c.g)).sum / bucket.length,
    (bucket.map (fun c => c.b)).sum / bucket.length, 1⟩

/-- The scalar arithmetic mean of a bucket of luminances, integer-truncated. -/
def meanGrey (bucket : List Nat) : Nat := bucket.sum / bucket.length

/-- A 16 by 258 image of one grey: 4128 pixels, 258 for each of the 16 buckets. -/
def exampleUniform : Image :=
  { originalBmp := List.replicate 16 (List.replicate 258 ⟨21, 21, 21, 1⟩)
    transformedBmp := none
    palette := fun _ => black0
    currentTransformation := .none }

/-! ## The legacy packing of `Application.cpp` -/

/-- The method `Application::ConvertFrom24`: each channel is shifted into a `uint8_t`,
the fields are combined in `int` and the result is converted to `uint8_t`. -/
def ConvertFrom24 (color : SDL_Color) : Nat :=
  let r := (color.r >>> 6) % 256
  let g := (color.g >>> 6) % 256
  let b := (color.b >>> 6) % 256
  ((r <<< 4) ||| (g <<< 2) ||| b) % 256

/-- The local `bit_count` of `Application::SaveFile`, written into the file header. -/
def bit_count : Nat := 4

/-- A palette with the greys 49 and 40 in its first two entries and white in the others. -/
def exampleTwoGreys : Palette := fun i =>
  if i.val = 0 then ⟨49, 49, 49, 1⟩ else if i.val = 1 then ⟨40, 40, 40, 1⟩ else ⟨255, 255, 255, 1⟩

/-! ## Theorems -/

/-! ### The dedicated-palette scan -/

theorem compareSdlColor_iff (p q : SDL_Color) :
    compareSdlColor p q = true ↔ p.r = q.r ∧ p.g = q.g ∧ p.b = q.b := by
  simp [compareSdlColor, and_assoc]

theorem compareSdlColor_refl (p : SDL_Color) : compareSdlColor p p = true := by
  simp [compareSdlColor_iff]

theorem compareSdlColor_comm (p q : SDL_Color) : compareSdlColor p q = compareSdlColor q p := by
  rw [Bool.eq_iff_iff, compareSdlColor_iff, compareSdlColor_iff]
  constructor <;> rintro ⟨h1, h2, h3⟩ <;> exact ⟨h1.symm, h2.symm, h3.symm⟩

theorem compareSdlColor_trans {p q s : SDL_Color} (h1 : compareSdlColor p q = true)
    (h2 : compareSdlColor q s = true) : compareSdlColor p s = true := by
  rw [compareSdlColor_iff] at *
  exact ⟨h1.1.trans h2.1, h1.2.1.trans h2.2.1, h1.2.2.trans h2.2.2⟩

/-- The left-to-right scan of the code, started from the colours `acc`, adds the first
occurrences that are not yet in `acc`. -/
theorem foldl_collectPixel (l : List SDL_Color) (acc : List SDL_Color) :
    l.foldl collectPixel acc =
      acc ++ (firstOccurrences l).filter (fun q => !acc.any (fun c => compareSdlColor c q)) := by
  induction l generalizing acc with
  | nil => simp [firstOccurrences]
  | cons p ps ih =>
    rw [List.foldl_cons, ih, firstOccurrences]
    by_cases hp : acc.any (fun c => compareSdlColor c p) = true
    · have hstep : collectPixel acc p = acc := by simp [collectPixel, hp]
      rw [hstep, List.filter_cons]
      simp only [hp, Bool.not_true, Bool.false_eq_true, if_false, List.filter_filter]
      congr 1
      apply List.filter_congr
      intro q _
      by_cases hq : acc.any (fun c => compareSdlColor c q) = true
      · simp [hq]
      · have hpq : compareSdlColor p q = false := by
          by_contra hne
          have hpq : compareSdlColor p q = true := by simpa using hne
          apply hq
          obtain ⟨c, hc, hcp⟩ := List.any_eq_true.mp hp
          exact List.any_eq_true.mpr ⟨c, hc, compareSdlColor_trans hcp hpq⟩
        simp [hq, hpq]
    · have hp' : acc.any (fun c => compareSdlColor c p) = false := by simpa using hp
      have hstep : collectPixel acc p = acc ++ [p] := by simp [collectPixel, hp']
      rw [hstep, List.filter_cons]
      simp only [hp', Bool.not_false, if_true, List.filter_filter, List.append_assoc,
        List.singleton_append]
      congr 2
      apply List.filter_congr
      intro q _
      simp [List.any_append, Bool.and_comm]

theorem scanDedicatedPalette_eq (bmp : PixelBuffer) :
    scanDedicatedPalette bmp = distinctColours bmp := by
  unfold scanDedicatedPalette distinctColours
  rw [← List.foldl_flatten, foldl_collectPixel]
  simp

theorem firstOccurrences_sublist (l : List SDL_Color) : (firstOccurrences l).Sublist l := by
  induction l with
  | nil => simp [firstOccurrences]
  | cons p ps ih =>
    rw [firstOccurrences]
    exact ((List.filter_sublist _).trans ih).cons₂ p

theorem firstOccurrences_pairwise (l : List SDL_Color) :
    (firstOccurrences l).Pairwise (fun p q => compareSdlColor p q = false) := by
  induction l with
  | nil => simp [firstOccurrences]
  | cons p ps ih =>
    rw [firstOccurrences, List.pairwise_cons]
    refine ⟨?_, ih.sublist (List.filter_sublist _)⟩
    intro q hq
    simpa using (List.mem_filter.mp hq).2

theorem firstOccurrences_covers (l : List SDL_Color) :
    ∀ p ∈ l, ∃ q ∈ firstOccurrences l, compareSdlColor q p = true := by
  induction l with
  | nil => simp
  | cons a as ih =>
    intro p hp
    rw [firstOccurrences]
    rcases List.mem_cons.mp hp with rfl | hp
    · exact ⟨p, List.mem_cons_self _ _, compareSdlColor_refl p⟩
    · obtain ⟨q, hq, hqp⟩ := ih p hp
      by_cases haq : compareSdlColor a q = true
      · exact ⟨a, List.mem_cons_self _ _, compareSdlColor_trans haq hqp⟩
      · refine ⟨q, List.mem_cons_of_mem _ (List.mem_filter.mpr ⟨hq, ?_⟩), hqp⟩
        simpa using haq

theorem dedicatedPaletteTransformation_eq (img : Image) (hrows : img.originalBmp ≠ []) :
    dedicatedPaletteTransformation img =
      if (distinctColours img.originalBmp).length > 16 then
        .thrown (distinctColours img.originalBmp).length img
      else
        .returned
          { img with
            currentTransformation := .dedicatedPalette
            palette := copyIntoPalette (distinctColours img.originalBmp) (clearPalette img.palette)
            transformedBmp := some img.originalBmp } := by
  unfold dedicatedPaletteTransformation
  cases h : img.originalBmp with
  | nil => exact absurd h hrows
  | cons row rows => simp only [scanDedicatedPalette_eq]

/-! ### Dedicated palette: identity, failure, atomicity -/

/-- C1: for an image with at least one row whose pixels hold at most 16 distinct RGB
colours, `transform(dedicatedPalette)` returns normally; the palette starts with the
distinct colours in order of first occurrence in the scan (outer index first), which
are pairwise different on r, g, b and cover every pixel, the other entries are
`SDL_Color{0, 0, 0, 0}`, and the transformed buffer is the original buffer. -/
theorem dedicatedPalette_identity (S : StdSort) (img : Image) (hrows : img.originalBmp ≠ [])
    (hn : (distinctColours img.originalBmp).length ≤ 16) :
    ∃ img', transform S .dedicatedPalette img = .returned img' ∧
      (∀ (i : Fin 16) (h : i.val < (distinctColours img.originalBmp).length),
        img'.palette i = (distinctColours img.originalBmp).get ⟨i.val, h⟩) ∧
      (∀ i : Fin 16, (distinctColours img.originalBmp).length ≤ i.val → img'.palette i = ⟨0, 0, 0, 0⟩) ∧
      List.Pairwise (fun p q => compareSdlColor p q = false) (distinctColours img.originalBmp) ∧
      (∀ row ∈ img.originalBmp, ∀ pixel ∈ row,
        ∃ q ∈ distinctColours img.originalBmp, compareSdlColor q pixel = true) ∧
      img'.transformedBmp = some img.originalBmp ∧
      img'.originalBmp = img.originalBmp := by
  refine ⟨{ img with
      currentTransformation := .dedicatedPalette
      palette := copyIntoPalette (distinctColours img.originalBmp) (clearPalette img.palette)
      transformedBmp := some img.originalBmp }, ?_, ?_, ?_, firstOccurrences_pairwise _, ?_, ?_, ?_⟩
  · show dedicatedPaletteTransformation img = _
    rw [dedicatedPaletteTransformation_eq img hrows, if_neg (by omega)]
  · intro i h
    simp [copyIntoPalette, h]
  · intro i h
    have : ¬ i.val < (distinctColours img.originalBmp).length := by omega
    simp [copyIntoPalette, this, clearPalette, black0]
  · intro row hrow pixel hpixel
    exact firstOccurrences_covers _ pixel (List.mem_flatten.mpr ⟨row, hrow, hpixel⟩)
  · rfl
  · rfl

/-- The 2 by 2 example of the specification, for C1. -/
theorem dedicatedPalette_identity_witness :
    exampleTwoByTwo.originalBmp ≠ [] ∧
    (distinctColours exampleTwoByTwo.originalBmp).length ≤ 16 ∧
    distinctColours exampleTwoByTwo.originalBmp = [⟨255, 0, 0, 1⟩, ⟨0, 255, 0, 1⟩, ⟨0, 0, 255, 1⟩] ∧
    ∃ img', transform insertionStdSort .dedicatedPalette exampleTwoByTwo = .returned img' ∧
      (∀ (i : Fin 16) (h : i.val < (distinctColours exampleTwoByTwo.originalBmp).length),
        img'.palette i = (distinctColours exampleTwoByTwo.originalBmp).get ⟨i.val, h⟩) ∧
      (∀ i : Fin 16, (distinctColours exampleTwoByTwo.originalBmp).length ≤ i.val →
        img'.palette i = ⟨0, 0, 0, 0⟩) ∧
      List.Pairwise (fun p q => compareSdlColor p q = false) (distinctColours exampleTwoByTwo.originalBmp) ∧
      (∀ row ∈ exampleTwoByTwo.originalBmp, ∀ pixel ∈ row,
        ∃ q ∈ distinctColours exampleTwoByTwo.originalBmp, compareSdlColor q pixel = true) ∧
      img'.transformedBmp = some exampleTwoByTwo.originalBmp ∧
      img'.originalBmp = exampleTwoByTwo.originalBmp :=
  ⟨by decide, by decide, by decide,
    dedicatedPalette_identity insertionStdSort exampleTwoByTwo (by decide) (by decide)⟩

/-- C2: `transform(dedicatedPalette)` lets `UnsupportedDedicatedPalette` escape exactly
when the buffer holds more than 16 distinct RGB colours, and the exception carries
that number of distinct colours. -/
theorem dedicatedPalette_throws_iff (S : StdSort) (img : Image) :
    ((∃ numColors st, transform S .dedicatedPalette img = .thrown numColors st) ↔
      16 < (distinctColours img.originalBmp).length) ∧
    (∀ numColors st, transform S .dedicatedPalette img = .thrown numColors st →
      numColors = (distinctColours img.originalBmp).length) := by
  show ((∃ numColors st, dedicatedPaletteTransformation img = .thrown numColors st) ↔ _) ∧
    (∀ numColors st, dedicatedPaletteTransformation img = .thrown numColors st → _)
  by_cases hrows : img.originalBmp = []
  · have hund : dedicatedPaletteTransformation img = .undefined .outOfRange := by
      unfold dedicatedPaletteTransformation
      rw [hrows]
    simp [hund, hrows, distinctColours, firstOccurrences]
  · rw [dedicatedPaletteTransformation_eq img hrows]
    by_cases hn : (distinctColours img.originalBmp).length > 16
    · rw [if_pos hn]
      refine ⟨⟨fun _ => hn, fun _ => ⟨_, _, rfl⟩⟩, ?_⟩
      intro numColors st h
      injection h with h1 h2
      exact h1.symm
    · rw [if_neg hn]
      refine ⟨⟨?_, fun h => absurd h hn⟩, ?_⟩
      · rintro ⟨numColors, st, h⟩
        cases h
      · intro numColors st h
        cases h

/-- C3: with more than 16 distinct colours the call throws and leaves the whole object
(original buffer, transformed buffer, palette, recorded transformation) as it was. -/
theorem dedicatedPalette_failure_atomic (S : StdSort) (img : Image)
    (hn : 16 < (distinctColours img.originalBmp).length) :
    transform S .dedicatedPalette img = .thrown (distinctColours img.originalBmp).length img := by
  show dedicatedPaletteTransformation img = _
  have hrows : img.originalBmp ≠ [] := by
    intro h
    rw [h] at hn
    simp [distinctColours, firstOccurrences] at hn
  rw [dedicatedPaletteTransformation_eq img hrows, if_pos hn]

/-- An engine that already holds a result, asked for a 17-colour image, for C3. -/
theorem dedicatedPalette_failure_atomic_witness :
    16 < (distinctColours exampleSeventeenColours.originalBmp).length ∧
    (distinctColours exampleSeventeenColours.originalBmp).length = 17 ∧
    transform insertionStdSort .dedicatedPalette exampleSeventeenColours =
      .thrown (distinctColours exampleSeventeenColours.originalBmp).length exampleSeventeenColours :=
  ⟨by decide, by decide, dedicatedPalette_failure_atomic insertionStdSort exampleSeventeenColours (by decide)⟩

/-! ### Rounding bounds -/

theorem floorLog2Aux_spec (fuel n : Nat) (hn : 1 ≤ n) (hf : n ≤ fuel) :
    2 ^ floorLog2Aux fuel n ≤ n ∧ n < 2 ^ (floorLog2Aux fuel n + 1) := by
  induction fuel generalizing n with
  | zero => omega
  | succ fuel ih =>
    rw [floorLog2Aux]
    by_cases h2 : n < 2
    · rw [if_pos h2]
      have : n = 1 := by omega
      subst this
      simp
    · rw [if_neg h2]
      have := ih (n / 2) (by omega) (by omega)
      rw [pow_succ, pow_succ]
      omega

theorem floorLog2_le (n : Nat) (hn : 1 ≤ n) : 2 ^ floorLog2 n ≤ n :=
  (floorLog2Aux_spec n n hn (le_refl n)).1

theorem lt_floorLog2 (n : Nat) (hn : 1 ≤ n) : n < 2 ^ (floorLog2 n + 1) :=
  (floorLog2Aux_spec n n hn (le_refl n)).2

theorem floorLog2_zero : floorLog2 0 = 0 := rfl

/-- The quantum of the rounding is at most `1` or the `2^(p-1)`-th part of the value. -/
theorem quantum_le (p t : Nat) (hp : 1 ≤ p) :
    2 ^ (floorLog2 t + 1 - p) ≤ t / 2 ^ (p - 1) + 1 := by
  by_cases hk : floorLog2 t + 1 - p = 0
  · rw [hk]; simp
  · have ht : 1 ≤ t := by
      rcases Nat.eq_zero_or_pos t with h | h
      · subst h; rw [floorLog2_zero] at hk; omega
      · exact h
    have h1 := floorLog2_le t ht
    have hsplit : floorLog2 t = (floorLog2 t + 1 - p) + (p - 1) := by omega
    have h2 : 2 ^ (floorLog2 t + 1 - p) * 2 ^ (p - 1) ≤ t := by
      rw [← pow_add, ← hsplit]; exact h1
    have h3 : 2 ^ (floorLog2 t + 1 - p) ≤ t / 2 ^ (p - 1) :=
      (Nat.le_div_iff_mul_le (by positivity)).mpr h2
    omega

/-- A rounded value is either side of the quantum interval around the exact one. -/
theorem roundNearestEven_cases (p num den : Nat) :
    roundNearestEven p num den = num / (den * 2 ^ (floorLog2 (num / den) + 1 - p)) *
        2 ^ (floorLog2 (num / den) + 1 - p) ∨
    roundNearestEven p num den = (num / (den * 2 ^ (floorLog2 (num / den) + 1 - p)) + 1) *
        2 ^ (floorLog2 (num / den) + 1 - p) := by
  unfold roundNearestEven
  simp only
  split_ifs <;> simp

theorem roundNearestEven_le (p num den : Nat) (hp : 1 ≤ p) :
    roundNearestEven p num den ≤ num / den + num / den / 2 ^ (p - 1) + 1 := by
  have hq : num / (den * 2 ^ (floorLog2 (num / den) + 1 - p)) *
      2 ^ (floorLog2 (num / den) + 1 - p) ≤ num / den := by
    rw [← Nat.div_div_eq_div_mul]
    exact Nat.div_mul_le_self _ _
  have hk := quantum_le p (num / den) hp
  generalize hkdef : floorLog2 (num / den) + 1 - p = k at hq hk
  have hc := roundNearestEven_cases p num den
  rw [hkdef] at hc
  generalize num / (den * 2 ^ k) = q at hq hc
  generalize roundNearestEven p num den = v at hc
  generalize num / den = t at hq hk
  generalize 2 ^ k = w at hq hk hc
  generalize t / 2 ^ (p - 1) = u at hk
  rcases hc with h | h <;> rw [h]
  · omega
  · rw [Nat.add_mul, Nat.one_mul]; omega

theorem le_roundNearestEven (p num den : Nat) (hp : 1 ≤ p) :
    num / den ≤ roundNearestEven p num den + num / den / 2 ^ (p - 1) + 1 := by
  have hk := quantum_le p (num / den) hp
  generalize hkdef : floorLog2 (num / den) + 1 - p = k at hk
  have hpos : 0 < 2 ^ k := by positivity
  have hq : num / den < (num / (den * 2 ^ k) + 1) * 2 ^ k := by
    rw [← Nat.div_div_eq_div_mul]
    have := Nat.div_add_mod (num / den) (2 ^ k)
    have := Nat.mod_lt (num / den) hpos
    rw [Nat.add_mul, Nat.one_mul, Nat.mul_comm]
    omega
  have hc := roundNearestEven_cases p num den
  rw [hkdef] at hc
  generalize num / (den * 2 ^ k) = q at hq hc
  generalize roundNearestEven p num den = v at hc
  generalize num / den = t at hq hk
  generalize 2 ^ k = w at hq hk hc
  generalize t / 2 ^ (p - 1) = u at hk
  rw [Nat.add_mul, Nat.one_mul] at hq hc
  rcases hc with h | h <;> omega

theorem fpLiteral_299 : fpLiteral 53 299 1000 = 5515576478039155712 := by decide
theorem fpLiteral_587f : fpLiteral 24 587 1000 = 10828238999965925376 := by decide
theorem fpLiteral_114f : fpLiteral 24 114 1000 = 2102928825502400512 := by decide

theorem greyLevel_lt (color : SDL_Color) (h : color.IsUint8) :
    fpTrunc (greyLevelDouble color) < 16 := by
  obtain ⟨hr, hg, hb, _⟩ := h
  unfold greyLevelDouble fpTrunc
  simp only [fpLiteral_299, fpLiteral_587f, fpLiteral_114f, fpMul, fpAdd, fpDiv, fpOfNat, fpUnit]
  have hA := roundNearestEven_le 53 (5515576478039155712 * (color.r * 2 ^ 64)) (2 ^ 64) (by norm_num)
  have hB := roundNearestEven_le 24 (10828238999965925376 * (color.g * 2 ^ 64)) (2 ^ 64) (by norm_num)
  have hC := roundNearestEven_le 24 (2102928825502400512 * (color.b * 2 ^ 64)) (2 ^ 64) (by norm_num)
  generalize roundNearestEven 53 (5515576478039155712 * (color.r * 2 ^ 64)) (2 ^ 64) = A at *
  generalize roundNearestEven 24 (10828238999965925376 * (color.g * 2 ^ 64)) (2 ^ 64) = B at *
  generalize roundNearestEven 24 (2102928825502400512 * (color.b * 2 ^ 64)) (2 ^ 64) = C at *
  have hS1 := roundNearestEven_le 53 (A + B) 1 (by norm_num)
  generalize roundNearestEven 53 (A + B) 1 = S1 at *
  have hS2 := roundNearestEven_le 53 (S1 + C) 1 (by norm_num)
  generalize roundNearestEven 53 (S1 + C) 1 = S2 at *
  have hX := roundNearestEven_le 53 (S2 * (15 * 2 ^ 64)) (2 ^ 64) (by norm_num)
  generalize roundNearestEven 53 (S2 * (15 * 2 ^ 64)) (2 ^ 64) = X at *
  have hY := roundNearestEven_le 53 (X * 2 ^ 64) (255 * 2 ^ 64) (by norm_num)
  generalize roundNearestEven 53 (X * 2 ^ 64) (255 * 2 ^ 64) = Y at *
  norm_num at hA hB hC hS1 hS2 hX hY ⊢
  omega

/-! ### Closed forms of the reducers and palettes -/

/-- The rounded quotient `channel * factor / 255.0` is within `2 ^ -34` of the exact one. -/
theorem reduceChannel_bounds (r f : Nat) (hr : r < 256) (hf : f < 4) :
    ∃ Y, reduceChannel r f = (Y + 2 ^ 63) / 2 ^ 64 % 256 ∧
      255 * Y ≤ r * f * 2 ^ 64 + 2 ^ 30 ∧ r * f * 2 ^ 64 ≤ 255 * Y + 2 ^ 30 := by
  unfold reduceChannel fpRound fpDiv fpMul fpOfNat fpUnit
  have hX := roundNearestEven_le 53 (r * 2 ^ 64 * (f * 2 ^ 64)) (2 ^ 64) (by norm_num)
  have hX' := le_roundNearestEven 53 (r * 2 ^ 64 * (f * 2 ^ 64)) (2 ^ 64) (by norm_num)
  have e1 : r * 2 ^ 64 * (f * 2 ^ 64) / 2 ^ 64 = r * f * 2 ^ 64 := by
    rw [show r * 2 ^ 64 * (f * 2 ^ 64) = r * f * 2 ^ 64 * 2 ^ 64 by ring,
      Nat.mul_div_cancel _ (by positivity)]
  rw [e1] at hX hX'
  generalize roundNearestEven 53 (r * 2 ^ 64 * (f * 2 ^ 64)) (2 ^ 64) = X at *
  have hY := roundNearestEven_le 53 (X * 2 ^ 64) (255 * 2 ^ 64) (by norm_num)
  have hY' := le_roundNearestEven 53 (X * 2 ^ 64) (255 * 2 ^ 64) (by norm_num)
  have e2 : X * 2 ^ 64 / (255 * 2 ^ 64) = X / 255 := by
    rw [Nat.mul_div_mul_right _ _ (by positivity)]
  rw [e2] at hY hY'
  generalize roundNearestEven 53 (X * 2 ^ 64) (255 * 2 ^ 64) = Y at *
  refine ⟨Y, rfl, ?_, ?_⟩
  · have hrf : r * f ≤ 765 := by nlinarith
    generalize r * f = p at *
    norm_num at hX hX' hY hY' ⊢
    omega
  · have hrf : r * f ≤ 765 := by nlinarith
    generalize r * f = p at *
    norm_num at hX hX' hY hY' ⊢
    omega

theorem reduceChannel_three (r : Nat) (h : r < 256) : reduceChannel r 3 = (2 * r + 85) / 170 := by
  obtain ⟨Y, hY, h1, h2⟩ := reduceChannel_bounds r 3 h (by norm_num)
  rw [hY]
  clear hY
  norm_num at h1 h2 ⊢
  have hk : (2 * r + 85) / 170 = 0 ∨ (2 * r + 85) / 170 = 1 ∨ (2 * r + 85) / 170 = 2 ∨
      (2 * r + 85) / 170 = 3 := by omega
  rcases hk with hk | hk | hk | hk <;> rw [hk]
  · have hr : r ≤ 42 := by omega
    have : Y < 9223372036854775808 := by omega
    clear h1 h2
    omega
  · have hr1 : 43 ≤ r := by omega
    have hr2 : r ≤ 127 := by omega
    have : 9223372036854775808 ≤ Y := by omega
    have : Y < 27670116110564327424 := by omega
    clear h1 h2
    omega
  · have hr1 : 128 ≤ r := by omega
    have hr2 : r ≤ 212 := by omega
    have : 27670116110564327424 ≤ Y := by omega
    have : Y < 46116860184273879040 := by omega
    clear h1 h2
    omega
  · have hr1 : 213 ≤ r := by omega
    have : 46116860184273879040 ≤ Y := by omega
    have : Y < 64563604257983430656 := by omega
    clear h1 h2
    omega

theorem reduceChannel_one (r : Nat) (h : r < 256) : reduceChannel r 1 = r / 128 := by
  obtain ⟨Y, hY, h1, h2⟩ := reduceChannel_bounds r 1 h (by norm_num)
  rw [hY]
  clear hY
  norm_num at h1 h2 ⊢
  have hk : r / 128 = 0 ∨ r / 128 = 1 := by omega
  rcases hk with hk | hk <;> rw [hk]
  · have hr : r ≤ 127 := by omega
    have : Y < 9223372036854775808 := by omega
    clear h1 h2
    omega
  · have hr : 128 ≤ r := by omega
    have : 9223372036854775808 ≤ Y := by omega
    have : Y < 27670116110564327424 := by omega
    clear h1 h2
    omega

set_option maxRecDepth 1000000 in
theorem getSdlColor_fields_fin : ∀ (r : Fin 4) (g b : Fin 2),
    FourBitColor.getSdlColor ⟨r.val, g.val, b.val⟩ = ⟨85 * r.val, 255 * g.val, 255 * b.val, 1⟩ := by
  decide

theorem getSdlColor_fields (r g b : Nat) (hr : r < 4) (hg : g < 2) (hb : b < 2) :
    FourBitColor.getSdlColor ⟨r, g, b⟩ = ⟨85 * r, 255 * g, 255 * b, 1⟩ :=
  getSdlColor_fields_fin ⟨r, hr⟩ ⟨g, hg⟩ ⟨b, hb⟩

set_option maxRecDepth 1000000 in
theorem imposedPalette_apply : ∀ i : Fin 16,
    imposedPalette i = ⟨85 * (i.val / 4), 255 * (i.val / 2 % 2), 255 * (i.val % 2), 1⟩ := by
  decide

set_option maxRecDepth 1000000 in
theorem greyscalePalette_apply : ∀ i : Fin 16,
    greyscalePalette i = ⟨17 * i.val, 17 * i.val, 17 * i.val, 1⟩ := by
  decide

set_option maxRecDepth 1000000 in
theorem getUpdatedBayerTable_eq : getUpdatedBayerTable =
    [[88, 216, 120, 248], [152, 24, 184, 56], [104, 232, 72, 200], [168, 40, 136, 8]] := by
  decide

/-- The imposed-palette quantiser on an 8-bit colour. -/
theorem imposed_pixel (p : SDL_Color) (h : p.IsUint8) :
    (FourBitColor.ofColor p).getSdlColor =
      ⟨85 * ((2 * p.r + 85) / 170), 255 * (p.g / 128), 255 * (p.b / 128), 1⟩ := by
  obtain ⟨hr, hg, hb, _⟩ := h
  unfold FourBitColor.ofColor
  rw [reduceChannel_three p.r hr, reduceChannel_one p.g hg, reduceChannel_one p.b hb]
  exact getSdlColor_fields _ _ _ (by omega) (by omega) (by omega)

/-- A colour whose red is a multiple of 85 up to 255 and whose green and blue are 0
or 255 is RGB-equal to an entry of the imposed palette. -/
theorem imposedPalette_covers (r g b : Nat) (c : SDL_Color) (hr : r < 4) (hg : g < 2) (hb : b < 2)
    (hcr : c.r = 85 * r) (hcg : c.g = 255 * g) (hcb : c.b = 255 * b) :
    ∃ i : Fin 16, compareSdlColor c (imposedPalette i) = true := by
  refine ⟨⟨4 * r + 2 * g + b, by omega⟩, ?_⟩
  rw [imposedPalette_apply]
  simp only [compareSdlColor, hcr, hcg, hcb, Bool.and_eq_true, beq_iff_eq]
  refine ⟨⟨?_, ?_⟩, ?_⟩ <;> congr 1 <;> omega

theorem mem_mapWithIndex {α β : Type} (f : Nat → α → β) (l : List α) (i : Nat) (y : β)
    (hy : y ∈ mapWithIndex f i l) : ∃ j a, a ∈ l ∧ y = f j a := by
  induction l generalizing i with
  | nil => simp [mapWithIndex] at hy
  | cons a as ih =>
    rw [mapWithIndex] at hy
    rcases List.mem_cons.mp hy with rfl | hy
    · exact ⟨i, a, List.mem_cons_self _ _, rfl⟩
    · obtain ⟨j, b, hb, hyb⟩ := ih (i + 1) hy
      exact ⟨j, b, List.mem_cons_of_mem _ hb, hyb⟩

theorem ditherPixel_in_palette (table : List (List Nat)) (x y : Nat) (p : SDL_Color) (h : p.IsUint8) :
    ∃ i : Fin 16, compareSdlColor (ditherPixel table x y p) (imposedPalette i) = true := by
  unfold ditherPixel
  rw [imposed_pixel p h]
  obtain ⟨hr, hg, hb, _⟩ := h
  simp only
  generalize tableAt table (y % bayerTableSize) (x % bayerTableSize) = t
  have h4 : (2 * p.r + 85) / 170 < 4 := by omega
  by_cases h1 : 85 * ((2 * p.r + 85) / 170) > t <;>
  by_cases h2 : 255 * (p.g / 128) > t <;>
  by_cases h3 : 255 * (p.b / 128) > t <;>
  simp only [h1, h2, h3, if_true, if_false]
  · exact imposedPalette_covers 3 1 1 _ (by omega) (by omega) (by omega) rfl rfl rfl
  · exact imposedPalette_covers 3 1 0 _ (by omega) (by omega) (by omega) rfl rfl rfl
  · exact imposedPalette_covers 3 0 1 _ (by omega) (by omega) (by omega) rfl rfl rfl
  · exact imposedPalette_covers 3 0 0 _ (by omega) (by omega) (by omega) rfl rfl rfl
  · exact imposedPalette_covers _ 1 1 _ h4 (by omega) (by omega) rfl rfl rfl
  · exact imposedPalette_covers _ 1 0 _ h4 (by omega) (by omega) rfl rfl rfl
  · exact imposedPalette_covers _ 0 1 _ h4 (by omega) (by omega) rfl rfl rfl
  · exact imposedPalette_covers _ 0 0 _ h4 (by omega) (by omega) rfl rfl rfl

theorem ditherGreyscalePixel_in_palette (table : List (List Nat)) (x y : Nat) (p : SDL_Color) :
    ∃ i : Fin 16, compareSdlColor (ditherGreyscalePixel table x y p) (greyscalePalette i) = true := by
  unfold ditherGreyscalePixel
  split_ifs
  · exact ⟨15, by rw [greyscalePalette_apply]; rfl⟩
  · exact ⟨0, by rw [greyscalePalette_apply]; rfl⟩

set_option maxRecDepth 1000000 in
theorem expandGrey_fin : ∀ level : Fin 16,
    FourBitGrey.getSdlColor ⟨level.val⟩ = greyscalePalette level := by
  decide

theorem greyscale_pixel_in_palette (p : SDL_Color) (h : p.IsUint8) :
    ∃ i : Fin 16, compareSdlColor (FourBitGrey.ofColor p).getSdlColor (greyscalePalette i) = true := by
  have hlt := greyLevel_lt p h
  refine ⟨⟨fpTrunc (greyLevelDouble p), hlt⟩, ?_⟩
  have : FourBitGrey.ofColor p = ⟨fpTrunc (greyLevelDouble p)⟩ := by
    unfold FourBitGrey.ofColor
    rw [Nat.mod_eq_of_lt (by omega)]
  rw [this, expandGrey_fin ⟨fpTrunc (greyLevelDouble p), hlt⟩]
  simp [compareSdlColor]

/-! ### The square root of `findNeighbour` -/

theorem floorSqrtAux_spec (n : Nat) (bits r : Nat) (h1 : r * r ≤ n)
    (h2 : n < (r + 2 ^ bits) * (r + 2 ^ bits)) :
    floorSqrtAux n bits r * floorSqrtAux n bits r ≤ n ∧
      n < (floorSqrtAux n bits r + 1) * (floorSqrtAux n bits r + 1) := by
  induction bits generalizing r with
  | zero => simpa [floorSqrtAux] using ⟨h1, h2⟩
  | succ bits ih =>
    rw [floorSqrtAux]
    by_cases h : (r + 2 ^ bits) * (r + 2 ^ bits) ≤ n
    · rw [if_pos h]
      apply ih _ h
      have : r + 2 ^ bits + 2 ^ bits = r + 2 ^ (bits + 1) := by rw [pow_succ]; omega
      rw [this]; exact h2
    · rw [if_neg h]
      exact ih _ h1 (by omega)

theorem floorSqrt_spec (n : Nat) (hn : n < 2 ^ 192) :
    floorSqrt n * floorSqrt n ≤ n ∧ n < (floorSqrt n + 1) * (floorSqrt n + 1) := by
  apply floorSqrtAux_spec n 96 0 (by omega)
  norm_num at hn ⊢
  exact hn

/-- The bit-by-bit root is the integer square root. -/
theorem floorSqrt_eq_sqrt (n : Nat) (hn : n < 2 ^ 192) : floorSqrt n = Nat.sqrt n := by
  obtain ⟨h1, h2⟩ := floorSqrt_spec n hn
  exact Nat.eq_sqrt.mpr ⟨h1, h2⟩

/-- The rounded root stays within one quantum of the integer root. -/
theorem sqrtDouble_near (x : Nat) :
    sqrtDouble x ≤ floorSqrt (x * fpUnit) + 2 ^ (floorLog2 (floorSqrt (x * fpUnit)) + 1 - 53) ∧
    floorSqrt (x * fpUnit) < sqrtDouble x + 2 ^ (floorLog2 (floorSqrt (x * fpUnit)) + 1 - 53) := by
  unfold sqrtDouble
  simp only
  generalize floorSqrt (x * fpUnit) = s
  generalize floorLog2 s + 1 - 53 = k
  have hpos : 0 < 2 ^ k := by positivity
  have h1 : s / 2 ^ k * 2 ^ k ≤ s := Nat.div_mul_le_self _ _
  have h2 : s < (s / 2 ^ k + 1) * 2 ^ k := by
    have := Nat.div_add_mod s (2 ^ k)
    have := Nat.mod_lt s hpos
    rw [Nat.add_mul, Nat.one_mul, Nat.mul_comm]
    omega
  have h3 : (s / 2 ^ k + 1) * 2 ^ k = s / 2 ^ k * 2 ^ k + 2 ^ k := by ring
  split_ifs <;> omega

/-- For an integer radicand below `2 ^ 18` the integer root of the scaled value is
below `2 ^ 73`, so the quantum of the rounding is at most `2 ^ 20`. -/
theorem sqrt_scaled_bounds (n : Nat) (hn : n < 2 ^ 18) :
    floorSqrt (fpOfNat n * fpUnit) < 2 ^ 73 ∧
      2 ^ (floorLog2 (floorSqrt (fpOfNat n * fpUnit)) + 1 - 53) ≤ 2 ^ 20 := by
  have hx : fpOfNat n * fpUnit < 2 ^ 146 := by
    unfold fpOfNat fpUnit
    calc n * 2 ^ 64 * 2 ^ 64 = n * 2 ^ 128 := by ring
      _ < 2 ^ 18 * 2 ^ 128 := Nat.mul_lt_mul_of_pos_right hn (by positivity)
      _ = 2 ^ 146 := by norm_num
  obtain ⟨h1, _⟩ := floorSqrt_spec (fpOfNat n * fpUnit) (lt_trans hx (by norm_num))
  generalize floorSqrt (fpOfNat n * fpUnit) = s at h1 ⊢
  have hs : s < 2 ^ 73 := by
    by_contra hge
    have hge : 2 ^ 73 ≤ s := by omega
    have : 2 ^ 73 * 2 ^ 73 ≤ s * s := Nat.mul_le_mul hge hge
    have h146 : (2 : Nat) ^ 73 * 2 ^ 73 = 2 ^ 146 := by norm_num
    omega
  refine ⟨hs, ?_⟩
  apply Nat.pow_le_pow_right (by norm_num)
  rcases Nat.eq_zero_or_pos s with h0 | hpos
  · subst h0; rw [floorLog2_zero]; omega
  · have hlog := floorLog2_le s hpos
    have : floorLog2 s < 73 := by
      by_contra hge
      have hge : 73 ≤ floorLog2 s := by omega
      have : 2 ^ 73 ≤ 2 ^ floorLog2 s := Nat.pow_le_pow_right (by norm_num) hge
      omega
    omega

/-- On the radicands of `findNeighbour` the `double` square root is strictly
increasing: comparing rounded roots is comparing radicands. -/
theorem sqrtDouble_strictMono (a b : Nat) (hb : b < 2 ^ 18) (hab : a < b) :
    sqrtDouble (fpOfNat a) < sqrtDouble (fpOfNat b) := by
  have ha : a < 2 ^ 18 := lt_trans hab hb
  obtain ⟨hsa, hka⟩ := sqrt_scaled_bounds a ha
  obtain ⟨hsb, hkb⟩ := sqrt_scaled_bounds b hb
  obtain ⟨hra, _⟩ := sqrtDouble_near (fpOfNat a)
  obtain ⟨_, hrb⟩ := sqrtDouble_near (fpOfNat b)
  have hxa : fpOfNat a * fpUnit = a * 2 ^ 128 := by unfold fpOfNat fpUnit; ring
  have hxb : fpOfNat b * fpUnit = b * 2 ^ 128 := by unfold fpOfNat fpUnit; ring
  have hlim : ∀ n, n < 2 ^ 18 → n * 2 ^ 128 < 2 ^ 192 := by
    intro n hn
    calc n * 2 ^ 128 < 2 ^ 18 * 2 ^ 128 := Nat.mul_lt_mul_of_pos_right hn (by positivity)
      _ < 2 ^ 192 := by norm_num
  obtain ⟨hsqa, _⟩ := floorSqrt_spec (fpOfNat a * fpUnit) (by rw [hxa]; exact hlim a ha)
  obtain ⟨_, hsqb⟩ := floorSqrt_spec (fpOfNat b * fpUnit) (by rw [hxb]; exact hlim b hb)
  generalize floorSqrt (fpOfNat a * fpUnit) = sa at *
  generalize floorSqrt (fpOfNat b * fpUnit) = sb at *
  rw [hxa] at hsqa
  rw [hxb] at hsqb
  have hgap : sa + 2 ^ 22 ≤ sb := by
    by_contra hlt
    have hlt : sb + 1 ≤ sa + 2 ^ 22 := by omega
    have h1 : (sb + 1) * (sb + 1) ≤ (sa + 2 ^ 22) * (sa + 2 ^ 22) := Nat.mul_le_mul hlt hlt
    have h2 : (sa + 2 ^ 22) * (sa + 2 ^ 22) = sa * sa + 2 ^ 23 * sa + 2 ^ 44 := by ring
    have h3 : (a + 1) * 2 ^ 128 ≤ b * 2 ^ 128 := Nat.mul_le_mul_right _ hab
    have h4 : (a + 1) * 2 ^ 128 = a * 2 ^ 128 + 2 ^ 128 := by ring
    norm_num at hsa h2 h4 h3 hsqa hsqb h1
    omega
  norm_num at hka hkb hgap
  omega

theorem sqrtDouble_lt_iff (a b : Nat) (ha : a < 2 ^ 18) (hb : b < 2 ^ 18) :
    sqrtDouble (fpOfNat a) < sqrtDouble (fpOfNat b) ↔ a < b := by
  constructor
  · intro h
    by_contra hnot
    rcases Nat.eq_or_lt_of_le (Nat.le_of_not_lt hnot) with heq | hlt
    · rw [heq] at h; exact lt_irrefl _ h
    · exact lt_asymm h (sqrtDouble_strictMono b a ha hlt)
  · exact sqrtDouble_strictMono a b hb

theorem sqrtDouble_lt_doubleMax (n : Nat) (hn : n < 2 ^ 18) :
    sqrtDouble (fpOfNat n) < doubleMax := by
  obtain ⟨hs, hk⟩ := sqrt_scaled_bounds n hn
  obtain ⟨hr, _⟩ := sqrtDouble_near (fpOfNat n)
  have : (2 : Nat) ^ 74 < doubleMax := by
    unfold doubleMax fpUnit
    norm_num
  norm_num at hs hk this
  omega

theorem squaredDistance_lt (c p : SDL_Color) (hc : c.IsUint8) (hp : p.IsUint8) :
    squaredDistance c p < 2 ^ 18 := by
  obtain ⟨hcr, hcg, hcb, _⟩ := hc
  obtain ⟨hpr, hpg, hpb, _⟩ := hp
  unfold squaredDistance
  have key : ∀ x y : Nat, x < 256 → y < 256 → ((x : Int) - y) * ((x : Int) - y) ≤ 65025 := by
    intro x y hx hy
    nlinarith
  have h1 := key c.r p.r hcr hpr
  have h2 := key c.g p.g hcg hpg
  have h3 := key c.b p.b hcb hpb
  omega

/-! ### First-minimum scans -/

/-- A left fold that keeps the first strict minimum: either nothing beat the start
value, or the list splits around the kept index, with strictly larger values before
it and values at least as large after it. -/
theorem foldl_firstMin {ι : Type} (d : ι → Nat) (step : Nat × ι → ι → Nat × ι)
    (hstep : ∀ st i, step st i = if d i < st.1 then (d i, i) else st)
    (l : List ι) (m0 : Nat) (i0 : ι) :
    (l.foldl step (m0, i0) = (m0, i0) ∧ ∀ i ∈ l, m0 ≤ d i) ∨
    (∃ pre post, l = pre ++ (l.foldl step (m0, i0)).2 :: post ∧
      d (l.foldl step (m0, i0)).2 < m0 ∧
      (∀ i ∈ pre, d (l.foldl step (m0, i0)).2 < d i) ∧
      (∀ i ∈ post, d (l.foldl step (m0, i0)).2 ≤ d i)) := by
  induction l generalizing m0 i0 with
  | nil => left; simp
  | cons a as ih =>
    rw [List.foldl_cons, hstep]
    by_cases ha : d a < m0
    · simp only [ha, if_true]
      rcases ih (d a) a with ⟨heq, hall⟩ | ⟨pre, post, hl, hlt, hpre, hpost⟩
      · right
        refine ⟨[], as, ?_, ?_, ?_, ?_⟩
        · rw [heq]; rfl
        · rw [heq]; exact ha
        · simp
        · rw [heq]; exact hall
      · right
        refine ⟨a :: pre, post, ?_, lt_trans hlt ha, ?_, hpost⟩
        · rw [List.cons_append, ← hl]
        · intro i hi
          rcases List.mem_cons.mp hi with rfl | hi
          · exact hlt
          · exact hpre i hi
    · simp only [ha, if_false]
      rcases ih m0 i0 with ⟨heq, hall⟩ | ⟨pre, post, hl, hlt, hpre, hpost⟩
      · left
        refine ⟨heq, ?_⟩
        intro i hi
        rcases List.mem_cons.mp hi with rfl | hi
        · omega
        · exact hall i hi
      · right
        refine ⟨a :: pre, post, ?_, hlt, ?_, hpost⟩
        · rw [List.cons_append, ← hl]
        · intro i hi
          rcases List.mem_cons.mp hi with rfl | hi
          · omega
          · exact hpre i hi

/-- The scan over the indices `0, ..., 15`, started above every distance, ends on the
first index of minimal distance. -/
theorem finRange_firstMin (d : Fin 16 → Nat) (step : Nat × Fin 16 → Fin 16 → Nat × Fin 16)
    (hstep : ∀ st i, step st i = if d i < st.1 then (d i, i) else st)
    (m0 : Nat) (hm0 : ∀ i, d i < m0) :
    (∀ j, d ((List.finRange 16).foldl step (m0, 0)).2 ≤ d j) ∧
    (∀ j, j < ((List.finRange 16).foldl step (m0, 0)).2 →
      d ((List.finRange 16).foldl step (m0, 0)).2 < d j) := by
  rcases foldl_firstMin d step hstep (List.finRange 16) m0 0 with
    ⟨_, hall⟩ | ⟨pre, post, hl, _, hpre, hpost⟩
  · have := hall 0 (List.mem_finRange 0)
    have := hm0 0
    omega
  · generalize ((List.finRange 16).foldl step (m0, 0)).2 = k at hl hpre hpost ⊢
    have hmem : ∀ j : Fin 16, j ∈ pre ∨ j = k ∨ j ∈ post := by
      intro j
      have hj : j ∈ List.finRange 16 := List.mem_finRange j
      rw [hl] at hj
      simpa using hj
    have hsorted : (pre ++ k :: post).Pairwise (fun a b => a < b) := by
      rw [← hl]; exact List.pairwise_lt_finRange 16
    have hafter : ∀ j ∈ post, k < j := by
      intro j hj
      have := (List.pairwise_append.mp hsorted).2.1
      exact (List.pairwise_cons.mp this).1 j hj
    constructor
    · intro j
      rcases hmem j with h | rfl | h
      · exact le_of_lt (hpre j h)
      · exact le_refl _
      · exact hpost j h
    · intro j hjk
      rcases hmem j with h | rfl | h
      · exact hpre j h
      · exact absurd hjk (lt_irrefl _)
      · exact absurd hjk (lt_asymm (hafter j h))

theorem findNeighbour_firstMin (palette : Palette) (c : SDL_Color) (hc : c.IsUint8)
    (hp : ∀ i, (palette i).IsUint8) :
    (∀ j, squaredDistance c (palette (findNeighbour palette c)) ≤ squaredDistance c (palette j)) ∧
    (∀ j, j < findNeighbour palette c →
      squaredDistance c (palette (findNeighbour palette c)) < squaredDistance c (palette j)) := by
  have hlt : ∀ i, squaredDistance c (palette i) < 2 ^ 18 := fun i => squaredDistance_lt c _ hc (hp i)
  have key := finRange_firstMin
    (fun i => sqrtDouble (fpOfNat (squaredDistance c (palette i))))
    (neighbourStep palette c) (fun _ _ => rfl) doubleMax
    (fun i => sqrtDouble_lt_doubleMax _ (hlt i))
  unfold findNeighbour
  generalize ((List.finRange 16).foldl (neighbourStep palette c) (doubleMax, 0)).2 = k at key ⊢
  obtain ⟨h1, h2⟩ := key
  constructor
  · intro j
    by_contra hnot
    have hnot : squaredDistance c (palette j) < squaredDistance c (palette k) := Nat.lt_of_not_le hnot
    exact absurd (h1 j) (Nat.not_le.mpr (sqrtDouble_strictMono _ _ (hlt _) hnot))
  · intro j hj
    exact (sqrtDouble_lt_iff _ _ (hlt _) (hlt _)).mp (h2 j hj)

theorem luminance_lt (c : SDL_Color) : luminance c < 256 := by
  unfold luminance
  exact Nat.mod_lt _ (by norm_num)

theorem findNeighbourGreyscale_unfold (palette : Palette) (c : SDL_Color) :
    findNeighbourGreyscale palette c =
      ((List.finRange 16).foldl (neighbourGreyscaleStep palette (luminance c)) (2 ^ 31 - 1, 0)).2 :=
  rfl

theorem findNeighbourGreyscale_firstMin (palette : Palette) (c : SDL_Color)
    (hp : ∀ i, (palette i).IsUint8) :
    (∀ j, greyDistance (luminance c) (palette (findNeighbourGreyscale palette c)) ≤
      greyDistance (luminance c) (palette j)) ∧
    (∀ j, j < findNeighbourGreyscale palette c →
      greyDistance (luminance c) (palette (findNeighbourGreyscale palette c)) <
        greyDistance (luminance c) (palette j)) := by
  rw [findNeighbourGreyscale_unfold]
  have h1 := luminance_lt c
  generalize luminance c = grey at h1 ⊢
  have hlt : ∀ i, greyDistance grey (palette i) < 2 ^ 31 - 1 := by
    intro i
    have h2 := (hp i).1
    unfold greyDistance
    omega
  exact finRange_firstMin (fun i => greyDistance grey (palette i))
    (neighbourGreyscaleStep palette grey) (fun _ _ => rfl) (2 ^ 31 - 1) hlt

/-! ### Shape of a returning median cut -/

theorem medianCut_zero (S : StdSort) (m : MedianCutter) (s e : Nat) :
    medianCut S m s e 0 = medianCutLeaf m s e := rfl

theorem medianCut_succ (S : StdSort) (m : MedianCutter) (s e it : Nat) :
    medianCut S m s e (it + 1) =
      (greatestDifference m.colors s e).bind (fun sortBy =>
        (sortBucket S m.colors s e sortBy).bind (fun colors =>
          (medianCut S { m with colors := colors } s (sizePred (mediumOf s e)) it).bind (fun m1 =>
            medianCut S m1 (mediumOf s e) e it))) := rfl

theorem medianCutGreyscale_zero (S : StdSort) (m : MedianCutter) (s e : Nat) :
    medianCutGreyscale S m s e 0 = medianCutGreyscaleLeaf m s e := rfl

theorem medianCutGreyscale_succ (S : StdSort) (m : MedianCutter) (s e it : Nat) :
    medianCutGreyscale S m s e (it + 1) =
      (sortBucketGreyscale S m.greys s e).bind (fun greys =>
        (medianCutGreyscale S { m with greys := greys } s (sizePred (mediumOf s e)) it).bind (fun m1 =>
          medianCutGreyscale S m1 (mediumOf s e) e it)) := rfl

theorem except_bind_eq_ok {ε α β : Type} (x : Except ε α) (f : α → Except ε β) (b : β)
    (h : x.bind f = .ok b) : ∃ a, x = .ok a ∧ f a = .ok b := by
  cases x with
  | error err => simp [Except.bind] at h
  | ok a => exact ⟨a, rfl, h⟩

/-- What a successful `palette[bucketsCount++] = color` does. -/
theorem writeBucket_ok (m m1 : MedianCutter) (color : SDL_Color) (h : writeBucket m color = .ok m1) :
    ∃ hlt : m.bucketsCount < 16,
      m1 = { m with palette := Function.update m.palette ⟨m.bucketsCount, hlt⟩ color
                    bucketsCount := m.bucketsCount + 1 } := by
  unfold writeBucket at h
  split at h
  · rename_i hlt
    refine ⟨hlt, ?_⟩
    injection h with h
    exact h.symm
  · cases h

theorem medianCutLeaf_ok (m m1 : MedianCutter) (s e : Nat) (h : medianCutLeaf m s e = .ok m1) :
    ∃ (hlt : m.bucketsCount < 16) (color : SDL_Color),
      m1 = { m with palette := Function.update m.palette ⟨m.bucketsCount, hlt⟩ color
                    bucketsCount := m.bucketsCount + 1 } := by
  unfold medianCutLeaf at h
  simp only [bind, Except.bind] at h
  repeat' split at h
  all_goals first
    | cases h
    | (obtain ⟨hlt, hm⟩ := writeBucket_ok _ _ _ h; exact ⟨hlt, _, hm⟩)

theorem medianCutGreyscaleLeaf_ok (m m1 : MedianCutter) (s e : Nat)
    (h : medianCutGreyscaleLeaf m s e = .ok m1) :
    ∃ (hlt : m.bucketsCount < 16) (color : SDL_Color),
      m1 = { m with palette := Function.update m.palette ⟨m.bucketsCount, hlt⟩ color
                    bucketsCount := m.bucketsCount + 1 } := by
  unfold medianCutGreyscaleLeaf at h
  simp only [bind, Except.bind] at h
  repeat' split at h
  all_goals first
    | cases h
    | (obtain ⟨hlt, hm⟩ := writeBucket_ok _ _ _ h; exact ⟨hlt, _, hm⟩)

/-- What a successful run of the recursion at depth `it` does to the bucket counter and
the palette: the counter advances by `2 ^ it` and never passes 16, only the entries
from the old counter up to the new one can change, and the image is kept. -/
theorem medianCut_counts (S : StdSort) (it : Nat) : ∀ (m m1 : MedianCutter) (s e : Nat),
    medianCut S m s e it = .ok m1 →
    m1.bucketsCount = m.bucketsCount + 2 ^ it ∧ m1.bucketsCount ≤ 16 ∧ m1.image = m.image ∧
    (∀ i : Fin 16, i.val < m.bucketsCount ∨ m.bucketsCount + 2 ^ it ≤ i.val →
      m1.palette i = m.palette i) := by
  induction it with
  | zero =>
    intro m m1 s e h
    rw [medianCut_zero] at h
    obtain ⟨hlt, color, rfl⟩ := medianCutLeaf_ok m m1 s e h
    refine ⟨by simp, by simp; omega, rfl, ?_⟩
    intro i hi
    simp only [pow_zero] at hi
    apply Function.update_noteq
    intro hEq
    rw [hEq] at hi
    simp at hi
  | succ it ih =>
    intro m m1 s e h
    rw [medianCut_succ] at h
    obtain ⟨sortBy, _, h⟩ := except_bind_eq_ok _ _ _ h
    obtain ⟨colors, _, h⟩ := except_bind_eq_ok _ _ _ h
    obtain ⟨m2, hleft, hright⟩ := except_bind_eq_ok _ _ _ h
    obtain ⟨hc1, _, hi1, hp1⟩ := ih _ _ _ _ hleft
    obtain ⟨hc2, hle2, hi2, hp2⟩ := ih _ _ _ _ hright
    simp only at hc1 hi1 hp1
    refine ⟨by rw [hc2, hc1, pow_succ]; omega, hle2, by rw [hi2, hi1], ?_⟩
    intro i hi
    rw [pow_succ] at hi
    rw [hp2 i (by omega), hp1 i (by omega)]

theorem medianCutGreyscale_counts (S : StdSort) (it : Nat) : ∀ (m m1 : MedianCutter) (s e : Nat),
    medianCutGreyscale S m s e it = .ok m1 →
    m1.bucketsCount = m.bucketsCount + 2 ^ it ∧ m1.bucketsCount ≤ 16 ∧ m1.image = m.image ∧
    (∀ i : Fin 16, i.val < m.bucketsCount ∨ m.bucketsCount + 2 ^ it ≤ i.val →
      m1.palette i = m.palette i) := by
  induction it with
  | zero =>
    intro m m1 s e h
    rw [medianCutGreyscale_zero] at h
    obtain ⟨hlt, color, rfl⟩ := medianCutGreyscaleLeaf_ok m m1 s e h
    refine ⟨by simp, by simp; omega, rfl, ?_⟩
    intro i hi
    simp only [pow_zero] at hi
    apply Function.update_noteq
    intro hEq
    rw [hEq] at hi
    simp at hi
  | succ it ih =>
    intro m m1 s e h
    rw [medianCutGreyscale_succ] at h
    obtain ⟨greys, _, h⟩ := except_bind_eq_ok _ _ _ h
    obtain ⟨m2, hleft, hright⟩ := except_bind_eq_ok _ _ _ h
    obtain ⟨hc1, _, hi1, hp1⟩ := ih _ _ _ _ hleft
    obtain ⟨hc2, hle2, hi2, hp2⟩ := ih _ _ _ _ hright
    simp only at hc1 hi1 hp1
    refine ⟨by rw [hc2, hc1, pow_succ]; omega, hle2, by rw [hi2, hi1], ?_⟩
    intro i hi
    rw [pow_succ] at hi
    rw [hp2 i (by omega), hp1 i (by omega)]

/-- The shape of a returning median-cut transformation. -/
theorem runMedianCutter_returned (S : StdSort) (img img1 : Image) (greyscale : Bool)
    (h : runMedianCutter S img greyscale = .returned img1) :
    ∃ m0 m1 buffer, MedianCutter.new img.originalBmp img.palette = .ok m0 ∧
      perform S m0 greyscale = .ok (buffer, m1) ∧
      img1 = { img with palette := m1.palette, transformedBmp := some buffer } := by
  unfold runMedianCutter at h
  split at h
  · cases h
  · rename_i m0 hm0
    split at h
    · cases h
    · rename_i buffer m1 hp
      injection h with h
      exact ⟨m0, m1, buffer, hm0, hp, h.symm⟩

theorem MedianCutter_new_ok (image : PixelBuffer) (palette : Palette) (m0 : MedianCutter)
    (h : MedianCutter.new image palette = .ok m0) :
    image ≠ [] ∧ m0 = { image := image, palette := palette, bucketsCount := 0, colorsCount := 0,
                        colors := image.flatten, greys := image.flatten.map luminance } := by
  unfold MedianCutter.new at h
  split at h
  · cases h
  · injection h with h
    exact ⟨by simp, h.symm⟩

theorem performColor_ok (S : StdSort) (m0 m1 : MedianCutter) (buffer : PixelBuffer)
    (h : performColor S m0 = .ok (buffer, m1)) :
    medianCut S m0 0 (sizePred m0.colors.length) 4 = .ok m1 ∧
      buffer = m1.image.map (fun row => row.map (fun pixel => m1.palette (findNeighbour m1.palette pixel))) := by
  unfold performColor at h
  obtain ⟨m2, h1, h2⟩ := except_bind_eq_ok _ _ _ h
  injection h2 with h2
  injection h2 with h3 h4
  subst h4
  exact ⟨h1, h3.symm⟩

theorem performGreyscale_ok (S : StdSort) (m0 m1 : MedianCutter) (buffer : PixelBuffer)
    (h : performGreyscale S m0 = .ok (buffer, m1)) :
    medianCutGreyscale S m0 0 (sizePred m0.greys.length) 4 = .ok m1 ∧
      buffer = m1.image.map (fun row => row.map (fun pixel =>
        m1.palette (findNeighbourGreyscale m1.palette pixel))) := by
  unfold performGreyscale at h
  obtain ⟨m2, h1, h2⟩ := except_bind_eq_ok _ _ _ h
  injection h2 with h2
  injection h2 with h3 h4
  subst h4
  exact ⟨h1, h3.symm⟩

/-! ### Median cut on fewer members than leaves -/

theorem split_at_range {α : Type} (v : List α) (s e : Nat) (h : s ≤ e) :
    v.take s ++ (v.drop s).take (e - s) ++ v.drop e = v := by
  have h1 : v.drop e = (v.drop s).drop (e - s) := by
    rw [List.drop_drop]; congr 1; omega
  rw [h1, List.append_assoc, List.take_append_drop, List.take_append_drop]

/-- A `std::sort` on a valid iterator range succeeds and rearranges the vector. -/
theorem sortRange_ok {α : Type} (S : StdSort) (key : α → Nat) (v : List α) (s e : Nat)
    (hse : s ≤ e) (he : e ≤ v.length) :
    ∃ w, sortRange S key v s e = .ok w ∧ w.Perm v := by
  refine ⟨v.take s ++ S.sort key ((v.drop s).take (e - s)) ++ v.drop e, ?_, ?_⟩
  · unfold sortRange
    rw [if_pos ⟨hse, he⟩]
  · have hperm := S.perm key ((v.drop s).take (e - s))
    have := (List.Perm.append_left (v.take s) hperm).append_right (v.drop e)
    rw [split_at_range v s e hse] at this
    exact this

theorem sortRange_error {α : Type} (S : StdSort) (key : α → Nat) (v : List α) (s e : Nat)
    (h : v.length < e) : sortRange S key v s e = .error .outOfRange := by
  unfold sortRange
  rw [if_neg (by omega)]

theorem greatestDifference_ok (colors : List SDL_Color) (s e : Nat) (hse : s ≤ e)
    (he : e < colors.length) : ∃ sortBy, greatestDifference colors s e = .ok sortBy := by
  unfold greatestDifference checkRangeLoop
  rw [if_neg (by omega), if_neg (by omega)]
  have hs : ¬ colors.length ≤ s := by omega
  simp only [bind, Except.bind, hs, if_false]
  split_ifs
  · exact ⟨_, rfl⟩
  · exact ⟨_, rfl⟩
  · exact ⟨_, rfl⟩

theorem greatestDifference_error (colors : List SDL_Color) (s e : Nat) (hse : s ≤ e)
    (he : colors.length ≤ e) : greatestDifference colors s e = .error .outOfRange := by
  unfold greatestDifference checkRangeLoop
  rw [if_neg (by omega), if_pos he]
  rfl

theorem sizePred_zero : sizePred 0 = 2 ^ 64 - 1 := by
  unfold sizePred sizeMod; norm_num

theorem sizePred_pos (n : Nat) (h1 : 1 ≤ n) (h2 : n < 2 ^ 64) : sizePred n = n - 1 := by
  unfold sizePred sizeMod
  rw [show n + 2 ^ 64 - 1 = (n - 1) + 2 ^ 64 by omega, Nat.add_mod_right]
  exact Nat.mod_eq_of_lt (by omega)

theorem mediumOf_eq (s e : Nat) (h : s + e + 1 < 2 ^ 64) : mediumOf s e = (s + e + 1) / 2 := by
  unfold mediumOf sizeMod
  rw [Nat.mod_eq_of_lt h]

/-- The leftmost descent of the colour recursion over fewer than `2 ^ it` members
runs into an empty range whose end index has wrapped to `2 ^ 64 - 1`. -/
theorem medianCut_small (S : StdSort) (it : Nat) : ∀ (m : MedianCutter) (n : Nat),
    n < 2 ^ it → n ≤ m.colors.length → m.colors.length < 2 ^ 63 →
    medianCut S m 0 (sizePred n) it = .error .outOfRange := by
  induction it with
  | zero =>
    intro m n hn _ hlen
    have : n = 0 := by simpa using hn
    subst this
    rw [medianCut_zero, sizePred_zero]
    unfold medianCutLeaf checkRangeLoop
    rw [if_neg (by omega), if_pos (by omega)]
    rfl
  | succ it ih =>
    intro m n hn hle hlen
    rw [medianCut_succ]
    rcases Nat.eq_zero_or_pos n with h0 | hpos
    · subst h0
      rw [sizePred_zero, greatestDifference_error _ _ _ (by omega) (by omega)]
      rfl
    · rw [sizePred_pos n hpos (by omega)]
      obtain ⟨sortBy, hgd⟩ := greatestDifference_ok m.colors 0 (n - 1) (by omega) (by omega)
      obtain ⟨colors, hsort, hperm⟩ := sortRange_ok S sortBy.key m.colors 0 (n - 1) (by omega) (by omega)
      rw [hgd]
      simp only [Except.bind, sortBucket, hsort]
      rw [mediumOf_eq 0 (n - 1) (by omega)]
      have hmid : (0 + (n - 1) + 1) / 2 = n / 2 := by congr 1; omega
      rw [hmid]
      have hlen2 : colors.length = m.colors.length := hperm.length_eq
      rw [ih { m with colors := colors } (n / 2) (by rw [pow_succ] at hn; omega)
        (by simp only [hlen2]; omega) (by simp only [hlen2]; exact hlen)]

theorem medianCutGreyscale_small (S : StdSort) (it : Nat) : ∀ (m : MedianCutter) (n : Nat),
    n < 2 ^ it → n ≤ m.greys.length → m.greys.length < 2 ^ 63 →
    medianCutGreyscale S m 0 (sizePred n) it = .error .outOfRange := by
  induction it with
  | zero =>
    intro m n hn _ hlen
    have : n = 0 := by simpa using hn
    subst this
    rw [medianCutGreyscale_zero, sizePred_zero]
    unfold medianCutGreyscaleLeaf checkRangeLoop
    rw [if_neg (by omega), if_pos (by omega)]
    rfl
  | succ it ih =>
    intro m n hn hle hlen
    rw [medianCutGreyscale_succ]
    rcases Nat.eq_zero_or_pos n with h0 | hpos
    · subst h0
      rw [sizePred_zero]
      unfold sortBucketGreyscale
      rw [sortRange_error _ _ _ _ _ (by omega)]
      rfl
    · rw [sizePred_pos n hpos (by omega)]
      obtain ⟨greys, hsort, hperm⟩ := sortRange_ok S (fun grey => grey) m.greys 0 (n - 1) (by omega) (by omega)
      simp only [Except.bind, sortBucketGreyscale, hsort]
      rw [mediumOf_eq 0 (n - 1) (by omega)]
      have hmid : (0 + (n - 1) + 1) / 2 = n / 2 := by congr 1; omega
      rw [hmid]
      have hlen2 : greys.length = m.greys.length := hperm.length_eq
      rw [ih { m with greys := greys } (n / 2) (by rw [pow_succ] at hn; omega)
        (by simp only [hlen2]; omega) (by simp only [hlen2]; exact hlen)]

/-! ### Grey leaves of 256 members -/

theorem sum_le_of_uint8 (l : List Nat) (h : ∀ g ∈ l, g < 256) : l.sum ≤ 255 * l.length := by
  induction l with
  | nil => simp
  | cons a as ih =>
    have ha := h a (List.mem_cons_self _ _)
    have := ih (fun g hg => h g (List.mem_cons_of_mem _ hg))
    simp only [List.sum_cons, List.length_cons]
    omega

theorem slice_length_le {α : Type} (v : List α) (s e : Nat) : (slice v s e).length ≤ e + 1 - s := by
  unfold slice
  exact List.length_take_le _ _

theorem mem_of_mem_slice {α : Type} (v : List α) (s e : Nat) (x : α) (h : x ∈ slice v s e) : x ∈ v :=
  List.mem_of_mem_drop (List.mem_of_mem_take h)

/-- A grey leaf with exactly 256 members divides by `static_cast<Uint8>(256)`. -/
theorem medianCutGreyscaleLeaf_256 (m : MedianCutter) (s : Nat) (hg : ∀ g ∈ m.greys, g < 256)
    (hlen : s + 256 ≤ m.greys.length) :
    medianCutGreyscaleLeaf m s (s + 255) = .error .divisionByZero := by
  unfold medianCutGreyscaleLeaf checkRangeLoop
  rw [if_neg (by omega), if_neg (by omega)]
  have hsum : (slice m.greys s (s + 255)).sum < 2 ^ 31 := by
    have h1 := sum_le_of_uint8 (slice m.greys s (s + 255))
      (fun g hg' => hg g (mem_of_mem_slice _ _ _ _ hg'))
    have h2 := slice_length_le m.greys s (s + 255)
    omega
  have hcount : rangeCount s (s + 255) % 256 = 0 := by
    unfold rangeCount sizeMod
    rw [show s + 255 + 2 ^ 64 - s + 1 = 256 + 2 ^ 64 by omega, Nat.add_mod_right]
    norm_num
  simp only [bind, Except.bind, checkIntSum, hsum, if_true, hcount, divToUint8]
  rfl

/-- The leftmost descent of the grey recursion over `256 * 2 ^ it` members reaches a
leaf of 256 members. -/
theorem medianCutGreyscale_div0 (S : StdSort) (it : Nat) : ∀ (m : MedianCutter),
    (∀ g ∈ m.greys, g < 256) → 256 * 2 ^ it ≤ m.greys.length → m.greys.length < 2 ^ 63 →
    medianCutGreyscale S m 0 (256 * 2 ^ it - 1) it = .error .divisionByZero := by
  induction it with
  | zero =>
    intro m hg hle hlen
    rw [medianCutGreyscale_zero]
    exact medianCutGreyscaleLeaf_256 m 0 hg (by simpa using hle)
  | succ it ih =>
    intro m hg hle hlen
    have hpos : 0 < 2 ^ it := by positivity
    rw [pow_succ] at hle ⊢
    rw [medianCutGreyscale_succ]
    obtain ⟨greys, hsort, hperm⟩ := sortRange_ok S (fun grey => grey) m.greys 0
      (256 * (2 ^ it * 2) - 1) (by omega) (by omega)
    simp only [Except.bind, sortBucketGreyscale, hsort]
    rw [mediumOf_eq 0 (256 * (2 ^ it * 2) - 1) (by omega)]
    have hmid : (0 + (256 * (2 ^ it * 2) - 1) + 1) / 2 = 256 * 2 ^ it := by omega
    rw [hmid, sizePred_pos _ (by omega) (by omega)]
    have hlen2 : greys.length = m.greys.length := hperm.length_eq
    rw [ih { m with greys := greys } (fun g hg' => hg g (hperm.subset hg'))
      (by simp only [hlen2]; omega) (by simp only [hlen2]; exact hlen)]

/-! ### Transformed pixels are palette colours -/

/-- C4: after a returning transform by any of the seven strategies, on a buffer of 8-bit
colours, a transformed buffer is present and each of its pixels is RGB-equal to one of
the 16 entries of the resulting palette. -/
theorem transformed_pixels_in_palette (S : StdSort) (t : Transformation) (img img1 : Image)
    (ht : t ≠ .none)
    (hvalid : ∀ row ∈ img.originalBmp, ∀ pixel ∈ row, pixel.IsUint8)
    (h : transform S t img = .returned img1) :
    ∃ buffer, img1.transformedBmp = some buffer ∧
      ∀ row ∈ buffer, ∀ pixel ∈ row, ∃ i : Fin 16, compareSdlColor pixel (img1.palette i) = true := by
  cases t with
  | none => exact absurd rfl ht
  | imposedPalette =>
    injection h with h
    subst h
    refine ⟨_, rfl, ?_⟩
    intro row hrow pixel hpixel
    obtain ⟨row0, hrow0, rfl⟩ := List.mem_map.mp hrow
    obtain ⟨p, hp, rfl⟩ := List.mem_map.mp hpixel
    rw [imposed_pixel p (hvalid row0 hrow0 p hp)]
    have hv := hvalid row0 hrow0 p hp
    obtain ⟨hr, hg, hb, _⟩ := hv
    exact imposedPalette_covers _ _ _ _ (by omega) (by omega) (by omega) rfl rfl rfl
  | dedicatedPalette =>
    have hrows : img.originalBmp ≠ [] := by
      intro hnil
      have : dedicatedPaletteTransformation img = .undefined .outOfRange := by
        unfold dedicatedPaletteTransformation
        rw [hnil]
      have h2 : dedicatedPaletteTransformation img = .returned img1 := h
      rw [this] at h2
      cases h2
    have h2 : dedicatedPaletteTransformation img = .returned img1 := h
    rw [dedicatedPaletteTransformation_eq img hrows] at h2
    split at h2
    · cases h2
    · rename_i hn
      injection h2 with h2
      subst h2
      refine ⟨_, rfl, ?_⟩
      intro row hrow pixel hpixel
      obtain ⟨q, hq, hqp⟩ := firstOccurrences_covers _ pixel (List.mem_flatten.mpr ⟨row, hrow, hpixel⟩)
      obtain ⟨n, hn2⟩ := List.mem_iff_get.mp hq
      have hlt : n.val < 16 := by
        have := n.isLt
        unfold distinctColours at hn
        omega
      refine ⟨⟨n.val, hlt⟩, ?_⟩
      have : copyIntoPalette (distinctColours img.originalBmp) (clearPalette img.palette) ⟨n.val, hlt⟩ = q := by
        unfold copyIntoPalette distinctColours
        simp only [n.isLt, dif_pos]
        exact hn2
      show compareSdlColor pixel (copyIntoPalette _ _ _) = true
      rw [this, compareSdlColor_comm]
      exact hqp
  | greyscale =>
    injection h with h
    subst h
    refine ⟨_, rfl, ?_⟩
    intro row hrow pixel hpixel
    obtain ⟨row0, hrow0, rfl⟩ := List.mem_map.mp hrow
    obtain ⟨p, hp, rfl⟩ := List.mem_map.mp hpixel
    exact greyscale_pixel_in_palette p (hvalid row0 hrow0 p hp)
  | dithering =>
    injection h with h
    subst h
    refine ⟨_, rfl, ?_⟩
    intro row hrow pixel hpixel
    obtain ⟨x, row0, hrow0, rfl⟩ := mem_mapWithIndex _ _ _ _ hrow
    obtain ⟨y, p, hp, rfl⟩ := mem_mapWithIndex _ _ _ _ hpixel
    exact ditherPixel_in_palette _ x y p (hvalid row0 hrow0 p hp)
  | ditheringGreyscale =>
    injection h with h
    subst h
    refine ⟨_, rfl, ?_⟩
    intro row hrow pixel hpixel
    obtain ⟨x, row0, hrow0, rfl⟩ := mem_mapWithIndex _ _ _ _ hrow
    obtain ⟨y, p, hp, rfl⟩ := mem_mapWithIndex _ _ _ _ hpixel
    exact ditherGreyscalePixel_in_palette _ x y p
  | medianCut =>
    obtain ⟨m0, m1, buffer, _, hperf, rfl⟩ := runMedianCutter_returned S img img1 false h
    obtain ⟨_, rfl⟩ := performColor_ok S m0 m1 buffer hperf
    refine ⟨_, rfl, ?_⟩
    intro row hrow pixel hpixel
    obtain ⟨row0, hrow0, rfl⟩ := List.mem_map.mp hrow
    obtain ⟨p, hp, rfl⟩ := List.mem_map.mp hpixel
    exact ⟨findNeighbour m1.palette p, compareSdlColor_refl _⟩
  | medianCutGreyscale =>
    obtain ⟨m0, m1, buffer, _, hperf, rfl⟩ := runMedianCutter_returned S img img1 true h
    obtain ⟨_, rfl⟩ := performGreyscale_ok S m0 m1 buffer hperf
    refine ⟨_, rfl, ?_⟩
    intro row hrow pixel hpixel
    obtain ⟨row0, hrow0, rfl⟩ := List.mem_map.mp hrow
    obtain ⟨p, hp, rfl⟩ := List.mem_map.mp hpixel
    exact ⟨findNeighbourGreyscale m1.palette p, compareSdlColor_refl _⟩

/-! ### The luminance in `double` -/

theorem fpLiteral_587 : fpLiteral 53 587 1000 = 10828238771267506176 := by decide
theorem fpLiteral_114 : fpLiteral 53 114 1000 = 2102928824402888960 := by decide

/-- The `double` luminance of the median cutter is the exact value
`(299 r + 587 g + 114 b) / 1000` truncated, or one less. -/
theorem luminance_near_exact (c : SDL_Color) (h : c.IsUint8) :
    luminance c ≤ (299 * c.r + 587 * c.g + 114 * c.b) / 1000 ∧
      (299 * c.r + 587 * c.g + 114 * c.b) / 1000 ≤ luminance c + 1 := by
  obtain ⟨hr, hg, hb, _⟩ := h
  unfold luminance fpTrunc
  simp only [fpLiteral_299, fpLiteral_587, fpLiteral_114, fpMul, fpAdd, fpOfNat, fpUnit]
  have hA := roundNearestEven_le 53 (5515576478039155712 * (c.r * 2 ^ 64)) (2 ^ 64) (by norm_num)
  have hA' := le_roundNearestEven 53 (5515576478039155712 * (c.r * 2 ^ 64)) (2 ^ 64) (by norm_num)
  have hB := roundNearestEven_le 53 (10828238771267506176 * (c.g * 2 ^ 64)) (2 ^ 64) (by norm_num)
  have hB' := le_roundNearestEven 53 (10828238771267506176 * (c.g * 2 ^ 64)) (2 ^ 64) (by norm_num)
  have hC := roundNearestEven_le 53 (2102928824402888960 * (c.b * 2 ^ 64)) (2 ^ 64) (by norm_num)
  have hC' := le_roundNearestEven 53 (2102928824402888960 * (c.b * 2 ^ 64)) (2 ^ 64) (by norm_num)
  generalize roundNearestEven 53 (5515576478039155712 * (c.r * 2 ^ 64)) (2 ^ 64) = A at *
  generalize roundNearestEven 53 (10828238771267506176 * (c.g * 2 ^ 64)) (2 ^ 64) = B at *
  generalize roundNearestEven 53 (2102928824402888960 * (c.b * 2 ^ 64)) (2 ^ 64) = C at *
  have cancel : ∀ K n : Nat, K * (n * 2 ^ 64) / 2 ^ 64 = K * n := by
    intro K n
    rw [← Nat.mul_assoc, Nat.mul_div_cancel _ (by positivity)]
  rw [cancel] at hA hA' hB hB' hC hC'
  have hS1 := roundNearestEven_le 53 (A + B) 1 (by norm_num)
  have hS1' := le_roundNearestEven 53 (A + B) 1 (by norm_num)
  generalize roundNearestEven 53 (A + B) 1 = S1 at *
  have hS2 := roundNearestEven_le 53 (S1 + C) 1 (by norm_num)
  have hS2' := le_roundNearestEven 53 (S1 + C) 1 (by norm_num)
  generalize roundNearestEven 53 (S1 + C) 1 = S2 at *
  norm_num at hA hA' hB hB' hC hC' hS1 hS1' hS2 hS2' ⊢
  have hAu : A ≤ 5515576478039155712 * c.r + 2 ^ 20 := by omega
  have hAl : 5515576478039155712 * c.r ≤ A + 2 ^ 20 := by omega
  have hBu : B ≤ 10828238771267506176 * c.g + 2 ^ 20 := by omega
  have hBl : 10828238771267506176 * c.g ≤ B + 2 ^ 20 := by omega
  have hCu : C ≤ 2102928824402888960 * c.b + 2 ^ 20 := by omega
  have hCl : 2102928824402888960 * c.b ≤ C + 2 ^ 20 := by omega
  clear hA hA' hB hB' hC hC'
  have hS1u : S1 ≤ A + B + 2 ^ 21 := by omega
  have hS1l : A + B ≤ S1 + 2 ^ 21 := by omega
  clear hS1 hS1'
  have hS2u : S2 ≤ S1 + C + 2 ^ 21 := by omega
  have hS2l : S1 + C ≤ S2 + 2 ^ 21 := by omega
  clear hS2 hS2'
  have hu : 1000 * S2 ≤ 18446744073709551616 * (299 * c.r + 587 * c.g + 114 * c.b) + 2 ^ 40 := by omega
  have hl : 18446744073709551616 * (299 * c.r + 587 * c.g + 114 * c.b) ≤ 1000 * S2 + 2 ^ 40 := by omega
  have hN : 299 * c.r + 587 * c.g + 114 * c.b ≤ 255000 := by omega
  clear hAu hAl hBu hBl hCu hCl hS1u hS1l hS2u hS2l hr hg hb
  generalize 299 * c.r + 587 * c.g + 114 * c.b = N at *
  have hmod : S2 / 18446744073709551616 % 256 = S2 / 18446744073709551616 := by
    apply Nat.mod_eq_of_lt
    omega
  rw [hmod]
  constructor <;> omega

/-! ### Nearest palette entry -/

theorem imposedPalette_isUint8 (i : Fin 16) : (imposedPalette i).IsUint8 := by
  have := i.isLt
  rw [imposedPalette_apply]
  refine ⟨?_, ?_, ?_, ?_⟩ <;> simp only <;> omega

theorem greyscalePalette_isUint8 (i : Fin 16) : (greyscalePalette i).IsUint8 := by
  have := i.isLt
  rw [greyscalePalette_apply]
  refine ⟨?_, ?_, ?_, ?_⟩ <;> simp only <;> omega

/-- The buffer a returning colour median cut leaves: each original pixel replaced by
the palette entry that `findNeighbour` selects in the final palette. -/
theorem medianCut_buffer (S : StdSort) (img img1 : Image)
    (h : transform S .medianCut img = .returned img1) :
    img1.transformedBmp = some (img.originalBmp.map (fun row =>
      row.map (fun pixel => img1.palette (findNeighbour img1.palette pixel)))) := by
  obtain ⟨m0, m1, buffer, hnew, hperf, rfl⟩ := runMedianCutter_returned S img img1 false h
  obtain ⟨hcut, rfl⟩ := performColor_ok S m0 m1 buffer hperf
  obtain ⟨_, _, himg, _⟩ := medianCut_counts S 4 m0 m1 _ _ hcut
  obtain ⟨_, rfl⟩ := MedianCutter_new_ok _ _ _ hnew
  simp only [himg]

/-- C5: on 8-bit colours `findNeighbour` returns the first index of minimal Euclidean
RGB distance: no entry is strictly nearer (in squared distance and in the real
distance), every earlier index is strictly farther, and the colour median-cut output
holds, for each original pixel, the palette entry at that index. -/
theorem findNeighbour_nearest (S : StdSort) (palette : Palette) (c : SDL_Color) (hc : c.IsUint8)
    (hp : ∀ i, (palette i).IsUint8) :
    (∀ j, squaredDistance c (palette (findNeighbour palette c)) ≤ squaredDistance c (palette j)) ∧
    (∀ j, Real.sqrt (squaredDistance c (palette (findNeighbour palette c))) ≤
      Real.sqrt (squaredDistance c (palette j))) ∧
    (∀ j, j < findNeighbour palette c →
      squaredDistance c (palette (findNeighbour palette c)) < squaredDistance c (palette j)) ∧
    (∀ img img1, transform S .medianCut img = .returned img1 →
      img1.transformedBmp = some (img.originalBmp.map (fun row =>
        row.map (fun pixel => img1.palette (findNeighbour img1.palette pixel))))) := by
  obtain ⟨h1, h2⟩ := findNeighbour_firstMin palette c hc hp
  refine ⟨h1, ?_, h2, fun img img1 h => medianCut_buffer S img img1 h⟩
  intro j
  apply Real.sqrt_le_sqrt
  exact_mod_cast h1 j

/-- The imposed palette and a mid grey, for C5. -/
theorem findNeighbour_nearest_witness :
    (⟨128, 128, 128, 1⟩ : SDL_Color).IsUint8 ∧ (∀ i, (imposedPalette i).IsUint8) ∧
    ((∀ j, squaredDistance ⟨128, 128, 128, 1⟩
        (imposedPalette (findNeighbour imposedPalette ⟨128, 128, 128, 1⟩)) ≤
        squaredDistance ⟨128, 128, 128, 1⟩ (imposedPalette j)) ∧
    (∀ j, Real.sqrt (squaredDistance ⟨128, 128, 128, 1⟩
        (imposedPalette (findNeighbour imposedPalette ⟨128, 128, 128, 1⟩))) ≤
      Real.sqrt (squaredDistance ⟨128, 128, 128, 1⟩ (imposedPalette j))) ∧
    (∀ j, j < findNeighbour imposedPalette ⟨128, 128, 128, 1⟩ →
      squaredDistance ⟨128, 128, 128, 1⟩
        (imposedPalette (findNeighbour imposedPalette ⟨128, 128, 128, 1⟩)) <
        squaredDistance ⟨128, 128, 128, 1⟩ (imposedPalette j)) ∧
    (∀ img img1, transform insertionStdSort .medianCut img = .returned img1 →
      img1.transformedBmp = some (img.originalBmp.map (fun row =>
        row.map (fun pixel => img1.palette (findNeighbour img1.palette pixel)))))) :=
  ⟨by decide, imposedPalette_isUint8,
    findNeighbour_nearest insertionStdSort imposedPalette ⟨128, 128, 128, 1⟩ (by decide)
      imposedPalette_isUint8⟩

set_option maxRecDepth 1000000 in
/-- C6: the colour (0, 72, 24) has the luminance 45.000 exactly, so the
grey level truncated to 8 bits is 45; the `double` sum of the code is below 45 and its
grey is 44. With the palette greys 49, 40, 255, ... the code returns index 1, at
distance 5 from the grey 45, while index 0 is at distance 4. -/
theorem findNeighbourGreyscale_not_nearest :
    299 * 0 + 587 * 72 + 114 * 24 = 45 * 1000 ∧
    luminance ⟨0, 72, 24, 1⟩ = 44 ∧
    findNeighbourGreyscale exampleTwoGreys ⟨0, 72, 24, 1⟩ = 1 ∧
    greyDistance 45 (exampleTwoGreys 0) = 4 ∧
    greyDistance 45 (exampleTwoGreys (findNeighbourGreyscale exampleTwoGreys ⟨0, 72, 24, 1⟩)) = 5 ∧
    ¬ (∀ j, greyDistance 45 (exampleTwoGreys (findNeighbourGreyscale exampleTwoGreys ⟨0, 72, 24, 1⟩)) ≤
      greyDistance 45 (exampleTwoGreys j)) := by
  have h1 : luminance ⟨0, 72, 24, 1⟩ = 44 := by decide
  have h2 : findNeighbourGreyscale exampleTwoGreys ⟨0, 72, 24, 1⟩ = 1 := by
    rw [findNeighbourGreyscale_unfold, h1]
    decide
  refine ⟨by norm_num, h1, h2, by decide, by rw [h2]; decide, ?_⟩
  intro hall
  have := hall 0
  rw [h2] at this
  revert this
  decide

/-- C6: for 8-bit colours `findNeighbourGreyscale` works with the grey level
`luminance c`, the `double` sum `0.299 r + 0.587 g + 0.114 b` truncated, which is the
exact luminance truncated or one less; it returns an index minimising the absolute
difference of that grey level to the red channel of the palette entries, every smaller
index having a strictly greater difference; measured from the exact truncated
luminance the returned entry is at most 2 farther than any other entry. -/
theorem findNeighbourGreyscale_nearest (palette : Palette) (c : SDL_Color) (hc : c.IsUint8)
    (hp : ∀ i, (palette i).IsUint8) :
    luminance c ≤ (299 * c.r + 587 * c.g + 114 * c.b) / 1000 ∧
    (299 * c.r + 587 * c.g + 114 * c.b) / 1000 ≤ luminance c + 1 ∧
    (∀ j, greyDistance (luminance c) (palette (findNeighbourGreyscale palette c)) ≤
      greyDistance (luminance c) (palette j)) ∧
    (∀ j, j < findNeighbourGreyscale palette c →
      greyDistance (luminance c) (palette (findNeighbourGreyscale palette c)) <
        greyDistance (luminance c) (palette j)) ∧
    (∀ j, greyDistance ((299 * c.r + 587 * c.g + 114 * c.b) / 1000)
        (palette (findNeighbourGreyscale palette c)) ≤
      greyDistance ((299 * c.r + 587 * c.g + 114 * c.b) / 1000) (palette j) + 2) := by
  obtain ⟨h1, h2⟩ := findNeighbourGreyscale_firstMin palette c hp
  obtain ⟨h3, h4⟩ := luminance_near_exact c hc
  refine ⟨h3, h4, h1, h2, ?_⟩
  intro j
  have hj := h1 j
  generalize (299 * c.r + 587 * c.g + 114 * c.b) / 1000 = exact at h3 h4 ⊢
  generalize luminance c = grey at h3 h4 hj ⊢
  generalize (palette (findNeighbourGreyscale palette c)).r = p at hj ⊢
  unfold greyDistance at hj ⊢
  generalize (palette j).r = q at hj ⊢
  omega

/-- The greyscale palette and an orange pixel, for C6. -/
theorem findNeighbourGreyscale_nearest_witness :
    (⟨200, 100, 50, 1⟩ : SDL_Color).IsUint8 ∧ (∀ i, (greyscalePalette i).IsUint8) ∧
    (luminance ⟨200, 100, 50, 1⟩ ≤ (299 * 200 + 587 * 100 + 114 * 50) / 1000 ∧
    (299 * 200 + 587 * 100 + 114 * 50) / 1000 ≤ luminance ⟨200, 100, 50, 1⟩ + 1 ∧
    (∀ j, greyDistance (luminance ⟨200, 100, 50, 1⟩)
        (greyscalePalette (findNeighbourGreyscale greyscalePalette ⟨200, 100, 50, 1⟩)) ≤
      greyDistance (luminance ⟨200, 100, 50, 1⟩) (greyscalePalette j)) ∧
    (∀ j, j < findNeighbourGreyscale greyscalePalette ⟨200, 100, 50, 1⟩ →
      greyDistance (luminance ⟨200, 100, 50, 1⟩)
        (greyscalePalette (findNeighbourGreyscale greyscalePalette ⟨200, 100, 50, 1⟩)) <
        greyDistance (luminance ⟨200, 100, 50, 1⟩) (greyscalePalette j)) ∧
    (∀ j, greyDistance ((299 * 200 + 587 * 100 + 114 * 50) / 1000)
        (greyscalePalette (findNeighbourGreyscale greyscalePalette ⟨200, 100, 50, 1⟩)) ≤
      greyDistance ((299 * 200 + 587 * 100 + 114 * 50) / 1000) (greyscalePalette j) + 2)) :=
  ⟨by decide, greyscalePalette_isUint8,
    findNeighbourGreyscale_nearest greyscalePalette ⟨200, 100, 50, 1⟩ (by decide)
      greyscalePalette_isUint8⟩

/-! ### Departures of the code: dithering range, empty buckets, totality -/

/-- The 4 by 4 example under the colour median cut, for C4. -/
theorem transformed_pixels_in_palette_witness :
    Transformation.medianCut ≠ Transformation.none ∧
    (∀ row ∈ exampleFourByFour.originalBmp, ∀ pixel ∈ row, pixel.IsUint8) ∧
    ∃ img1, transform insertionStdSort .medianCut exampleFourByFour = .returned img1 ∧
      ∃ buffer, img1.transformedBmp = some buffer ∧
        ∀ row ∈ buffer, ∀ pixel ∈ row, ∃ i : Fin 16, compareSdlColor pixel (img1.palette i) = true :=
  ⟨by decide, by decide, _, rfl,
    transformed_pixels_in_palette insertionStdSort .medianCut exampleFourByFour _ (by decide)
      (by decide) rfl⟩

set_option maxRecDepth 100000 in
/-- C7 (the code departs from it): on the 1 by 1 image with the pixel (85, 0, 0) the
colour dithering returns a pixel whose red channel is 85, neither 0 nor 255: the red
comparison has an empty `else` where green and blue assign 0. -/
theorem dithering_red_not_binary (S : StdSort) :
    ∃ img1, transform S .dithering exampleDarkRed = .returned img1 ∧
      img1.transformedBmp = some [[⟨85, 0, 0, 1⟩]] :=
  ⟨_, rfl, by
    show some (mapWithIndex _ 0 exampleDarkRed.originalBmp) = _
    decide⟩

theorem MedianCutter_new_of_ne (image : PixelBuffer) (palette : Palette) (h : image ≠ []) :
    MedianCutter.new image palette =
      .ok ⟨image, palette, 0, 0, image.flatten, image.flatten.map luminance⟩ := by
  unfold MedianCutter.new
  cases image with
  | nil => exact absurd rfl h
  | cons row rows => rfl

theorem runMedianCutter_error (S : StdSort) (img : Image) (greyscale : Bool) (m0 : MedianCutter)
    (fault : Fault) (h1 : MedianCutter.new img.originalBmp img.palette = .ok m0)
    (h2 : perform S m0 greyscale = .error fault) :
    runMedianCutter S img greyscale = .undefined fault := by
  unfold runMedianCutter
  rw [h1]
  dsimp only
  rw [h2]

/-- Median cut on fewer than 16 pixels: both variants run off the end of the working
array on the way to the first leaf. -/
theorem medianCut_small_image (S : StdSort) (img : Image) (hrows : img.originalBmp ≠ [])
    (hN : img.originalBmp.flatten.length < 16) :
    transform S .medianCut img = .undefined .outOfRange ∧
      transform S .medianCutGreyscale img = .undefined .outOfRange := by
  have hnew := MedianCutter_new_of_ne img.originalBmp img.palette hrows
  constructor
  · show runMedianCutter S img false = _
    have hcut := medianCut_small S 4 ⟨img.originalBmp, img.palette, 0, 0, img.originalBmp.flatten,
      img.originalBmp.flatten.map luminance⟩ img.originalBmp.flatten.length
      (lt_of_lt_of_le hN (by norm_num)) (le_refl _) (lt_trans hN (by norm_num))
    have hperf : perform S ⟨img.originalBmp, img.palette, 0, 0, img.originalBmp.flatten,
        img.originalBmp.flatten.map luminance⟩ false = .error .outOfRange := by
      show performColor S _ = _
      unfold performColor
      rw [hcut]
      rfl
    exact runMedianCutter_error S img _ _ _ hnew hperf
  · show runMedianCutter S img true = _
    have hlen : (img.originalBmp.flatten.map luminance).length < 16 := by
      rw [List.length_map]; exact hN
    have hcut := medianCutGreyscale_small S 4 ⟨img.originalBmp, img.palette, 0, 0,
      img.originalBmp.flatten, img.originalBmp.flatten.map luminance⟩
      (img.originalBmp.flatten.map luminance).length
      (lt_of_lt_of_le hlen (by norm_num)) (le_refl _) (lt_trans hlen (by norm_num))
    have hperf : perform S ⟨img.originalBmp, img.palette, 0, 0, img.originalBmp.flatten,
        img.originalBmp.flatten.map luminance⟩ true = .error .outOfRange := by
      show performGreyscale S _ = _
      unfold performGreyscale
      rw [hcut]
      rfl
    exact runMedianCutter_error S img _ _ _ hnew hperf

/-- C8 (the code departs from it): on the 3 by 3 example both median-cut variants reach
undefined behaviour, the empty first leaf `[0, -1]` being processed with its end index
wrapped to `2 ^ 64 - 1`; and a leaf called on the empty range `[1, 0]` divides by zero in
either variant. No guard for empty ranges exists. -/
theorem medianCut_three_by_three (S : StdSort) :
    transform S .medianCut exampleThreeByThree = .undefined .outOfRange ∧
    transform S .medianCutGreyscale exampleThreeByThree = .undefined .outOfRange ∧
    (∀ m : MedianCutter, medianCutLeaf m 1 0 = .error .divisionByZero) ∧
    (∀ m : MedianCutter, medianCutGreyscaleLeaf m 1 0 = .error .divisionByZero) := by
  obtain ⟨h1, h2⟩ := medianCut_small_image S exampleThreeByThree (by decide) (by decide)
  exact ⟨h1, h2, fun m => rfl, fun m => rfl⟩

theorem flatten_replicate_length {α : Type} (n : Nat) (l : List α) :
    (List.replicate n l).flatten.length = n * l.length := by
  induction n with
  | zero => simp
  | succ n ih => rw [List.replicate_succ, List.flatten_cons, List.length_append, ih]; ring

/-- Greyscale median cut on exactly 4096 pixels: the first leaf has 256 members and the
divisor `static_cast<Uint8>(256)` is zero. -/
theorem medianCutGreyscale_4096 (S : StdSort) (img : Image) (hrows : img.originalBmp ≠ [])
    (hN : img.originalBmp.flatten.length = 4096) :
    transform S .medianCutGreyscale img = .undefined .divisionByZero := by
  have hnew := MedianCutter_new_of_ne img.originalBmp img.palette hrows
  show runMedianCutter S img true = _
  have hlen : (img.originalBmp.flatten.map luminance).length = 4096 := by
    rw [List.length_map, hN]
  have hcut := medianCutGreyscale_div0 S 4 ⟨img.originalBmp, img.palette, 0, 0,
    img.originalBmp.flatten, img.originalBmp.flatten.map luminance⟩
    (by
      intro g hg
      obtain ⟨c, _, rfl⟩ := List.mem_map.mp hg
      exact luminance_lt c)
    (le_of_eq (by rw [hlen]; norm_num)) (lt_of_eq_of_lt hlen (by norm_num))
  have hend : sizePred (img.originalBmp.flatten.map luminance).length = 256 * 2 ^ 4 - 1 := by
    rw [hlen, sizePred_pos _ (by norm_num) (by norm_num)]
    norm_num
  have hperf : perform S ⟨img.originalBmp, img.palette, 0, 0, img.originalBmp.flatten,
      img.originalBmp.flatten.map luminance⟩ true = .error .divisionByZero := by
    show performGreyscale S _ = _
    unfold performGreyscale
    rw [hend, hcut]
    rfl
  exact runMedianCutter_error S img _ _ _ hnew hperf

/-- C9 (the code departs from it): on the 64 by 64 example (4096 pixels) the greyscale
median cut divides by zero, whatever the sorting routine. -/
theorem medianCutGreyscale_sixtyFour (S : StdSort) :
    transform S .medianCutGreyscale exampleSixtyFour = .undefined .divisionByZero :=
  medianCutGreyscale_4096 S exampleSixtyFour
    (by
      intro h
      have := congrArg List.length h
      simp [exampleSixtyFour] at this)
    (by
      show (List.replicate 64 (List.replicate 64 _)).flatten.length = 4096
      rw [flatten_replicate_length, List.length_replicate])

/-! ### Returning runs of the median cut -/

theorem rangeCount_eq (s n : Nat) (hn : 1 ≤ n) (h : s + n < 2 ^ 64) :
    rangeCount s (s + n - 1) = n := by
  unfold rangeCount sizeMod
  rw [show s + n - 1 + 2 ^ 64 - s + 1 = n + 2 ^ 64 by omega, Nat.add_mod_right]
  exact Nat.mod_eq_of_lt (by omega)

theorem toInt32_small (n : Nat) (h : n < 2 ^ 31) : toInt32 n = (n : Int) := by
  unfold toInt32
  rw [Nat.mod_eq_of_lt (by omega : n < 2 ^ 32), if_pos h]

theorem sum_map_le (l : List SDL_Color) (f : SDL_Color → Nat) (hf : ∀ c ∈ l, f c < 256) :
    (l.map f).sum ≤ 255 * l.length := by
  have := sum_le_of_uint8 (l.map f) (by
    intro g hg
    obtain ⟨c, hc, rfl⟩ := List.mem_map.mp hg
    exact hf c hc)
  rwa [List.length_map] at this

theorem slice_length_le_length {α : Type} (v : List α) (s e : Nat) :
    (slice v s e).length ≤ v.length := by
  unfold slice
  exact le_trans (List.length_take_le' _ _) (by rw [List.length_drop]; omega)

theorem divToUint8_ok (sum : Nat) (d : Int) (hd : d ≠ 0) :
    divToUint8 sum d = .ok (Int.tdiv (sum : Int) d % 256).toNat := by
  unfold divToUint8
  rw [if_neg hd]

theorem writeBucket_lt (m : MedianCutter) (color : SDL_Color) (h : m.bucketsCount < 16) :
    writeBucket m color = .ok { m with
      palette := Function.update m.palette ⟨m.bucketsCount, h⟩ color
      bucketsCount := m.bucketsCount + 1 } := by
  unfold writeBucket
  rw [dif_pos h]

/-- A colour leaf over a non-empty range inside the array, with sums in `int` range and
a free palette slot, returns and leaves the working array alone. -/
theorem medianCutLeaf_total (m : MedianCutter) (s n : Nat) (hn : 1 ≤ n)
    (hlen : s + n ≤ m.colors.length) (hsize : m.colors.length ≤ 2 ^ 23)
    (hvalid : ∀ c ∈ m.colors, c.IsUint8) (hb : m.bucketsCount < 16) :
    ∃ m1, medianCutLeaf m s (s + n - 1) = .ok m1 ∧ m1.colors = m.colors ∧ m1.greys = m.greys := by
  have hsum : ∀ f : SDL_Color → Nat, (∀ c ∈ m.colors, f c < 256) →
      ((slice m.colors s (s + n - 1)).map f).sum < 2 ^ 31 := by
    intro f hf
    have h1 := sum_map_le (slice m.colors s (s + n - 1)) f
      (fun c hc => hf c (mem_of_mem_slice _ _ _ _ hc))
    have h2 := slice_length_le_length m.colors s (s + n - 1)
    omega
  have hR := hsum (fun c => c.r) (fun c hc => (hvalid c hc).1)
  have hG := hsum (fun c => c.g) (fun c hc => (hvalid c hc).2.1)
  have hB := hsum (fun c => c.b) (fun c hc => (hvalid c hc).2.2.1)
  have hcount : toInt32 (rangeCount s (s + n - 1)) = (n : Int) := by
    rw [rangeCount_eq s n hn (by omega), toInt32_small n (by omega)]
  have hne : (n : Int) ≠ 0 := by omega
  unfold medianCutLeaf checkRangeLoop
  rw [if_neg (by omega), if_neg (by omega)]
  simp only [bind, Except.bind, checkIntSum, hR, hG, hB, if_true, hcount, divToUint8_ok _ _ hne]
  rw [writeBucket_lt _ _ hb]
  exact ⟨_, rfl, rfl, rfl⟩

theorem medianCutGreyscaleLeaf_total (m : MedianCutter) (s n : Nat) (hn : 1 ≤ n) (hn2 : n ≤ 255)
    (hlen : s + n ≤ m.greys.length) (hsize : m.greys.length ≤ 2 ^ 23)
    (hvalid : ∀ g ∈ m.greys, g < 256) (hb : m.bucketsCount < 16) :
    ∃ m1, medianCutGreyscaleLeaf m s (s + n - 1) = .ok m1 ∧ m1.greys = m.greys ∧
      m1.colors = m.colors := by
  have hsum : (slice m.greys s (s + n - 1)).sum < 2 ^ 31 := by
    have h1 := sum_le_of_uint8 (slice m.greys s (s + n - 1))
      (fun g hg => hvalid g (mem_of_mem_slice _ _ _ _ hg))
    have h2 := slice_length_le_length m.greys s (s + n - 1)
    omega
  have hcount : rangeCount s (s + n - 1) % 256 = n := by
    rw [rangeCount_eq s n hn (by omega)]
    exact Nat.mod_eq_of_lt (by omega)
  have hne : ((n : Nat) : Int) ≠ 0 := by omega
  unfold medianCutGreyscaleLeaf checkRangeLoop
  rw [if_neg (by omega), if_neg (by omega)]
  simp only [bind, Except.bind, checkIntSum, hsum, if_true, hcount, divToUint8_ok _ _ hne]
  rw [writeBucket_lt _ _ hb]
  exact ⟨_, rfl, rfl, rfl⟩

/-- The colour recursion at depth `it` over a range of at least `2 ^ it` members inside
an array of at most `2 ^ 23` 8-bit colours, with `2 ^ it` free palette slots, returns;
the working array is rearranged. -/
theorem medianCut_total (S : StdSort) (it : Nat) : ∀ (m : MedianCutter) (s n : Nat),
    2 ^ it ≤ n → s + n ≤ m.colors.length → m.colors.length ≤ 2 ^ 23 →
    (∀ c ∈ m.colors, c.IsUint8) → m.bucketsCount + 2 ^ it ≤ 16 →
    ∃ m1, medianCut S m s (s + n - 1) it = .ok m1 ∧ m1.colors.Perm m.colors := by
  induction it with
  | zero =>
    intro m s n hn hlen hsize hvalid hb
    obtain ⟨m1, h1, h2, _⟩ := medianCutLeaf_total m s n (by simpa using hn) hlen hsize hvalid
      (by rw [pow_zero] at hb; omega)
    exact ⟨m1, by rw [medianCut_zero]; exact h1, by rw [h2]⟩
  | succ it ih =>
    intro m s n hn hlen hsize hvalid hb
    have hpos : 0 < 2 ^ it := by positivity
    rw [pow_succ] at hn hb
    rw [medianCut_succ]
    obtain ⟨sortBy, hgd⟩ := greatestDifference_ok m.colors s (s + n - 1) (by omega) (by omega)
    obtain ⟨colors, hsort, hperm⟩ := sortRange_ok S sortBy.key m.colors s (s + n - 1)
      (by omega) (by omega)
    have hlen2 : colors.length = m.colors.length := hperm.length_eq
    have hmed : mediumOf s (s + n - 1) = s + n / 2 := by
      rw [mediumOf_eq _ _ (by omega)]
      omega
    have hpred : sizePred (s + n / 2) = s + n / 2 - 1 := sizePred_pos _ (by omega) (by omega)
    obtain ⟨m2, hleft, hperm2⟩ := ih { m with colors := colors } s (n / 2) (by omega)
      (by simp only [hlen2]; omega) (by simp only [hlen2]; exact hsize)
      (fun c hc => hvalid c (hperm.subset hc)) (by simp only; omega)
    obtain ⟨hc2, _, _, _⟩ := medianCut_counts S it _ _ _ _ hleft
    simp only at hc2 hperm2
    have hlen3 : m2.colors.length = m.colors.length := by rw [hperm2.length_eq, hlen2]
    obtain ⟨m3, hright, hperm3⟩ := ih m2 (s + n / 2) (n - n / 2) (by omega)
      (by rw [hlen3]; omega) (by rw [hlen3]; exact hsize)
      (fun c hc => hvalid c (hperm.subset (hperm2.subset hc))) (by rw [hc2]; omega)
    have hend : s + n / 2 + (n - n / 2) - 1 = s + n - 1 := by omega
    rw [hend] at hright
    refine ⟨m3, ?_, hperm3.trans (hperm2.trans hperm)⟩
    rw [hgd]
    simp only [Except.bind, sortBucket, hsort, hmed, hpred, hleft, hright]

/-- The grey recursion at depth `it` over a range of at least `2 ^ it` and at most
`255 * 2 ^ it` members returns: no leaf has a member count that `Uint8` turns into 0. -/
theorem medianCutGreyscale_total (S : StdSort) (it : Nat) : ∀ (m : MedianCutter) (s n : Nat),
    2 ^ it ≤ n → n ≤ 255 * 2 ^ it → s + n ≤ m.greys.length → m.greys.length ≤ 2 ^ 23 →
    (∀ g ∈ m.greys, g < 256) → m.bucketsCount + 2 ^ it ≤ 16 →
    ∃ m1, medianCutGreyscale S m s (s + n - 1) it = .ok m1 ∧ m1.greys.Perm m.greys := by
  induction it with
  | zero =>
    intro m s n hn hn2 hlen hsize hvalid hb
    obtain ⟨m1, h1, h2, _⟩ := medianCutGreyscaleLeaf_total m s n (by simpa using hn)
      (by simpa using hn2) hlen hsize hvalid (by rw [pow_zero] at hb; omega)
    exact ⟨m1, by rw [medianCutGreyscale_zero]; exact h1, by rw [h2]⟩
  | succ it ih =>
    intro m s n hn hn2 hlen hsize hvalid hb
    have hpos : 0 < 2 ^ it := by positivity
    rw [pow_succ] at hn hn2 hb
    rw [medianCutGreyscale_succ]
    obtain ⟨greys, hsort, hperm⟩ := sortRange_ok S (fun grey => grey) m.greys s (s + n - 1)
      (by omega) (by omega)
    have hlen2 : greys.length = m.greys.length := hperm.length_eq
    have hmed : mediumOf s (s + n - 1) = s + n / 2 := by
      rw [mediumOf_eq _ _ (by omega)]
      omega
    have hpred : sizePred (s + n / 2) = s + n / 2 - 1 := sizePred_pos _ (by omega) (by omega)
    obtain ⟨m2, hleft, hperm2⟩ := ih { m with greys := greys } s (n / 2) (by omega) (by omega)
      (by simp only [hlen2]; omega) (by simp only [hlen2]; exact hsize)
      (fun g hg => hvalid g (hperm.subset hg)) (by simp only; omega)
    obtain ⟨hc2, _, _, _⟩ := medianCutGreyscale_counts S it _ _ _ _ hleft
    simp only at hc2 hperm2
    have hlen3 : m2.greys.length = m.greys.length := by rw [hperm2.length_eq, hlen2]
    obtain ⟨m3, hright, hperm3⟩ := ih m2 (s + n / 2) (n - n / 2) (by omega) (by omega)
      (by rw [hlen3]; omega) (by rw [hlen3]; exact hsize)
      (fun g hg => hvalid g (hperm.subset (hperm2.subset hg))) (by rw [hc2]; omega)
    have hend : s + n / 2 + (n - n / 2) - 1 = s + n - 1 := by omega
    rw [hend] at hright
    refine ⟨m3, ?_, hperm3.trans (hperm2.trans hperm)⟩
    simp only [Except.bind, sortBucketGreyscale, hsort, hmed, hpred, hleft, hright]

theorem runMedianCutter_ok (S : StdSort) (img : Image) (greyscale : Bool) (m0 m1 : MedianCutter)
    (buffer : PixelBuffer) (h1 : MedianCutter.new img.originalBmp img.palette = .ok m0)
    (h2 : perform S m0 greyscale = .ok (buffer, m1)) :
    runMedianCutter S img greyscale =
      .returned { img with palette := m1.palette, transformedBmp := some buffer } := by
  unfold runMedianCutter
  rw [h1]
  dsimp only
  rw [h2]

/-- The colour median cut returns on every image of 16 to `2 ^ 23` 8-bit pixels. -/
theorem medianCutTransformation_total (S : StdSort) (img : Image) (hrows : img.originalBmp ≠ [])
    (hN : 16 ≤ img.originalBmp.flatten.length) (hmax : img.originalBmp.flatten.length ≤ 2 ^ 23)
    (hvalid : ∀ row ∈ img.originalBmp, ∀ pixel ∈ row, pixel.IsUint8) :
    ∃ img1, transform S .medianCut img = .returned img1 := by
  have hnew := MedianCutter_new_of_ne img.originalBmp img.palette hrows
  obtain ⟨m1, hcut, _⟩ := medianCut_total S 4 ⟨img.originalBmp, img.palette, 0, 0,
    img.originalBmp.flatten, img.originalBmp.flatten.map luminance⟩ 0
    img.originalBmp.flatten.length (le_trans (by norm_num) hN) (by simp) hmax
    (by
      intro c hc
      obtain ⟨row, hrow, hcrow⟩ := List.mem_flatten.mp hc
      exact hvalid row hrow c hcrow)
    (by norm_num)
  have hend : sizePred img.originalBmp.flatten.length = 0 + img.originalBmp.flatten.length - 1 := by
    rw [sizePred_pos _ (by omega) (lt_of_le_of_lt hmax (by norm_num)), Nat.zero_add]
  have hperf : ∃ buffer, perform S ⟨img.originalBmp, img.palette, 0, 0, img.originalBmp.flatten,
      img.originalBmp.flatten.map luminance⟩ false = .ok (buffer, m1) := by
    refine ⟨m1.image.map (fun row => row.map (fun pixel =>
      m1.palette (findNeighbour m1.palette pixel))), ?_⟩
    show performColor S _ = _
    unfold performColor
    rw [hend, hcut]
    rfl
  obtain ⟨buffer, hperf⟩ := hperf
  show ∃ img1, runMedianCutter S img false = .returned img1
  exact ⟨_, runMedianCutter_ok S img false _ _ _ hnew hperf⟩

/-- The greyscale median cut returns on every image of 16 to 4080 pixels. -/
theorem medianCutGreyscaleTransformation_total (S : StdSort) (img : Image)
    (hrows : img.originalBmp ≠ []) (hN : 16 ≤ img.originalBmp.flatten.length)
    (hmax : img.originalBmp.flatten.length ≤ 4080) :
    ∃ img1, transform S .medianCutGreyscale img = .returned img1 := by
  have hnew := MedianCutter_new_of_ne img.originalBmp img.palette hrows
  have hlen : (img.originalBmp.flatten.map luminance).length = img.originalBmp.flatten.length :=
    List.length_map _ _
  obtain ⟨m1, hcut, _⟩ := medianCutGreyscale_total S 4 ⟨img.originalBmp, img.palette, 0, 0,
    img.originalBmp.flatten, img.originalBmp.flatten.map luminance⟩ 0
    img.originalBmp.flatten.length (le_trans (by norm_num) hN) (le_trans hmax (by norm_num))
    (by rw [Nat.zero_add]; exact le_of_eq hlen.symm)
    (le_trans (le_of_eq hlen) (le_trans hmax (by norm_num)))
    (by
      intro g hg
      obtain ⟨c, _, rfl⟩ := List.mem_map.mp hg
      exact luminance_lt c)
    (by norm_num)
  have hend : sizePred (img.originalBmp.flatten.map luminance).length =
      0 + img.originalBmp.flatten.length - 1 := by
    rw [hlen, sizePred_pos _ (by omega) (lt_of_le_of_lt hmax (by norm_num)), Nat.zero_add]
  have hperf : ∃ buffer, perform S ⟨img.originalBmp, img.palette, 0, 0, img.originalBmp.flatten,
      img.originalBmp.flatten.map luminance⟩ true = .ok (buffer, m1) := by
    refine ⟨m1.image.map (fun row => row.map (fun pixel =>
      m1.palette (findNeighbourGreyscale m1.palette pixel))), ?_⟩
    show performGreyscale S _ = _
    unfold performGreyscale
    rw [hend, hcut]
    rfl
  obtain ⟨buffer, hperf⟩ := hperf
  show ∃ img1, runMedianCutter S img true = .returned img1
  exact ⟨_, runMedianCutter_ok S img true _ _ _ hnew hperf⟩

/-! ### Palette size and bucket counter -/

/-- A returning colour median cut ran the depth-4 recursion from a fresh cutter to a
cutter with 16 buckets, over at least 16 pixels. -/
theorem medianCut_run (S : StdSort) (img img1 : Image)
    (h : transform S .medianCut img = .returned img1) :
    ∃ m0 m1, MedianCutter.new img.originalBmp img.palette = .ok m0 ∧ m0.bucketsCount = 0 ∧
      medianCut S m0 0 (sizePred m0.colors.length) 4 = .ok m1 ∧ m1.bucketsCount = 16 ∧
      img1.palette = m1.palette ∧ 16 ≤ img.originalBmp.flatten.length := by
  obtain ⟨m0, m1, buffer, hnew, hperf, rfl⟩ := runMedianCutter_returned S img img1 false h
  obtain ⟨hcut, _⟩ := performColor_ok S m0 m1 buffer hperf
  obtain ⟨hcount, _, _, _⟩ := medianCut_counts S 4 m0 m1 _ _ hcut
  obtain ⟨_, hm0⟩ := MedianCutter_new_ok _ _ _ hnew
  have hb : m0.bucketsCount = 0 := by rw [hm0]
  have hc : m0.colors = img.originalBmp.flatten := by rw [hm0]
  refine ⟨m0, m1, hnew, hb, hcut, by rw [hcount, hb]; norm_num, rfl, ?_⟩
  by_contra hlt
  have hlt : m0.colors.length < 16 := by rw [hc]; omega
  have := medianCut_small S 4 m0 m0.colors.length (lt_of_lt_of_le hlt (by norm_num)) (le_refl _)
    (lt_trans hlt (by norm_num))
  rw [this] at hcut
  cases hcut

theorem medianCutGreyscale_run (S : StdSort) (img img1 : Image)
    (h : transform S .medianCutGreyscale img = .returned img1) :
    ∃ m0 m1, MedianCutter.new img.originalBmp img.palette = .ok m0 ∧ m0.bucketsCount = 0 ∧
      medianCutGreyscale S m0 0 (sizePred m0.greys.length) 4 = .ok m1 ∧ m1.bucketsCount = 16 ∧
      img1.palette = m1.palette ∧ 16 ≤ img.originalBmp.flatten.length := by
  obtain ⟨m0, m1, buffer, hnew, hperf, rfl⟩ := runMedianCutter_returned S img img1 true h
  obtain ⟨hcut, _⟩ := performGreyscale_ok S m0 m1 buffer hperf
  obtain ⟨hcount, _, _, _⟩ := medianCutGreyscale_counts S 4 m0 m1 _ _ hcut
  obtain ⟨_, hm0⟩ := MedianCutter_new_ok _ _ _ hnew
  have hb : m0.bucketsCount = 0 := by rw [hm0]
  have hc : m0.greys.length = img.originalBmp.flatten.length := by rw [hm0]; exact List.length_map _ _
  refine ⟨m0, m1, hnew, hb, hcut, by rw [hcount, hb]; norm_num, rfl, ?_⟩
  by_contra hlt
  have hlt : m0.greys.length < 16 := by rw [hc]; omega
  have := medianCutGreyscale_small S 4 m0 m0.greys.length (lt_of_lt_of_le hlt (by norm_num))
    (le_refl _) (lt_trans hlt (by norm_num))
  rw [this] at hcut
  cases hcut

/-! ### Independence from the previous result -/

theorem medianCutLeaf_unfold (m : MedianCutter) (s e : Nat) :
    medianCutLeaf m s e =
      (checkRangeLoop m.colors.length s e).bind (fun _ =>
        (checkIntSum ((slice m.colors s e).map (fun c => c.r)).sum).bind (fun _ =>
          (checkIntSum ((slice m.colors s e).map (fun c => c.g)).sum).bind (fun _ =>
            (checkIntSum ((slice m.colors s e).map (fun c => c.b)).sum).bind (fun _ =>
              (divToUint8 ((slice m.colors s e).map (fun c => c.r)).sum
                  (toInt32 (rangeCount s e))).bind (fun averageR =>
                (divToUint8 ((slice m.colors s e).map (fun c => c.g)).sum
                    (toInt32 (rangeCount s e))).bind (fun averageG =>
                  (divToUint8 ((slice m.colors s e).map (fun c => c.b)).sum
                      (toInt32 (rangeCount s e))).bind (fun averageB =>
                    writeBucket m ⟨averageR, averageG, averageB, 1⟩))))))) := rfl

theorem medianCutGreyscaleLeaf_unfold (m : MedianCutter) (s e : Nat) :
    medianCutGreyscaleLeaf m s e =
      (checkRangeLoop m.greys.length s e).bind (fun _ =>
        (checkIntSum (slice m.greys s e).sum).bind (fun _ =>
          (divToUint8 (slice m.greys s e).sum ((rangeCount s e % 256 : Nat) : Int)).bind
            (fun newGrey => writeBucket m ⟨newGrey, newGrey, newGrey, 1⟩))) := rfl

/-- A returning colour leaf writes a colour that depends on the working array only: with
another palette in place the same colour goes to the same index. -/
theorem medianCutLeaf_palette (m m1 : MedianCutter) (p : Palette) (s e : Nat)
    (h : medianCutLeaf m s e = .ok m1) :
    ∃ (hlt : m.bucketsCount < 16) (color : SDL_Color),
      m1 = { m with palette := Function.update m.palette ⟨m.bucketsCount, hlt⟩ color
                    bucketsCount := m.bucketsCount + 1 } ∧
      medianCutLeaf { m with palette := p } s e =
        .ok { m with palette := Function.update p ⟨m.bucketsCount, hlt⟩ color
                     bucketsCount := m.bucketsCount + 1 } := by
  rw [medianCutLeaf_unfold] at h
  obtain ⟨_, h1, h⟩ := except_bind_eq_ok _ _ _ h
  obtain ⟨_, h2, h⟩ := except_bind_eq_ok _ _ _ h
  obtain ⟨_, h3, h⟩ := except_bind_eq_ok _ _ _ h
  obtain ⟨_, h4, h⟩ := except_bind_eq_ok _ _ _ h
  obtain ⟨aR, h5, h⟩ := except_bind_eq_ok _ _ _ h
  obtain ⟨aG, h6, h⟩ := except_bind_eq_ok _ _ _ h
  obtain ⟨aB, h7, h⟩ := except_bind_eq_ok _ _ _ h
  obtain ⟨hlt, hm1⟩ := writeBucket_ok _ _ _ h
  refine ⟨hlt, ⟨aR, aG, aB, 1⟩, hm1, ?_⟩
  rw [medianCutLeaf_unfold]
  simp only
  rw [h1, Except.bind, h2, Except.bind, h3, Except.bind, h4, Except.bind, h5, Except.bind, h6,
    Except.bind, h7, Except.bind]
  exact writeBucket_lt { m with palette := p } _ hlt

theorem medianCutGreyscaleLeaf_palette (m m1 : MedianCutter) (p : Palette) (s e : Nat)
    (h : medianCutGreyscaleLeaf m s e = .ok m1) :
    ∃ (hlt : m.bucketsCount < 16) (color : SDL_Color),
      m1 = { m with palette := Function.update m.palette ⟨m.bucketsCount, hlt⟩ color
                    bucketsCount := m.bucketsCount + 1 } ∧
      medianCutGreyscaleLeaf { m with palette := p } s e =
        .ok { m with palette := Function.update p ⟨m.bucketsCount, hlt⟩ color
                     bucketsCount := m.bucketsCount + 1 } := by
  rw [medianCutGreyscaleLeaf_unfold] at h
  obtain ⟨_, h1, h⟩ := except_bind_eq_ok _ _ _ h
  obtain ⟨_, h2, h⟩ := except_bind_eq_ok _ _ _ h
  obtain ⟨g, h3, h⟩ := except_bind_eq_ok _ _ _ h
  obtain ⟨hlt, hm1⟩ := writeBucket_ok _ _ _ h
  refine ⟨hlt, ⟨g, g, g, 1⟩, hm1, ?_⟩
  rw [medianCutGreyscaleLeaf_unfold]
  simp only
  rw [h1, Except.bind, h2, Except.bind, h3, Except.bind]
  exact writeBucket_lt { m with palette := p } _ hlt

/-- The colour recursion started with another palette: it returns as well, with the same
working arrays and counter, and the two palettes agree on every index below the counter
when they did so at the start. -/
theorem medianCut_palette (S : StdSort) (it : Nat) : ∀ (m m1 : MedianCutter) (p : Palette) (s e : Nat),
    medianCut S m s e it = .ok m1 →
    (∀ i : Fin 16, i.val < m.bucketsCount → p i = m.palette i) →
    ∃ p1 : Palette, medianCut S { m with palette := p } s e it = .ok { m1 with palette := p1 } ∧
      ∀ i : Fin 16, i.val < m1.bucketsCount → p1 i = m1.palette i := by
  induction it with
  | zero =>
    intro m m1 p s e h hp
    rw [medianCut_zero] at h
    obtain ⟨hlt, color, rfl, h2⟩ := medianCutLeaf_palette m m1 p s e h
    refine ⟨Function.update p ⟨m.bucketsCount, hlt⟩ color, by rw [medianCut_zero]; exact h2, ?_⟩
    intro i hi
    simp only at hi ⊢
    by_cases hEq : i = ⟨m.bucketsCount, hlt⟩
    · rw [hEq, Function.update_same, Function.update_same]
    · rw [Function.update_noteq hEq, Function.update_noteq hEq]
      apply hp
      have : i.val ≠ m.bucketsCount := fun hv => hEq (Fin.ext hv)
      omega
  | succ it ih =>
    intro m m1 p s e h hp
    rw [medianCut_succ] at h
    obtain ⟨sortBy, hgd, h⟩ := except_bind_eq_ok _ _ _ h
    obtain ⟨colors, hsort, h⟩ := except_bind_eq_ok _ _ _ h
    obtain ⟨m2, hleft, hright⟩ := except_bind_eq_ok _ _ _ h
    obtain ⟨p2, hleft2, hp2⟩ := ih _ m2 p s _ hleft hp
    obtain ⟨p3, hright2, hp3⟩ := ih m2 m1 p2 _ e hright hp2
    refine ⟨p3, ?_, hp3⟩
    rw [medianCut_succ]
    simp only
    rw [hgd, Except.bind, hsort, Except.bind]
    rw [hleft2, Except.bind]
    exact hright2

theorem medianCutGreyscale_palette (S : StdSort) (it : Nat) :
    ∀ (m m1 : MedianCutter) (p : Palette) (s e : Nat),
    medianCutGreyscale S m s e it = .ok m1 →
    (∀ i : Fin 16, i.val < m.bucketsCount → p i = m.palette i) →
    ∃ p1 : Palette, medianCutGreyscale S { m with palette := p } s e it =
        .ok { m1 with palette := p1 } ∧
      ∀ i : Fin 16, i.val < m1.bucketsCount → p1 i = m1.palette i := by
  induction it with
  | zero =>
    intro m m1 p s e h hp
    rw [medianCutGreyscale_zero] at h
    obtain ⟨hlt, color, rfl, h2⟩ := medianCutGreyscaleLeaf_palette m m1 p s e h
    refine ⟨Function.update p ⟨m.bucketsCount, hlt⟩ color,
      by rw [medianCutGreyscale_zero]; exact h2, ?_⟩
    intro i hi
    simp only at hi ⊢
    by_cases hEq : i = ⟨m.bucketsCount, hlt⟩
    · rw [hEq, Function.update_same, Function.update_same]
    · rw [Function.update_noteq hEq, Function.update_noteq hEq]
      apply hp
      have : i.val ≠ m.bucketsCount := fun hv => hEq (Fin.ext hv)
      omega
  | succ it ih =>
    intro m m1 p s e h hp
    rw [medianCutGreyscale_succ] at h
    obtain ⟨greys, hsort, h⟩ := except_bind_eq_ok _ _ _ h
    obtain ⟨m2, hleft, hright⟩ := except_bind_eq_ok _ _ _ h
    obtain ⟨p2, hleft2, hp2⟩ := ih _ m2 p s _ hleft hp
    obtain ⟨p3, hright2, hp3⟩ := ih m2 m1 p2 _ e hright hp2
    refine ⟨p3, ?_, hp3⟩
    rw [medianCutGreyscale_succ]
    simp only
    rw [hsort, Except.bind]
    rw [hleft2, Except.bind]
    exact hright2

/-- A returning median cut on one object returns on every object with the same original
buffer, with the same buffer and palette as result. -/
theorem runMedianCutter_original (S : StdSort) (greyscale : Bool) (img other img1 : Image)
    (hsame : other.originalBmp = img.originalBmp)
    (h : runMedianCutter S img greyscale = .returned img1) :
    runMedianCutter S other greyscale =
      .returned { other with palette := img1.palette, transformedBmp := img1.transformedBmp } := by
  obtain ⟨m0, m1, buffer, hnew, hperf, rfl⟩ := runMedianCutter_returned S img img1 greyscale h
  obtain ⟨hne, hm0⟩ := MedianCutter_new_ok _ _ _ hnew
  have hnew2 : MedianCutter.new other.originalBmp other.palette =
      .ok { m0 with palette := other.palette } := by
    rw [hsame, MedianCutter_new_of_ne _ _ hne, hm0]
  have hb0 : m0.bucketsCount = 0 := by rw [hm0]
  have hperf2 : perform S { m0 with palette := other.palette } greyscale = .ok (buffer, m1) := by
    cases greyscale with
    | false =>
      obtain ⟨hcut, hbuf⟩ := performColor_ok S m0 m1 buffer hperf
      obtain ⟨p1, hcut2, hp1⟩ := medianCut_palette S 4 m0 m1 other.palette _ _ hcut
        (by intro i hi; rw [hb0] at hi; omega)
      obtain ⟨hcount, _, _, _⟩ := medianCut_counts S 4 m0 m1 _ _ hcut
      have hp : p1 = m1.palette := by
        funext i
        exact hp1 i (by rw [hcount, hb0]; exact i.isLt)
      rw [hp] at hcut2
      show performColor S _ = _
      unfold performColor
      simp only
      rw [hcut2, hbuf]
      rfl
    | true =>
      obtain ⟨hcut, hbuf⟩ := performGreyscale_ok S m0 m1 buffer hperf
      obtain ⟨p1, hcut2, hp1⟩ := medianCutGreyscale_palette S 4 m0 m1 other.palette _ _ hcut
        (by intro i hi; rw [hb0] at hi; omega)
      obtain ⟨hcount, _, _, _⟩ := medianCutGreyscale_counts S 4 m0 m1 _ _ hcut
      have hp : p1 = m1.palette := by
        funext i
        exact hp1 i (by rw [hcount, hb0]; exact i.isLt)
      rw [hp] at hcut2
      show performGreyscale S _ = _
      unfold performGreyscale
      simp only
      rw [hcut2, hbuf]
      rfl
  exact runMedianCutter_ok S other greyscale _ m1 buffer hnew2 hperf2

/-- C11: for each of the seven strategies, when `transform` returns on one object it
returns on every object with the same original buffer, whatever its transformed buffer,
palette and recorded transformation, and both have the same transformed buffer and the
same palette afterwards. -/
theorem transform_from_original (S : StdSort) (t : Transformation) (img other img1 : Image)
    (ht : t ≠ .none) (hsame : other.originalBmp = img.originalBmp)
    (h : transform S t img = .returned img1) :
    ∃ other1, transform S t other = .returned other1 ∧
      other1.transformedBmp = img1.transformedBmp ∧ other1.palette = img1.palette := by
  cases t with
  | none => exact absurd rfl ht
  | imposedPalette =>
    injection h with h
    refine ⟨_, rfl, ?_, ?_⟩
    · rw [← h, hsame]
    · rw [← h]
  | dedicatedPalette =>
    have h : dedicatedPaletteTransformation img = .returned img1 := h
    have hrows : img.originalBmp ≠ [] := by
      intro hnil
      unfold dedicatedPaletteTransformation at h
      rw [hnil] at h
      cases h
    rw [dedicatedPaletteTransformation_eq img hrows] at h
    show ∃ other1, dedicatedPaletteTransformation other = .returned other1 ∧ _
    rw [dedicatedPaletteTransformation_eq other (by rw [hsame]; exact hrows), hsame]
    by_cases hn : (distinctColours img.originalBmp).length > 16
    · rw [if_pos hn] at h
      cases h
    · rw [if_neg hn] at h ⊢
      injection h with h
      refine ⟨_, rfl, ?_, ?_⟩
      · rw [← h]
      · rw [← h]
        rfl
  | greyscale =>
    injection h with h
    refine ⟨_, rfl, ?_, ?_⟩
    · rw [← h, hsame]
    · rw [← h]
  | dithering =>
    injection h with h
    refine ⟨_, rfl, ?_, ?_⟩
    · rw [← h, hsame]
    · rw [← h]
  | ditheringGreyscale =>
    injection h with h
    refine ⟨_, rfl, ?_, ?_⟩
    · rw [← h, hsame]
    · rw [← h]
  | medianCut =>
    exact ⟨_, runMedianCutter_original S false img other img1 hsame h, rfl, rfl⟩
  | medianCutGreyscale =>
    exact ⟨_, runMedianCutter_original S true img other img1 hsame h, rfl, rfl⟩

set_option maxRecDepth 100000 in
/-- The 4 by 4 example in a fresh engine and in a used one, under the colour median cut. -/
theorem transform_from_original_witness :
    Transformation.medianCut ≠ Transformation.none ∧
    exampleFourByFourUsed.originalBmp = exampleFourByFour.originalBmp ∧
    ∃ img1, transform insertionStdSort .medianCut exampleFourByFour = .returned img1 ∧
      ∃ other1, transform insertionStdSort .medianCut exampleFourByFourUsed = .returned other1 ∧
        other1.transformedBmp = img1.transformedBmp ∧ other1.palette = img1.palette :=
  ⟨by decide, rfl, _, rfl,
    transform_from_original insertionStdSort .medianCut exampleFourByFour exampleFourByFourUsed _
      (by decide) rfl rfl⟩

/-! ### The fields of `FourBitColor` -/

/-- C13: for every 8-bit colour the constructor of `FourBitColor` from a colour gives
the red field `round(c.r * 3 / 255)`, at most 3, and the green and blue fields
`round(c.g / 255)` and `round(c.b / 255)`, at most 1; the red field is 0, 1, 2, 3 on
the ranges 0-42, 43-127, 128-212, 213-255 and the green and blue fields are 1 exactly
from 128 on. -/
theorem reduceColor_fields (c : SDL_Color) (h : c.IsUint8) :
    (FourBitColor.ofColor c).r = roundHalfUp (c.r * 3) 255 ∧ (FourBitColor.ofColor c).r ≤ 3 ∧
    (FourBitColor.ofColor c).g = roundHalfUp c.g 255 ∧ (FourBitColor.ofColor c).g ≤ 1 ∧
    (FourBitColor.ofColor c).b = roundHalfUp c.b 255 ∧ (FourBitColor.ofColor c).b ≤ 1 ∧
    ((FourBitColor.ofColor c).r = 0 ↔ c.r ≤ 42) ∧
    ((FourBitColor.ofColor c).r = 1 ↔ 43 ≤ c.r ∧ c.r ≤ 127) ∧
    ((FourBitColor.ofColor c).r = 2 ↔ 128 ≤ c.r ∧ c.r ≤ 212) ∧
    ((FourBitColor.ofColor c).r = 3 ↔ 213 ≤ c.r ∧ c.r ≤ 255) ∧
    ((FourBitColor.ofColor c).g = 1 ↔ 128 ≤ c.g) ∧
    ((FourBitColor.ofColor c).b = 1 ↔ 128 ≤ c.b) := by
  obtain ⟨hr, hg, hb, _⟩ := h
  have e1 : (FourBitColor.ofColor c).r = (2 * c.r + 85) / 170 := reduceChannel_three c.r hr
  have e2 : (FourBitColor.ofColor c).g = c.g / 128 := reduceChannel_one c.g hg
  have e3 : (FourBitColor.ofColor c).b = c.b / 128 := reduceChannel_one c.b hb
  rw [e1, e2, e3]
  unfold roundHalfUp
  refine ⟨by omega, by omega, by omega, by omega, by omega, by omega, by omega, by omega,
    by omega, by omega, by omega, by omega⟩

/-- The colour (100, 200, 50) reduces to the fields (1, 1, 0). -/
theorem reduceColor_fields_witness :
    (⟨100, 200, 50, 1⟩ : SDL_Color).IsUint8 ∧
    (FourBitColor.ofColor ⟨100, 200, 50, 1⟩).r = 1 ∧
    (FourBitColor.ofColor ⟨100, 200, 50, 1⟩).g = 1 ∧
    (FourBitColor.ofColor ⟨100, 200, 50, 1⟩).b = 0 := by
  have h := reduceColor_fields ⟨100, 200, 50, 1⟩ (by decide)
  exact ⟨by decide, h.2.2.2.2.2.2.2.1.mpr (by decide), h.2.2.2.2.2.2.2.2.2.2.1.mpr (by decide),
    by
      have hb := h.2.2.2.2.1
      rw [hb]
      decide⟩

set_option maxRecDepth 1000000 in
theorem ofCode_fields : ∀ code : Fin 16,
    FourBitColor.ofCode code.val = ⟨code.val / 4, code.val / 2 % 2, code.val % 2⟩ := by
  decide

/-- C14: every code 0..15 is laid out as `(r << 2) | (g << 1) | b`; its expansion has
red `field * 255 / 3`, one of 0, 85, 170, 255, and green and blue `field * 255`;
reducing the expansion gives back the three fields of the code, and the expansion is
injective on the 16 codes. -/
theorem code_roundtrip (code : Fin 16) :
    (((FourBitColor.ofCode code.val).r <<< 2) ||| ((FourBitColor.ofCode code.val).g <<< 1) |||
      (FourBitColor.ofCode code.val).b) = code.val ∧
    (FourBitColor.ofCode code.val).r < 4 ∧ (FourBitColor.ofCode code.val).g < 2 ∧
    (FourBitColor.ofCode code.val).b < 2 ∧
    (FourBitColor.ofCode code.val).getSdlColor =
      ⟨(FourBitColor.ofCode code.val).r * 255 / 3, (FourBitColor.ofCode code.val).g * 255,
        (FourBitColor.ofCode code.val).b * 255, 1⟩ ∧
    (FourBitColor.ofCode code.val).getSdlColor.r ∈ [0, 85, 170, 255] ∧
    FourBitColor.ofColor (FourBitColor.ofCode code.val).getSdlColor = FourBitColor.ofCode code.val ∧
    Function.Injective (fun k : Fin 16 => (FourBitColor.ofCode k.val).getSdlColor) := by
  have hround : ∀ k : Fin 16,
      FourBitColor.ofColor (FourBitColor.ofCode k.val).getSdlColor = FourBitColor.ofCode k.val := by
    intro k
    rw [ofCode_fields k, getSdlColor_fields _ _ _ (by omega) (by omega) (by omega)]
    unfold FourBitColor.ofColor
    simp only
    rw [reduceChannel_three _ (by omega), reduceChannel_one _ (by omega),
      reduceChannel_one _ (by omega)]
    congr 1 <;> omega
  have hlayout : ∀ k : Fin 16, (((FourBitColor.ofCode k.val).r <<< 2) |||
      ((FourBitColor.ofCode k.val).g <<< 1) ||| (FourBitColor.ofCode k.val).b) = k.val := by
    decide
  refine ⟨hlayout code, ?_, ?_, ?_, ?_, ?_, hround code, ?_⟩
  · rw [ofCode_fields code]; simp only; omega
  · rw [ofCode_fields code]; simp only; omega
  · rw [ofCode_fields code]; simp only; omega
  · rw [ofCode_fields code, getSdlColor_fields _ _ _ (by omega) (by omega) (by omega)]
    simp only
    congr 1 <;> omega
  · rw [ofCode_fields code, getSdlColor_fields _ _ _ (by omega) (by omega) (by omega)]
    simp only [List.mem_cons, List.mem_singleton, List.not_mem_nil, or_false]
    omega
  · intro a b hab
    simp only at hab
    have h1 := hround a
    rw [hab, hround b] at h1
    have h2 := hlayout a
    rw [← h1, hlayout b] at h2
    exact Fin.ext h2.symm

/-! ### Imposed-palette idempotence -/

/-- An output of the imposed-palette quantiser is left alone by the quantiser. -/
theorem imposed_pixel_idem (c : SDL_Color) (hc : c.IsUint8) :
    (FourBitColor.ofColor (FourBitColor.ofColor c).getSdlColor).getSdlColor =
      (FourBitColor.ofColor c).getSdlColor := by
  obtain ⟨hr, hg, hb, _⟩ := hc
  rw [imposed_pixel c ⟨hr, hg, hb, by assumption⟩]
  rw [imposed_pixel _ ⟨by simp only; omega, by simp only; omega, by simp only; omega,
    by simp only; omega⟩]
  simp only
  congr 2 <;> omega

theorem imposed_buffer_idem (bmp : PixelBuffer)
    (hbmp : ∀ row ∈ bmp, ∀ pixel ∈ row, pixel.IsUint8) :
    (bmp.map (fun row => row.map (fun pixel => (FourBitColor.ofColor pixel).getSdlColor))).map
      (fun row => row.map (fun pixel => (FourBitColor.ofColor pixel).getSdlColor)) =
    bmp.map (fun row => row.map (fun pixel => (FourBitColor.ofColor pixel).getSdlColor)) := by
  rw [List.map_map]
  apply List.map_congr_left
  intro row hrow
  simp only [Function.comp_apply, List.map_map]
  apply List.map_congr_left
  intro pixel hpixel
  exact imposed_pixel_idem pixel (hbmp row hrow pixel hpixel)

/-- C12: the imposed-palette quantiser is idempotent on every 8-bit colour; the
imposed-palette transform of an image that is the output of the imposed-palette
transform gives that image as buffer and the same palette; and a second
`transform(imposedPalette)` on the same object gives the buffer and palette of the
first. -/
theorem imposedPalette_idempotent (S : StdSort) (c : SDL_Color) (hc : c.IsUint8) (img : Image)
    (himg : ∀ row ∈ img.originalBmp, ∀ pixel ∈ row, pixel.IsUint8) :
    (FourBitColor.ofColor (FourBitColor.ofColor c).getSdlColor).getSdlColor =
      (FourBitColor.ofColor c).getSdlColor ∧
    ∃ img1 buffer, transform S .imposedPalette img = .returned img1 ∧
      img1.transformedBmp = some buffer ∧
      (∀ img2 : Image, img2.originalBmp = buffer →
        ∃ img3, transform S .imposedPalette img2 = .returned img3 ∧
          img3.transformedBmp = some buffer ∧ img3.palette = img1.palette) ∧
      (∃ img4, transform S .imposedPalette img1 = .returned img4 ∧
        img4.transformedBmp = img1.transformedBmp ∧ img4.palette = img1.palette) := by
  refine ⟨imposed_pixel_idem c hc, _, _, rfl, rfl, ?_, _, rfl, rfl, rfl⟩
  intro img2 h2
  refine ⟨_, rfl, ?_, rfl⟩
  simp only [h2]
  rw [imposed_buffer_idem _ himg]

/-- The 2 by 2 example: its imposed-palette output is a fixed point. -/
theorem imposedPalette_idempotent_witness :
    (⟨100, 200, 50, 1⟩ : SDL_Color).IsUint8 ∧
    (∀ row ∈ exampleTwoByTwo.originalBmp, ∀ pixel ∈ row, pixel.IsUint8) ∧
    ((FourBitColor.ofColor (FourBitColor.ofColor ⟨100, 200, 50, 1⟩).getSdlColor).getSdlColor =
      (FourBitColor.ofColor ⟨100, 200, 50, 1⟩).getSdlColor ∧
    ∃ img1 buffer, transform insertionStdSort .imposedPalette exampleTwoByTwo = .returned img1 ∧
      img1.transformedBmp = some buffer ∧
      (∀ img2 : Image, img2.originalBmp = buffer →
        ∃ img3, transform insertionStdSort .imposedPalette img2 = .returned img3 ∧
          img3.transformedBmp = some buffer ∧ img3.palette = img1.palette) ∧
      (∃ img4, transform insertionStdSort .imposedPalette img1 = .returned img4 ∧
        img4.transformedBmp = img1.transformedBmp ∧ img4.palette = img1.palette)) :=
  ⟨by decide, by decide,
    imposedPalette_idempotent insertionStdSort ⟨100, 200, 50, 1⟩ (by decide) exampleTwoByTwo
      (by decide)⟩

/-! ### The grey level of `FourBitGrey` -/

set_option maxRecDepth 1000000 in
/-- C15: the constructor of `FourBitGrey` truncates where the specification rounds. White has
luminance 255 and the level `round(255 * 15 / 255) = 15`, the code gives 14 and the
greyscale strategy turns a white pixel into (238, 238, 238); the mid grey (128, 128, 128)
has the level `round(7.53) = 8`, the code gives 7. -/
theorem reduceGrey_truncates :
    (FourBitGrey.ofColor ⟨255, 255, 255, 1⟩).grey = 14 ∧
    reduceGreySpec ⟨255, 255, 255, 1⟩ = 15 ∧
    (FourBitGrey.ofColor ⟨128, 128, 128, 1⟩).grey = 7 ∧
    reduceGreySpec ⟨128, 128, 128, 1⟩ = 8 ∧
    ∃ img1, greyscaleTransformation exampleWhite = .returned img1 ∧
      img1.transformedBmp = some [[⟨238, 238, 238, 1⟩]] := by
  refine ⟨by decide, by decide, by decide, by decide, _, rfl, ?_⟩
  decide

/-! ### The reorder step -/

/-- A sorting routine leaves a one-element range alone. -/
theorem StdSort_singleton {α : Type} (S : StdSort) (key : α → Nat) (a : α) :
    S.sort key [a] = [a] :=
  List.perm_singleton.mp (S.perm key [a])

/-- The call `std::sort(v.begin() + start, v.begin() + end, cmp)` never moves the
element at the index `end`. -/
theorem sortRange_keeps_end {α : Type} (S : StdSort) (key : α → Nat) (v w : List α) (s e : Nat)
    (h : sortRange S key v s e = .ok w) : w[e]? = v[e]? := by
  unfold sortRange at h
  split at h
  · rename_i hr
    injection h with h
    have hlen : (v.take s ++ S.sort key ((v.drop s).take (e - s))).length = e := by
      rw [List.length_append, (S.perm key _).length_eq, List.length_take, List.length_take,
        List.length_drop]
      omega
    rw [← h, List.getElem?_append_right (by omega), hlen, Nat.sub_self, List.getElem?_drop,
      Nat.add_zero]
  · cases h

/-- C20: on the range [0, 1] the reorder step of both variants sorts the one element at
index 0 and leaves the array as it was, so the keys 2, 1 stay in descending order, and
with `mid = 1` the left sub-range [0, 0] holds the key 2 and the right sub-range [1, 1]
the smaller key 1. -/
theorem sortBucket_leaves_end (S : StdSort) :
    sortBucketGreyscale S [2, 1] 0 1 = .ok [2, 1] ∧
    greatestDifference [⟨2, 0, 0, 1⟩, ⟨1, 0, 0, 1⟩] 0 1 = .ok .red ∧
    sortBucket S [⟨2, 0, 0, 1⟩, ⟨1, 0, 0, 1⟩] 0 1 .red = .ok [⟨2, 0, 0, 1⟩, ⟨1, 0, 0, 1⟩] ∧
    mediumOf 0 1 = 1 ∧ sizePred (mediumOf 0 1) = 0 := by
  refine ⟨?_, rfl, ?_, by decide, by decide⟩
  · unfold sortBucketGreyscale sortRange
    rw [if_pos (by decide)]
    simp only [List.take_zero, List.drop_zero, List.nil_append, Nat.sub_zero, List.take_succ_cons,
      List.drop_succ_cons, StdSort_singleton, List.singleton_append]
  · unfold sortBucket sortRange
    rw [if_pos (by decide)]
    simp only [List.take_zero, List.drop_zero, List.nil_append, Nat.sub_zero, List.take_succ_cons,
      List.drop_succ_cons, StdSort_singleton, List.singleton_append]

/-! ### The order of the grey palette -/

/-- On grey values every sorting routine gives the same list. -/
theorem StdSort_grey_unique (S T : StdSort) (l : List Nat) :
    S.sort (fun grey => grey) l = T.sort (fun grey => grey) l := by
  haveI : IsAntisymm Nat (fun x y => (fun grey : Nat => grey) x ≤ (fun grey : Nat => grey) y) :=
    ⟨fun _ _ hab hba => Nat.le_antisymm hab hba⟩
  exact List.eq_of_perm_of_sorted ((S.perm _ l).trans (T.perm _ l).symm) (S.sorted _ l)
    (T.sorted _ l)

theorem medianCutGreyscale_sort (S T : StdSort) (it : Nat) : ∀ (m : MedianCutter) (s e : Nat),
    medianCutGreyscale S m s e it = medianCutGreyscale T m s e it := by
  induction it with
  | zero => intro m s e; rfl
  | succ it ih =>
    intro m s e
    rw [medianCutGreyscale_succ, medianCutGreyscale_succ]
    have hsort : sortBucketGreyscale S m.greys s e = sortBucketGreyscale T m.greys s e := by
      unfold sortBucketGreyscale sortRange
      rw [StdSort_grey_unique S T]
    rw [hsort]
    congr 1
    funext greys
    rw [ih]
    congr 1
    funext m1
    rw [ih]

/-- The greyscale median cut does not depend on the sorting routine. -/
theorem runMedianCutter_grey_sort (S T : StdSort) (img : Image) :
    runMedianCutter S img true = runMedianCutter T img true := by
  unfold runMedianCutter
  have hperf : ∀ m, perform S m true = perform T m true := by
    intro m
    show performGreyscale S m = performGreyscale T m
    unfold performGreyscale
    rw [medianCutGreyscale_sort S T]
  simp only [hperf]

set_option maxRecDepth 100000 in
/-- C16: the greyscale median cut of the 16-pixel ramp whose last pixel is black
returns, with the palette greys 10, 20, ..., 150, 0 in index order: `palette[14].r` is
150 and `palette[15].r` is 0, for every sorting routine. -/
theorem medianCutGreyscale_not_monotone (S : StdSort) :
    exampleDarkLast.originalBmp.flatten.length = 16 ∧
    ∃ img1, transform S .medianCutGreyscale exampleDarkLast = .returned img1 ∧
      (List.ofFn img1.palette).map (fun color => color.r) =
        [10, 20, 30, 40, 50, 60, 70, 80, 90, 100, 110, 120, 130, 140, 150, 0] ∧
      (img1.palette 14).r = 150 ∧ (img1.palette 15).r = 0 := by
  refine ⟨rfl, ?_⟩
  show ∃ img1, runMedianCutter S exampleDarkLast true = .returned img1 ∧ _
  rw [runMedianCutter_grey_sort S insertionStdSort]
  exact ⟨_, rfl, rfl, rfl, rfl⟩

/-! ### Greyscale dithering -/

theorem mapWithIndex_getElem {α β : Type} (f : Nat → α → β) (l : List α) (i k : Nat) :
    (mapWithIndex f i l)[k]? = (l[k]?).map (f (i + k)) := by
  induction l generalizing i k with
  | nil => simp [mapWithIndex]
  | cons a as ih =>
    rw [mapWithIndex]
    cases k with
    | zero => simp
    | succ k =>
      simp only [List.getElem?_cons_succ]
      rw [ih (i + 1) k, show i + 1 + k = i + (k + 1) by omega]

theorem mapWithIndex_length {α β : Type} (f : Nat → α → β) (l : List α) (i : Nat) :
    (mapWithIndex f i l).length = l.length := by
  induction l generalizing i with
  | nil => rfl
  | cons a as ih => simp [mapWithIndex, ih]

theorem pixelAt_mapWithIndex (f : Nat → Nat → SDL_Color → SDL_Color) (bmp : PixelBuffer)
    (x y : Nat) :
    pixelAt (mapWithIndex (fun x row => mapWithIndex (fun y pixel => f x y pixel) 0 row) 0 bmp) x y =
      (pixelAt bmp x y).map (f x y) := by
  unfold pixelAt
  rw [mapWithIndex_getElem]
  cases bmp[x]? with
  | none => rfl
  | some row =>
    simp only [Option.map_some', Option.some_bind, Nat.zero_add]
    rw [mapWithIndex_getElem, Nat.zero_add]

/-- C17: under greyscale dithering the pixel at `(x, y)` (outer index `x`, inner `y`)
becomes (255, 255, 255) when the red value of the original pixel is greater than the
threshold at `[y mod 4][x mod 4]` and (0, 0, 0) otherwise, every position of the original
has an output pixel and no other has, the palette is `palette[i] = FourBitGrey{i}`
expanded, and an image with the same red value at that position, whatever its green and
blue, has the same output there. -/
theorem ditheringGreyscale_pixels (S : StdSort) (img : Image) (x y : Nat) (p : SDL_Color)
    (hp : pixelAt img.originalBmp x y = some p) :
    ∃ img1 buffer q, transform S .ditheringGreyscale img = .returned img1 ∧
      img1.transformedBmp = some buffer ∧ pixelAt buffer x y = some q ∧
      (tableAt getUpdatedBayerTable (y % 4) (x % 4) < p.r → q.r = 255 ∧ q.g = 255 ∧ q.b = 255) ∧
      (p.r ≤ tableAt getUpdatedBayerTable (y % 4) (x % 4) → q.r = 0 ∧ q.g = 0 ∧ q.b = 0) ∧
      (∀ i j, (pixelAt buffer i j).isSome = (pixelAt img.originalBmp i j).isSome) ∧
      (∀ i : Fin 16, img1.palette i = (FourBitGrey.ofCode i.val).getSdlColor) ∧
      (∀ (other : Image) (p2 : SDL_Color), pixelAt other.originalBmp x y = some p2 → p2.r = p.r →
        ∃ img2 buffer2 q2, transform S .ditheringGreyscale other = .returned img2 ∧
          img2.transformedBmp = some buffer2 ∧ pixelAt buffer2 x y = some q2 ∧
          q2.r = q.r ∧ q2.g = q.g ∧ q2.b = q.b) := by
  have hq : ∀ (im : Image) (c : SDL_Color), pixelAt im.originalBmp x y = some c →
      pixelAt (mapWithIndex (fun x row => mapWithIndex
        (fun y pixel => ditherGreyscalePixel getUpdatedBayerTable x y pixel) 0 row) 0 im.originalBmp)
        x y = some (ditherGreyscalePixel getUpdatedBayerTable x y c) := by
    intro im c hc
    rw [pixelAt_mapWithIndex (fun x y pixel => ditherGreyscalePixel getUpdatedBayerTable x y pixel),
      hc]
    rfl
  refine ⟨_, _, ditherGreyscalePixel getUpdatedBayerTable x y p, rfl, rfl, hq img p hp, ?_, ?_, ?_,
    fun _ => rfl, ?_⟩
  · intro hgt
    unfold ditherGreyscalePixel bayerTableSize
    rw [if_pos hgt]
    exact ⟨rfl, rfl, rfl⟩
  · intro hle
    unfold ditherGreyscalePixel bayerTableSize
    rw [if_neg (by omega)]
    exact ⟨rfl, rfl, rfl⟩
  · intro i j
    rw [pixelAt_mapWithIndex (fun x y pixel => ditherGreyscalePixel getUpdatedBayerTable x y pixel)]
    cases pixelAt img.originalBmp i j <;> rfl
  · intro other p2 hp2 hr
    refine ⟨_, _, ditherGreyscalePixel getUpdatedBayerTable x y p2, rfl, rfl, hq other p2 hp2, ?_⟩
    unfold ditherGreyscalePixel
    rw [hr]
    split_ifs <;> exact ⟨rfl, rfl, rfl⟩

/-- The pixel (255, 0, 0) at position (0, 0) of the 2 by 2 example: red 255 is above the
threshold 88, the output is white. -/
theorem ditheringGreyscale_pixels_witness :
    pixelAt exampleTwoByTwo.originalBmp 0 0 = some ⟨255, 0, 0, 1⟩ ∧
    ∃ img1 buffer q, transform insertionStdSort .ditheringGreyscale exampleTwoByTwo = .returned img1 ∧
      img1.transformedBmp = some buffer ∧ pixelAt buffer 0 0 = some q ∧
      (tableAt getUpdatedBayerTable (0 % 4) (0 % 4) < (⟨255, 0, 0, 1⟩ : SDL_Color).r →
        q.r = 255 ∧ q.g = 255 ∧ q.b = 255) ∧
      ((⟨255, 0, 0, 1⟩ : SDL_Color).r ≤ tableAt getUpdatedBayerTable (0 % 4) (0 % 4) →
        q.r = 0 ∧ q.g = 0 ∧ q.b = 0) ∧
      (∀ i j, (pixelAt buffer i j).isSome = (pixelAt exampleTwoByTwo.originalBmp i j).isSome) ∧
      (∀ i : Fin 16, img1.palette i = (FourBitGrey.ofCode i.val).getSdlColor) ∧
      (∀ (other : Image) (p2 : SDL_Color), pixelAt other.originalBmp 0 0 = some p2 →
        p2.r = (⟨255, 0, 0, 1⟩ : SDL_Color).r →
        ∃ img2 buffer2 q2, transform insertionStdSort .ditheringGreyscale other = .returned img2 ∧
          img2.transformedBmp = some buffer2 ∧ pixelAt buffer2 0 0 = some q2 ∧
          q2.r = q.r ∧ q2.g = q.g ∧ q2.b = q.b) :=
  ⟨rfl, ditheringGreyscale_pixels insertionStdSort exampleTwoByTwo 0 0 ⟨255, 0, 0, 1⟩ rfl⟩

/-! ### The original buffer -/

/-- The dedicated palette either meets undefined behaviour or comes back with the
original buffer in place. -/
theorem dedicatedPalette_originalBmp (img img1 : Image)
    (h : dedicatedPaletteTransformation img = .returned img1 ∨
      ∃ n, dedicatedPaletteTransformation img = .thrown n img1) :
    img1.originalBmp = img.originalBmp := by
  by_cases hrows : img.originalBmp = []
  · exfalso
    have hu : dedicatedPaletteTransformation img = .undefined .outOfRange := by
      unfold dedicatedPaletteTransformation
      rw [hrows]
    rw [hu] at h
    rcases h with h | ⟨n, h⟩ <;> cases h
  · rw [dedicatedPaletteTransformation_eq img hrows] at h
    by_cases hn : (distinctColours img.originalBmp).length > 16
    · rw [if_pos hn] at h
      rcases h with h | ⟨n, h⟩
      · cases h
      · injection h with _ h
        rw [← h]
    · rw [if_neg hn] at h
      rcases h with h | ⟨n, h⟩
      · injection h with h
        rw [← h]
      · cases h

/-- No exception leaves the median cut. -/
theorem runMedianCutter_not_thrown (S : StdSort) (img img1 : Image) (greyscale : Bool) (n : Nat) :
    runMedianCutter S img greyscale ≠ .thrown n img1 := by
  intro h
  cases hnew : MedianCutter.new img.originalBmp img.palette with
  | error fault =>
    have hu : runMedianCutter S img greyscale = .undefined fault := by
      unfold runMedianCutter
      rw [hnew]
    rw [hu] at h
    cases h
  | ok m0 =>
    cases hperf : perform S m0 greyscale with
    | error fault =>
      rw [runMedianCutter_error S img greyscale m0 fault hnew hperf] at h
      cases h
    | ok res =>
      obtain ⟨buffer, m1⟩ := res
      rw [runMedianCutter_ok S img greyscale m0 m1 buffer hnew hperf] at h
      cases h

/-- C18: whenever `transform` comes back, by returning or by letting
`UnsupportedDedicatedPalette` escape, the original buffer of the object is the one it
had before the call, for each of the eight transformations. -/
theorem originalBmp_readonly (S : StdSort) (t : Transformation) (img img1 : Image)
    (h : transform S t img = .returned img1 ∨ ∃ n, transform S t img = .thrown n img1) :
    img1.originalBmp = img.originalBmp := by
  cases t with
  | none =>
    rcases h with h | ⟨n, h⟩
    · injection h with h; rw [← h]
    · cases h
  | imposedPalette =>
    rcases h with h | ⟨n, h⟩
    · injection h with h; rw [← h]
    · cases h
  | dedicatedPalette => exact dedicatedPalette_originalBmp img img1 h
  | greyscale =>
    rcases h with h | ⟨n, h⟩
    · injection h with h; rw [← h]
    · cases h
  | dithering =>
    rcases h with h | ⟨n, h⟩
    · injection h with h; rw [← h]
    · cases h
  | ditheringGreyscale =>
    rcases h with h | ⟨n, h⟩
    · injection h with h; rw [← h]
    · cases h
  | medianCut =>
    rcases h with h | ⟨n, h⟩
    · obtain ⟨m0, m1, buffer, _, _, rfl⟩ := runMedianCutter_returned S img img1 false h
      rfl
    · exact absurd h (runMedianCutter_not_thrown S img img1 false n)
  | medianCutGreyscale =>
    rcases h with h | ⟨n, h⟩
    · obtain ⟨m0, m1, buffer, _, _, rfl⟩ := runMedianCutter_returned S img img1 true h
      rfl
    · exact absurd h (runMedianCutter_not_thrown S img img1 true n)

set_option maxRecDepth 100000 in
/-- The 2 by 2 example under the dedicated palette (returns), the 17-colour example under
the dedicated palette (throws) and the 4 by 4 example under the median cut (returns). -/
theorem originalBmp_readonly_witness :
    (∃ img1, transform insertionStdSort .dedicatedPalette exampleTwoByTwo = .returned img1 ∧
      img1.originalBmp = exampleTwoByTwo.originalBmp) ∧
    (∃ img1 n, transform insertionStdSort .dedicatedPalette exampleSeventeenColours =
        .thrown n img1 ∧ img1.originalBmp = exampleSeventeenColours.originalBmp) ∧
    (∃ img1, transform insertionStdSort .medianCut exampleFourByFour = .returned img1 ∧
      img1.originalBmp = exampleFourByFour.originalBmp) :=
  ⟨⟨_, rfl, originalBmp_readonly insertionStdSort .dedicatedPalette exampleTwoByTwo _ (Or.inl rfl)⟩,
    ⟨_, _, rfl, originalBmp_readonly insertionStdSort .dedicatedPalette exampleSeventeenColours _
      (Or.inr ⟨_, rfl⟩)⟩,
    ⟨_, rfl, originalBmp_readonly insertionStdSort .medianCut exampleFourByFour _ (Or.inl rfl)⟩⟩

/-! ### The split axis -/

theorem foldl_max_le (l : List Nat) (a : Nat) :
    a ≤ l.foldl max a ∧ (∀ x ∈ l, x ≤ l.foldl max a) ∧ (l.foldl max a = a ∨ l.foldl max a ∈ l) := by
  induction l generalizing a with
  | nil => simp
  | cons b l ih =>
    obtain ⟨h1, h2, h3⟩ := ih (max a b)
    simp only [List.foldl_cons, List.mem_cons]
    refine ⟨le_trans (le_max_left a b) h1, ?_, ?_⟩
    · intro x hx
      rcases hx with rfl | hx
      · exact le_trans (le_max_right a x) h1
      · exact h2 x hx
    · rcases h3 with h3 | h3
      · rw [h3]
        rcases le_total a b with hab | hab
        · right; left; exact max_eq_right hab
        · left; exact max_eq_left hab
      · right; right; exact h3

theorem foldl_min_le (l : List Nat) (a : Nat) :
    l.foldl min a ≤ a ∧ (∀ x ∈ l, l.foldl min a ≤ x) ∧ (l.foldl min a = a ∨ l.foldl min a ∈ l) := by
  induction l generalizing a with
  | nil => simp
  | cons b l ih =>
    obtain ⟨h1, h2, h3⟩ := ih (min a b)
    simp only [List.foldl_cons, List.mem_cons]
    refine ⟨le_trans h1 (min_le_left a b), ?_, ?_⟩
    · intro x hx
      rcases hx with rfl | hx
      · exact le_trans h1 (min_le_right a x)
      · exact h2 x hx
    · rcases h3 with h3 | h3
      · rw [h3]
        rcases le_total a b with hab | hab
        · left; exact min_eq_left hab
        · right; left; exact min_eq_right hab
      · right; right; exact h3

/-- The value `channelMax` is the greatest channel value of a non-empty bucket. -/
theorem channelMax_spec (key : SDL_Color → Nat) (bucket : List SDL_Color) (hne : bucket ≠ []) :
    (∀ c ∈ bucket, key c ≤ channelMax key bucket) ∧ ∃ c ∈ bucket, key c = channelMax key bucket := by
  unfold channelMax
  obtain ⟨_, h2, h3⟩ := foldl_max_le (bucket.map key) 0
  refine ⟨fun c hc => h2 _ (List.mem_map_of_mem key hc), ?_⟩
  rcases h3 with h3 | h3
  · cases bucket with
    | nil => exact absurd rfl hne
    | cons c cs =>
      refine ⟨c, List.mem_cons_self _ _, ?_⟩
      have := h2 (key c) (List.mem_map_of_mem key (List.mem_cons_self _ _))
      omega
  · obtain ⟨c, hc, hkey⟩ := List.mem_map.mp h3
    exact ⟨c, hc, hkey⟩

/-- The value `channelMin` is the least channel value of a non-empty bucket. -/
theorem channelMin_spec (key : SDL_Color → Nat) (bucket : List SDL_Color) (hne : bucket ≠ []) :
    (∀ c ∈ bucket, channelMin key bucket ≤ key c) ∧ ∃ c ∈ bucket, key c = channelMin key bucket := by
  cases bucket with
  | nil => exact absurd rfl hne
  | cons c cs =>
    unfold channelMin
    obtain ⟨h1, h2, h3⟩ := foldl_min_le (cs.map key) (key c)
    refine ⟨?_, ?_⟩
    · intro d hd
      rcases List.mem_cons.mp hd with rfl | hd
      · exact h1
      · exact h2 _ (List.mem_map_of_mem key hd)
    · rcases h3 with h3 | h3
      · exact ⟨c, List.mem_cons_self _ _, h3.symm⟩
      · obtain ⟨d, hd, hkey⟩ := List.mem_map.mp h3
        exact ⟨d, List.mem_cons_of_mem _ hd, hkey⟩

/-- The six indices after the loop of `greatestDifference` point at the running minimum
and maximum of each channel. -/
theorem foldl_updateExtremes (colors : List SDL_Color) (l : List Nat) : ∀ e : Extremes,
    (colors.getD (l.foldl (updateExtremes colors) e).minR black0).r =
      (l.map (fun i => (colors.getD i black0).r)).foldl min (colors.getD e.minR black0).r ∧
    (colors.getD (l.foldl (updateExtremes colors) e).maxR black0).r =
      (l.map (fun i => (colors.getD i black0).r)).foldl max (colors.getD e.maxR black0).r ∧
    (colors.getD (l.foldl (updateExtremes colors) e).minG black0).g =
      (l.map (fun i => (colors.getD i black0).g)).foldl min (colors.getD e.minG black0).g ∧
    (colors.getD (l.foldl (updateExtremes colors) e).maxG black0).g =
      (l.map (fun i => (colors.getD i black0).g)).foldl max (colors.getD e.maxG black0).g ∧
    (colors.getD (l.foldl (updateExtremes colors) e).minB black0).b =
      (l.map (fun i => (colors.getD i black0).b)).foldl min (colors.getD e.minB black0).b ∧
    (colors.getD (l.foldl (updateExtremes colors) e).maxB black0).b =
      (l.map (fun i => (colors.getD i black0).b)).foldl max (colors.getD e.maxB black0).b := by
  induction l with
  | nil => intro e; exact ⟨rfl, rfl, rfl, rfl, rfl, rfl⟩
  | cons i l ih =>
    intro e
    obtain ⟨h1, h2, h3, h4, h5, h6⟩ := ih (updateExtremes colors e i)
    simp only [List.foldl_cons, List.map_cons]
    rw [h1, h2, h3, h4, h5, h6]
    unfold updateExtremes
    simp only
    refine ⟨?_, ?_, ?_, ?_, ?_, ?_⟩
    · congr 1
      split_ifs with h
      · exact (min_eq_right (le_of_lt h)).symm
      · exact (min_eq_left (by omega)).symm
    · congr 1
      split_ifs with h
      · exact (max_eq_right (le_of_lt h)).symm
      · exact (max_eq_left (by omega)).symm
    · congr 1
      split_ifs with h
      · exact (min_eq_right (le_of_lt h)).symm
      · exact (min_eq_left (by omega)).symm
    · congr 1
      split_ifs with h
      · exact (max_eq_right (le_of_lt h)).symm
      · exact (max_eq_left (by omega)).symm
    · congr 1
      split_ifs with h
      · exact (min_eq_right (le_of_lt h)).symm
      · exact (min_eq_left (by omega)).symm
    · congr 1
      split_ifs with h
      · exact (max_eq_right (le_of_lt h)).symm
      · exact (max_eq_left (by omega)).symm

/-- Reading the indices `start, start + 1, ...` of a vector gives its slice. -/
theorem map_range_getD {α : Type} (v : List α) (d : α) (n : Nat) : ∀ s : Nat, s + n ≤ v.length →
    (List.range' s n).map (fun i => v.getD i d) = (v.drop s).take n := by
  induction n with
  | zero => intro s _; simp
  | succ n ih =>
    intro s hs
    have hlt : s < v.length := by omega
    rw [List.range'_succ, List.map_cons, ih (s + 1) (by omega), List.drop_eq_getElem_cons hlt,
      List.take_succ_cons, List.getD_eq_getElem _ _ hlt]

/-- The running extremes of one channel over the loop range are the extremes of the slice. -/
theorem foldl_slice_extremes (colors : List SDL_Color) (key : SDL_Color → Nat) (s e : Nat)
    (hse : s ≤ e) (he : e < colors.length) :
    ((List.range' s (e + 1 - s)).map (fun i => key (colors.getD i black0))).foldl max
        (key (colors.getD s black0)) = channelMax key (slice colors s e) ∧
    ((List.range' s (e + 1 - s)).map (fun i => key (colors.getD i black0))).foldl min
        (key (colors.getD s black0)) = channelMin key (slice colors s e) := by
  have hmap : (List.range' s (e + 1 - s)).map (fun i => key (colors.getD i black0)) =
      (slice colors s e).map key := by
    unfold slice
    rw [← map_range_getD colors black0 (e + 1 - s) s (by omega), List.map_map]
    rfl
  have hlt : s < colors.length := by omega
  have hslice : slice colors s e =
      colors.getD s black0 :: (colors.drop (s + 1)).take (e - s) := by
    unfold slice
    rw [List.drop_eq_getElem_cons hlt, show e + 1 - s = (e - s) + 1 by omega, List.take_succ_cons,
      List.getD_eq_getElem _ _ hlt]
  rw [hmap, hslice]
  unfold channelMax channelMin
  simp only [List.map_cons, List.foldl_cons, max_self, min_self, Nat.zero_max]
  exact ⟨trivial, trivial⟩

/-- The method `greatestDifference` on a non-empty range inside the array, in terms of
the three spreads. -/
theorem greatestDifference_eq (colors : List SDL_Color) (s e : Nat) (hse : s ≤ e)
    (he : e < colors.length) :
    greatestDifference colors s e =
      .ok (if max (max (spread SortBy.red.key (slice colors s e))
                (spread SortBy.green.key (slice colors s e)))
              (spread SortBy.blue.key (slice colors s e)) = spread SortBy.red.key (slice colors s e)
           then .red
           else if max (max (spread SortBy.red.key (slice colors s e))
                (spread SortBy.green.key (slice colors s e)))
              (spread SortBy.blue.key (slice colors s e)) = spread SortBy.green.key (slice colors s e)
           then .green else .blue) := by
  obtain ⟨h1, h2, h3, h4, h5, h6⟩ := foldl_updateExtremes colors (List.range' s (e + 1 - s))
    ⟨s, s, s, s, s, s⟩
  obtain ⟨hR1, hR2⟩ := foldl_slice_extremes colors SortBy.red.key s e hse he
  obtain ⟨hG1, hG2⟩ := foldl_slice_extremes colors SortBy.green.key s e hse he
  obtain ⟨hB1, hB2⟩ := foldl_slice_extremes colors SortBy.blue.key s e hse he
  simp only [SortBy.key] at hR1 hR2 hG1 hG2 hB1 hB2
  simp only at h1 h2 h3 h4 h5 h6
  rw [hR2] at h1
  rw [hR1] at h2
  rw [hG2] at h3
  rw [hG1] at h4
  rw [hB2] at h5
  rw [hB1] at h6
  unfold greatestDifference checkRangeLoop
  rw [if_neg (by omega), if_neg (by omega)]
  have hs : ¬ colors.length ≤ s := by omega
  simp only [bind, Except.bind, hs, if_false]
  rw [h1, h2, h3, h4, h5, h6]
  simp only [spread, SortBy.key]
  split_ifs <;> rfl

/-- C19: on a non-empty range inside the working colour array `greatestDifference`
returns, and the channel it returns has the greatest spread `max - min` over the range,
ties going to red before green before blue: red exactly when its spread is at least the
other two, green exactly when its spread is above the red one and at least the blue one,
blue in the remaining case. -/
theorem greatestDifference_spread (colors : List SDL_Color) (s e : Nat) (hse : s ≤ e)
    (he : e < colors.length) :
    ∃ sortBy, greatestDifference colors s e = .ok sortBy ∧
      (∀ other : SortBy, spread other.key (slice colors s e) ≤ spread sortBy.key (slice colors s e)) ∧
      (sortBy = .red ↔
        spread SortBy.green.key (slice colors s e) ≤ spread SortBy.red.key (slice colors s e) ∧
        spread SortBy.blue.key (slice colors s e) ≤ spread SortBy.red.key (slice colors s e)) ∧
      (sortBy = .green ↔
        spread SortBy.red.key (slice colors s e) < spread SortBy.green.key (slice colors s e) ∧
        spread SortBy.blue.key (slice colors s e) ≤ spread SortBy.green.key (slice colors s e)) ∧
      (sortBy = .blue ↔
        ¬ (spread SortBy.green.key (slice colors s e) ≤ spread SortBy.red.key (slice colors s e) ∧
          spread SortBy.blue.key (slice colors s e) ≤ spread SortBy.red.key (slice colors s e)) ∧
        ¬ (spread SortBy.red.key (slice colors s e) < spread SortBy.green.key (slice colors s e) ∧
          spread SortBy.blue.key (slice colors s e) ≤ spread SortBy.green.key (slice colors s e))) := by
  rw [greatestDifference_eq colors s e hse he]
  generalize hdR : spread SortBy.red.key (slice colors s e) = dR
  generalize hdG : spread SortBy.green.key (slice colors s e) = dG
  generalize hdB : spread SortBy.blue.key (slice colors s e) = dB
  by_cases hr : max (max dR dG) dB = dR
  · rw [if_pos hr]
    refine ⟨.red, rfl, ?_, ?_, ?_, ?_⟩
    · intro other
      cases other <;> simp only [hdR, hdG, hdB] <;> omega
    · simp only [true_iff]; omega
    · simp only [false_iff, reduceCtorEq]; omega
    · simp only [false_iff, reduceCtorEq]; omega
  · rw [if_neg hr]
    by_cases hg : max (max dR dG) dB = dG
    · rw [if_pos hg]
      refine ⟨.green, rfl, ?_, ?_, ?_, ?_⟩
      · intro other
        cases other <;> simp only [hdR, hdG, hdB] <;> omega
      · simp only [false_iff, reduceCtorEq]; omega
      · simp only [true_iff]; omega
      · simp only [false_iff, reduceCtorEq]; omega
    · rw [if_neg hg]
      refine ⟨.blue, rfl, ?_, ?_, ?_, ?_⟩
      · intro other
        cases other <;> simp only [hdR, hdG, hdB] <;> omega
      · simp only [false_iff, reduceCtorEq]; omega
      · simp only [false_iff, reduceCtorEq]; omega
      · simp only [true_iff]; omega

/-- The range 0..2 of three colours with spreads 10 (red), 10 (green), 10 (blue) and
the range 0..1 of two colours with spreads 0, 5, 5. -/
theorem greatestDifference_spread_witness :
    (0 ≤ 2 ∧ 2 < ([⟨10, 20, 30, 1⟩, ⟨20, 30, 25, 1⟩, ⟨15, 25, 35, 1⟩] : List SDL_Color).length) ∧
    ∃ sortBy, greatestDifference [⟨10, 20, 30, 1⟩, ⟨20, 30, 25, 1⟩, ⟨15, 25, 35, 1⟩] 0 2 = .ok sortBy ∧
      sortBy = .red :=
  ⟨⟨by decide, by decide⟩, by
    obtain ⟨sortBy, h1, _, h3, _⟩ := greatestDifference_spread
      [⟨10, 20, 30, 1⟩, ⟨20, 30, 25, 1⟩, ⟨15, 25, 35, 1⟩] 0 2 (by decide) (by decide)
    exact ⟨sortBy, h1, h3.mpr (by decide)⟩⟩

/-! ### The Bayer thresholds -/

set_option maxRecDepth 100000 in
/-- C23: every threshold of `getUpdatedBayerTable` is
`bayer[i][j] * (256 / 16) - (256 / 16) / 2 = 16 * bayer[i][j] - 8` for the table rows
(6, 14, 8, 16), (10, 2, 12, 4), (7, 15, 5, 13), (11, 3, 9, 1) and lies in 8..248; the 16
thresholds are pairwise distinct and are the values `16 k - 8` for `k = 1..16`. -/
theorem bayer_thresholds :
    bayerTable = [[6, 14, 8, 16], [10, 2, 12, 4], [7, 15, 5, 13], [11, 3, 9, 1]] ∧
    (∀ i j : Fin 4,
      tableAt getUpdatedBayerTable i.val j.val =
        tableAt bayerTable i.val j.val * (256 / 16) - (256 / 16) / 2 ∧
      tableAt getUpdatedBayerTable i.val j.val = 16 * tableAt bayerTable i.val j.val - 8 ∧
      8 ≤ tableAt getUpdatedBayerTable i.val j.val ∧
      tableAt getUpdatedBayerTable i.val j.val ≤ 248) ∧
    getUpdatedBayerTable.length = 4 ∧ (∀ row ∈ getUpdatedBayerTable, row.length = 4) ∧
    getUpdatedBayerTable.flatten.Nodup ∧
    (∀ k : Fin 16, 16 * (k.val + 1) - 8 ∈ getUpdatedBayerTable.flatten) ∧
    (∀ t ∈ getUpdatedBayerTable.flatten, ∃ k : Fin 16, t = 16 * (k.val + 1) - 8) := by
  rw [getUpdatedBayerTable_eq]
  refine ⟨rfl, by decide, rfl, by decide, by decide, by decide, by decide⟩

/-- Every threshold read by the dithering loops lies in 8..248. -/
theorem threshold_bounds (x y : Nat) :
    8 ≤ tableAt getUpdatedBayerTable (y % bayerTableSize) (x % bayerTableSize) ∧
    tableAt getUpdatedBayerTable (y % bayerTableSize) (x % bayerTableSize) ≤ 248 := by
  have h : ∀ i j : Fin 4, 8 ≤ tableAt getUpdatedBayerTable i.val j.val ∧
      tableAt getUpdatedBayerTable i.val j.val ≤ 248 := by
    rw [getUpdatedBayerTable_eq]
    decide
  exact h ⟨y % 4, Nat.mod_lt _ (by norm_num)⟩ ⟨x % 4, Nat.mod_lt _ (by norm_num)⟩

/-! ### The recorded transformation -/

/-- C24: the two median-cut strategies return with a transformed buffer and leave the
recorded transformation as it was (here `none`, not the strategy), and `transform(none)`
drops the transformed buffer and leaves the recorded transformation as it was (here
`imposedPalette`, not `none`); the imposed palette on the same object records itself. -/
theorem currentTransformation_not_recorded (S : StdSort) :
    (∃ img1, transform S .medianCut exampleFourByFour = .returned img1 ∧
      img1.transformedBmp.isSome = true ∧ exampleFourByFour.currentTransformation = .none ∧
      img1.currentTransformation = .none) ∧
    (∃ img1, transform S .medianCutGreyscale exampleFourByFour = .returned img1 ∧
      img1.transformedBmp.isSome = true ∧ img1.currentTransformation = .none) ∧
    (∃ img1, transform S .none exampleSeventeenColours = .returned img1 ∧
      img1.transformedBmp = none ∧ img1.currentTransformation = .imposedPalette) ∧
    (∃ img1, transform S .imposedPalette exampleFourByFour = .returned img1 ∧
      img1.transformedBmp.isSome = true ∧ img1.currentTransformation = .imposedPalette) := by
  refine ⟨?_, ?_, ⟨_, rfl, rfl, rfl⟩, ⟨_, rfl, rfl, rfl⟩⟩
  · obtain ⟨img1, h⟩ := medianCutTransformation_total S exampleFourByFour (by decide) (by decide)
      (by decide) (by decide)
    obtain ⟨m0, m1, buffer, _, _, hEq⟩ := runMedianCutter_returned S exampleFourByFour img1 false h
    refine ⟨img1, h, ?_, rfl, ?_⟩ <;> rw [hEq] <;> rfl
  · obtain ⟨img1, h⟩ := medianCutGreyscaleTransformation_total S exampleFourByFour (by decide)
      (by decide) (by decide)
    obtain ⟨m0, m1, buffer, _, _, hEq⟩ := runMedianCutter_returned S exampleFourByFour img1 true h
    refine ⟨img1, h, ?_, ?_⟩ <;> rw [hEq] <;> rfl

/-! ### The legacy packing -/

theorem pack_fields : ∀ r g b : Fin 4,
    (((r.val % 256) <<< 4) ||| ((g.val % 256) <<< 2) ||| (b.val % 256)) % 256 =
      ((r.val <<< 4) ||| (g.val <<< 2) ||| b.val) ∧
    ((r.val <<< 4) ||| (g.val <<< 2) ||| b.val) ≤ 63 := by
  decide

/-- C25: for every 8-bit colour `ConvertFrom24` returns
`((r >> 6) << 4) | ((g >> 6) << 2) | (b >> 6)`, a value in 0..63; white gives 63, above
the greatest value 15 of the depth 4 that `SaveFile` writes into the header. -/
theorem ConvertFrom24_width (c : SDL_Color) (h : c.IsUint8) :
    ConvertFrom24 c = (((c.r >>> 6) <<< 4) ||| ((c.g >>> 6) <<< 2) ||| (c.b >>> 6)) ∧
    ConvertFrom24 c ≤ 63 ∧
    ConvertFrom24 ⟨255, 255, 255, 255⟩ = 63 ∧
    2 ^ bit_count - 1 = 15 ∧ 2 ^ bit_count - 1 < ConvertFrom24 ⟨255, 255, 255, 255⟩ := by
  obtain ⟨hr, hg, hb, _⟩ := h
  have hr4 : c.r >>> 6 < 4 := by rw [Nat.shiftRight_eq_div_pow]; omega
  have hg4 : c.g >>> 6 < 4 := by rw [Nat.shiftRight_eq_div_pow]; omega
  have hb4 : c.b >>> 6 < 4 := by rw [Nat.shiftRight_eq_div_pow]; omega
  have hp := pack_fields ⟨c.r >>> 6, hr4⟩ ⟨c.g >>> 6, hg4⟩ ⟨c.b >>> 6, hb4⟩
  simp only at hp
  refine ⟨hp.1, ?_, by decide, by decide, by decide⟩
  show (((c.r >>> 6) % 256) <<< 4 ||| ((c.g >>> 6) % 256) <<< 2 ||| (c.b >>> 6) % 256) % 256 ≤ 63
  rw [hp.1]
  exact hp.2

/-- The colour (200, 100, 50) packs to 52. -/
theorem ConvertFrom24_width_witness :
    (⟨200, 100, 50, 255⟩ : SDL_Color).IsUint8 ∧ ConvertFrom24 ⟨200, 100, 50, 255⟩ = 52 ∧
    ConvertFrom24 ⟨200, 100, 50, 255⟩ ≤ 63 :=
  ⟨by decide, by decide, (ConvertFrom24_width ⟨200, 100, 50, 255⟩ (by decide)).2.1⟩

/-! ### Colour dithering against the imposed palette -/

theorem pixelAt_map (f : SDL_Color → SDL_Color) (bmp : PixelBuffer) (x y : Nat) :
    pixelAt (bmp.map (fun row => row.map f)) x y = (pixelAt bmp x y).map f := by
  unfold pixelAt
  rw [List.getElem?_map]
  cases bmp[x]? with
  | none => rfl
  | some row =>
    simp only [Option.map_some', Option.some_bind]
    rw [List.getElem?_map]

/-- The body of the colour-dithering loops, channel by channel. -/
theorem ditherPixel_eq (table : List (List Nat)) (x y : Nat) (p : SDL_Color) :
    ditherPixel table x y p =
      ⟨if (FourBitColor.ofColor p).getSdlColor.r > tableAt table (y % bayerTableSize) (x % bayerTableSize)
          then 255 else (FourBitColor.ofColor p).getSdlColor.r,
        if (FourBitColor.ofColor p).getSdlColor.g > tableAt table (y % bayerTableSize) (x % bayerTableSize)
          then 255 else 0,
        if (FourBitColor.ofColor p).getSdlColor.b > tableAt table (y % bayerTableSize) (x % bayerTableSize)
          then 255 else 0,
        (FourBitColor.ofColor p).getSdlColor.a⟩ := by
  unfold ditherPixel
  generalize (FourBitColor.ofColor p).getSdlColor = q
  generalize tableAt table (y % bayerTableSize) (x % bayerTableSize) = t
  by_cases h1 : q.r > t <;> by_cases h2 : q.g > t <;> by_cases h3 : q.b > t <;>
    simp only [h1, h2, h3, if_true, if_false]

/-- The colour-dithering pixel of an 8-bit colour against the imposed-palette pixel. -/
theorem ditherPixel_imposed (x y : Nat) (p : SDL_Color) (h : p.IsUint8) :
    (ditherPixel getUpdatedBayerTable x y p).g = (FourBitColor.ofColor p).getSdlColor.g ∧
    (ditherPixel getUpdatedBayerTable x y p).b = (FourBitColor.ofColor p).getSdlColor.b ∧
    ((ditherPixel getUpdatedBayerTable x y p).r = (FourBitColor.ofColor p).getSdlColor.r ∨
      (ditherPixel getUpdatedBayerTable x y p).r = 255) ∧
    (FourBitColor.ofColor p).getSdlColor.r = 85 * ((2 * p.r + 85) / 170) ∧
    (FourBitColor.ofColor p).getSdlColor.g = 255 * (p.g / 128) ∧
    (FourBitColor.ofColor p).getSdlColor.b = 255 * (p.b / 128) := by
  obtain ⟨h8, h248⟩ := threshold_bounds x y
  have himp := imposed_pixel p h
  obtain ⟨hr, hg, hb, _⟩ := h
  rw [ditherPixel_eq, himp]
  generalize tableAt getUpdatedBayerTable (y % bayerTableSize) (x % bayerTableSize) = t at h8 h248
  dsimp only
  refine ⟨?_, ?_, ?_, rfl, rfl, rfl⟩
  · split_ifs <;> omega
  · split_ifs <;> omega
  · split_ifs <;> omega

/-- C28: at every position the colour-dithering output has the green and blue of the
imposed-palette output for the same 8-bit pixel, its red is the imposed-palette red or
255, and so its red is one of 0, 85, 170, 255 and its green and blue are 0 or 255. -/
theorem dithering_vs_imposed (S : StdSort) (img : Image) (x y : Nat) (p : SDL_Color)
    (hp : pixelAt img.originalBmp x y = some p) (h8 : p.IsUint8) :
    ∃ img1 img2 buffer1 buffer2 q1 q2,
      transform S .dithering img = .returned img1 ∧ img1.transformedBmp = some buffer1 ∧
      transform S .imposedPalette img = .returned img2 ∧ img2.transformedBmp = some buffer2 ∧
      pixelAt buffer1 x y = some q1 ∧ pixelAt buffer2 x y = some q2 ∧
      q1.g = q2.g ∧ q1.b = q2.b ∧ (q1.r = q2.r ∨ q1.r = 255) ∧
      q1.r ∈ [0, 85, 170, 255] ∧ q1.g ∈ [0, 255] ∧ q1.b ∈ [0, 255] := by
  have h1 : pixelAt (mapWithIndex (fun x row => mapWithIndex
      (fun y pixel => ditherPixel getUpdatedBayerTable x y pixel) 0 row) 0 img.originalBmp) x y =
      some (ditherPixel getUpdatedBayerTable x y p) := by
    rw [pixelAt_mapWithIndex (fun x y pixel => ditherPixel getUpdatedBayerTable x y pixel), hp]
    rfl
  have h2 : pixelAt (img.originalBmp.map (fun row => row.map
      (fun pixel => (FourBitColor.ofColor pixel).getSdlColor))) x y =
      some (FourBitColor.ofColor p).getSdlColor := by
    rw [pixelAt_map (fun pixel => (FourBitColor.ofColor pixel).getSdlColor), hp]
    rfl
  obtain ⟨e1, e2, e3, e4, e5, e6⟩ := ditherPixel_imposed x y p h8
  obtain ⟨hr, hg, hb, _⟩ := h8
  refine ⟨_, _, _, _, ditherPixel getUpdatedBayerTable x y p, (FourBitColor.ofColor p).getSdlColor,
    rfl, rfl, rfl, rfl, h1, h2, e1, e2, e3, ?_, ?_, ?_⟩
  · simp only [List.mem_cons, List.mem_singleton, List.not_mem_nil, or_false]
    rcases e3 with e3 | e3
    · rw [e3, e4]; omega
    · rw [e3]; omega
  · simp only [List.mem_cons, List.mem_singleton, List.not_mem_nil, or_false]
    rw [e1, e5]; omega
  · simp only [List.mem_cons, List.mem_singleton, List.not_mem_nil, or_false]
    rw [e2, e6]; omega

/-- The pixel (85, 0, 0) of the 1 by 1 example: both outputs are (85, 0, 0). -/
theorem dithering_vs_imposed_witness :
    pixelAt exampleDarkRed.originalBmp 0 0 = some ⟨85, 0, 0, 1⟩ ∧
    (⟨85, 0, 0, 1⟩ : SDL_Color).IsUint8 ∧
    ∃ img1 img2 buffer1 buffer2 q1 q2,
      transform insertionStdSort .dithering exampleDarkRed = .returned img1 ∧
      img1.transformedBmp = some buffer1 ∧
      transform insertionStdSort .imposedPalette exampleDarkRed = .returned img2 ∧
      img2.transformedBmp = some buffer2 ∧
      pixelAt buffer1 0 0 = some q1 ∧ pixelAt buffer2 0 0 = some q2 ∧
      q1.g = q2.g ∧ q1.b = q2.b ∧ (q1.r = q2.r ∨ q1.r = 255) ∧
      q1.r ∈ [0, 85, 170, 255] ∧ q1.g ∈ [0, 255] ∧ q1.b ∈ [0, 255] :=
  ⟨rfl, by decide,
    dithering_vs_imposed insertionStdSort exampleDarkRed 0 0 ⟨85, 0, 0, 1⟩ rfl (by decide)⟩

/-! ### The imposed quantiser as nearest level -/

/-- C29: for 8-bit colours the imposed-palette quantiser gives, in red, the level of
0, 85, 170, 255 nearest to the input and, in green and blue, the level of 0, 255 nearest
to the input, every other level being strictly farther; the error is at most 42 in red
and at most 127 in green and blue, and each channel map is non-decreasing. -/
theorem imposed_nearest_level (c d : SDL_Color) (hc : c.IsUint8) (hd : d.IsUint8) :
    (FourBitColor.ofColor c).getSdlColor.r ∈ [0, 85, 170, 255] ∧
    (FourBitColor.ofColor c).getSdlColor.g ∈ [0, 255] ∧
    (FourBitColor.ofColor c).getSdlColor.b ∈ [0, 255] ∧
    (∀ level ∈ [0, 85, 170, 255], level ≠ (FourBitColor.ofColor c).getSdlColor.r →
      Nat.dist c.r (FourBitColor.ofColor c).getSdlColor.r < Nat.dist c.r level) ∧
    (∀ level ∈ [0, 255], level ≠ (FourBitColor.ofColor c).getSdlColor.g →
      Nat.dist c.g (FourBitColor.ofColor c).getSdlColor.g < Nat.dist c.g level) ∧
    (∀ level ∈ [0, 255], level ≠ (FourBitColor.ofColor c).getSdlColor.b →
      Nat.dist c.b (FourBitColor.ofColor c).getSdlColor.b < Nat.dist c.b level) ∧
    Nat.dist c.r (FourBitColor.ofColor c).getSdlColor.r ≤ 42 ∧
    Nat.dist c.g (FourBitColor.ofColor c).getSdlColor.g ≤ 127 ∧
    Nat.dist c.b (FourBitColor.ofColor c).getSdlColor.b ≤ 127 ∧
    (c.r ≤ d.r → (FourBitColor.ofColor c).getSdlColor.r ≤ (FourBitColor.ofColor d).getSdlColor.r) ∧
    (c.g ≤ d.g → (FourBitColor.ofColor c).getSdlColor.g ≤ (FourBitColor.ofColor d).getSdlColor.g) ∧
    (c.b ≤ d.b → (FourBitColor.ofColor c).getSdlColor.b ≤ (FourBitColor.ofColor d).getSdlColor.b) := by
  rw [imposed_pixel c hc, imposed_pixel d hd]
  obtain ⟨hr, hg, hb, _⟩ := hc
  obtain ⟨hr2, hg2, hb2, _⟩ := hd
  simp only [Nat.dist, List.mem_cons, List.mem_singleton, List.not_mem_nil, or_false]
  refine ⟨by omega, by omega, by omega, ?_, ?_, ?_, by omega, by omega, by omega, by omega,
    by omega, by omega⟩
  · intro level hl hne
    rcases hl with rfl | rfl | rfl | rfl <;> omega
  · intro level hl hne
    rcases hl with rfl | rfl <;> omega
  · intro level hl hne
    rcases hl with rfl | rfl <;> omega

/-- The colours (100, 200, 50) and (130, 220, 60): outputs (85, 255, 0) and (170, 255, 0). -/
theorem imposed_nearest_level_witness :
    (⟨100, 200, 50, 1⟩ : SDL_Color).IsUint8 ∧ (⟨130, 220, 60, 1⟩ : SDL_Color).IsUint8 ∧
    Nat.dist 100 (FourBitColor.ofColor ⟨100, 200, 50, 1⟩).getSdlColor.r ≤ 42 ∧
    (FourBitColor.ofColor ⟨100, 200, 50, 1⟩).getSdlColor.r ≤
      (FourBitColor.ofColor ⟨130, 220, 60, 1⟩).getSdlColor.r :=
  ⟨by decide, by decide,
    (imposed_nearest_level ⟨100, 200, 50, 1⟩ ⟨130, 220, 60, 1⟩ (by decide) (by decide)).2.2.2.2.2.2.1,
    (imposed_nearest_level ⟨100, 200, 50, 1⟩ ⟨130, 220, 60, 1⟩ (by decide)
      (by decide)).2.2.2.2.2.2.2.2.2.1 (by decide)⟩

/-! ### The leaf ranges -/

theorem leafRanges_length (it : Nat) : ∀ s e : Nat, (leafRanges s e it).length = 2 ^ it := by
  induction it with
  | zero => intro s e; rfl
  | succ it ih =>
    intro s e
    rw [leafRanges, List.length_append, ih, ih, pow_succ]
    omega

theorem Contiguous_append (l1 l2 : List (Nat × Nat)) : ∀ (a b c : Nat),
    Contiguous a l1 b → Contiguous b l2 c → Contiguous a (l1 ++ l2) c := by
  induction l1 with
  | nil =>
    intro a b c h1 h2
    have h1 : a = b := h1
    rw [h1]
    exact h2
  | cons x l1 ih =>
    intro a b c h1 h2
    obtain ⟨x1, x2⟩ := x
    obtain ⟨h11, h12, h13⟩ := h1
    exact ⟨h11, h12, ih _ _ _ h13 h2⟩

/-- The split of a range of `n` members at `medium`: `n / 2` members go left. -/
theorem split_indices (s n : Nat) (hn : 2 ≤ n) (hs : s + n < 2 ^ 63) :
    mediumOf s (s + n - 1) = s + n / 2 ∧ sizePred (mediumOf s (s + n - 1)) = s + n / 2 - 1 := by
  have hmed : mediumOf s (s + n - 1) = s + n / 2 := by
    rw [mediumOf_eq _ _ (by omega)]
    omega
  have hlt : s + n / 2 < 2 ^ 64 := lt_of_lt_of_le (lt_of_le_of_lt (by omega) hs) (by norm_num)
  refine ⟨hmed, ?_⟩
  rw [hmed]
  exact sizePred_pos _ (by omega) hlt

theorem leafRanges_succ (s n it : Nat) (hn : 2 ≤ n) (hs : s + n < 2 ^ 63) :
    leafRanges s (s + n - 1) (it + 1) =
      leafRanges s (s + n / 2 - 1) it ++ leafRanges (s + n / 2) (s + n - 1) it := by
  obtain ⟨h1, h2⟩ := split_indices s n hn hs
  rw [leafRanges, h2, h1]

/-- The leaf ranges of a range of at least `2 ^ it` members tile it, and each has the
`2 ^ it`-th part of the members, rounded down or up. -/
theorem leafRanges_spec (it : Nat) : ∀ s n : Nat, 2 ^ it ≤ n → s + n < 2 ^ 63 →
    Contiguous s (leafRanges s (s + n - 1) it) (s + n) ∧
    ∀ ab ∈ leafRanges s (s + n - 1) it, s ≤ ab.1 ∧ ab.1 ≤ ab.2 ∧ ab.2 < s + n ∧
      n / 2 ^ it ≤ ab.2 - ab.1 + 1 ∧ ab.2 - ab.1 + 1 ≤ (n + 2 ^ it - 1) / 2 ^ it := by
  induction it with
  | zero =>
    intro s n hn hs
    rw [pow_zero] at hn
    refine ⟨⟨rfl, by omega, by show s + n - 1 + 1 = s + n; omega⟩, ?_⟩
    intro ab hab
    rw [leafRanges, List.mem_singleton] at hab
    subst hab
    simp only [pow_zero, Nat.div_one]
    omega
  | succ it ih =>
    intro s n hn hs
    have hpos : 0 < 2 ^ it := by positivity
    rw [pow_succ] at hn
    rw [leafRanges_succ s n it (by omega) hs]
    obtain ⟨hc1, hb1⟩ := ih s (n / 2) (by omega) (by omega)
    obtain ⟨hc2, hb2⟩ := ih (s + n / 2) (n - n / 2) (by omega) (by omega)
    have hlow : n / 2 ^ (it + 1) = n / 2 / 2 ^ it := by
      rw [pow_succ, Nat.mul_comm, Nat.div_div_eq_div_mul]
    have hlow2 : n / 2 / 2 ^ it ≤ (n - n / 2) / 2 ^ it := Nat.div_le_div_right (by omega)
    have hup : (n + 2 ^ (it + 1) - 1) / 2 ^ (it + 1) = (n - n / 2 + 2 ^ it - 1) / 2 ^ it := by
      rw [pow_succ, Nat.mul_comm (2 ^ it) 2, ← Nat.div_div_eq_div_mul]
      congr 1
      omega
    have hup2 : (n / 2 + 2 ^ it - 1) / 2 ^ it ≤ (n - n / 2 + 2 ^ it - 1) / 2 ^ it :=
      Nat.div_le_div_right (by omega)
    have hsum : s + n / 2 + (n - n / 2) = s + n := by omega
    rw [hsum] at hc2 hb2
    refine ⟨Contiguous_append _ _ _ _ _ hc1 hc2, ?_⟩
    intro ab hab
    rw [hlow, hup]
    rcases List.mem_append.mp hab with hab | hab
    · obtain ⟨h1, h2, h3, h4, h5⟩ := hb1 ab hab
      exact ⟨h1, h2, by omega, h4, le_trans h5 hup2⟩
    · obtain ⟨h1, h2, h3, h4, h5⟩ := hb2 ab hab
      exact ⟨by omega, h2, by omega, le_trans hlow2 h4, h5⟩

/-- A range read by index from the leaf ranges is one of them. -/
theorem leafRanges_getElem (s n it k : Nat) (hn : 2 ^ it ≤ n) (hs : s + n < 2 ^ 63)
    (hk : k < 2 ^ it) :
    ∃ a b, (leafRanges s (s + n - 1) it)[k]? = some (a, b) ∧ s ≤ a ∧ a ≤ b ∧ b < s + n := by
  have hlen := leafRanges_length it s (s + n - 1)
  have hk2 : k < (leafRanges s (s + n - 1) it).length := by rw [hlen]; exact hk
  refine ⟨((leafRanges s (s + n - 1) it)[k]).1, ((leafRanges s (s + n - 1) it)[k]).2,
    List.getElem?_eq_getElem hk2, ?_⟩
  obtain ⟨h1, h2, h3, _, _⟩ := (leafRanges_spec it s n hn hs).2 _ (List.getElem_mem hk2)
  exact ⟨h1, h2, h3⟩

/-! ### What the reorder step leaves in place -/

/-- The call `std::sort(v.begin() + start, v.begin() + end, cmp)` keeps the length and
every element outside the indices `start, ..., end - 1`. -/
theorem sortRange_frame {α : Type} (S : StdSort) (key : α → Nat) (v w : List α) (s e : Nat)
    (h : sortRange S key v s e = .ok w) :
    w.Perm v ∧ w.length = v.length ∧ ∀ i, i < s ∨ e ≤ i → w[i]? = v[i]? := by
  unfold sortRange at h
  split at h
  · rename_i hr
    injection h with h
    have hperm : w.Perm v := by
      rw [← h]
      have hp := S.perm key ((v.drop s).take (e - s))
      have := (List.Perm.append_left (v.take s) hp).append_right (v.drop e)
      rw [split_at_range v s e hr.1] at this
      exact this
    have hl1 : (v.take s).length = s := by rw [List.length_take]; omega
    have hl2 : (v.take s ++ S.sort key ((v.drop s).take (e - s))).length = e := by
      rw [List.length_append, (S.perm key _).length_eq, List.length_take, List.length_take,
        List.length_drop]
      omega
    refine ⟨hperm, hperm.length_eq, ?_⟩
    intro i hi
    rcases hi with hi | hi
    · rw [← h, List.append_assoc, List.getElem?_append_left (by omega), List.getElem?_take_of_lt hi]
    · rw [← h, List.getElem?_append_right (by omega), hl2, List.getElem?_drop]
      congr 1
      omega
  · cases h

/-- Two vectors that agree on the indices `start, ..., end` have the same slice. -/
theorem slice_congr {α : Type} (v w : List α) (s e : Nat)
    (h : ∀ i, s ≤ i → i ≤ e → v[i]? = w[i]?) : slice v s e = slice w s e := by
  unfold slice
  apply List.ext_getElem?
  intro k
  by_cases hk : k < e + 1 - s
  · rw [List.getElem?_take_of_lt hk, List.getElem?_take_of_lt hk, List.getElem?_drop,
      List.getElem?_drop]
    exact h _ (by omega) (by omega)
  · rw [List.getElem?_eq_none (by rw [List.length_take]; omega),
      List.getElem?_eq_none (by rw [List.length_take]; omega)]

/-! ### The representative of a colour leaf -/

theorem slice_length {α : Type} (v : List α) (s n : Nat) (hn : 1 ≤ n) (h : s + n ≤ v.length) :
    (slice v s (s + n - 1)).length = n := by
  unfold slice
  rw [List.length_take, List.length_drop]
  omega

theorem divToUint8_mean (sum n q : Nat) (hn : 1 ≤ n) (hle : sum ≤ 255 * n)
    (h : divToUint8 sum (n : Int) = .ok q) : q = sum / n := by
  rw [divToUint8_ok _ _ (by omega)] at h
  injection h with h
  rw [← h, ← Int.ofNat_tdiv]
  have hq : sum / n ≤ 255 := by
    apply Nat.div_le_of_le_mul
    rw [Nat.mul_comm]
    exact hle
  generalize sum / n = k at hq
  omega

/-- A returning colour leaf over a non-empty range of 8-bit colours writes the mean of
the range into the next palette entry and changes nothing else. -/
theorem medianCutLeaf_mean (m m1 : MedianCutter) (s n : Nat) (hn : 1 ≤ n)
    (hlen : s + n ≤ m.colors.length) (hsize : m.colors.length < 2 ^ 31)
    (hvalid : ∀ c ∈ m.colors, c.IsUint8) (h : medianCutLeaf m s (s + n - 1) = .ok m1) :
    ∃ hlt : m.bucketsCount < 16,
      m1 = { m with palette := Function.update m.palette ⟨m.bucketsCount, hlt⟩
                      (meanColor (slice m.colors s (s + n - 1)))
                    bucketsCount := m.bucketsCount + 1 } := by
  have hcount : toInt32 (rangeCount s (s + n - 1)) = (n : Int) := by
    rw [rangeCount_eq s n hn (by omega), toInt32_small n (by omega)]
  have hsl := slice_length m.colors s n hn hlen
  have hsum : ∀ f : SDL_Color → Nat, (∀ c ∈ m.colors, f c < 256) →
      ((slice m.colors s (s + n - 1)).map f).sum ≤ 255 * n := by
    intro f hf
    have h1 := sum_map_le (slice m.colors s (s + n - 1)) f
      (fun c hc => hf c (mem_of_mem_slice _ _ _ _ hc))
    rw [hsl] at h1
    exact h1
  rw [medianCutLeaf_unfold, hcount] at h
  obtain ⟨_, h1, h⟩ := except_bind_eq_ok _ _ _ h
  obtain ⟨_, h2, h⟩ := except_bind_eq_ok _ _ _ h
  obtain ⟨_, h3, h⟩ := except_bind_eq_ok _ _ _ h
  obtain ⟨_, h4, h⟩ := except_bind_eq_ok _ _ _ h
  obtain ⟨aR, h5, h⟩ := except_bind_eq_ok _ _ _ h
  obtain ⟨aG, h6, h⟩ := except_bind_eq_ok _ _ _ h
  obtain ⟨aB, h7, h⟩ := except_bind_eq_ok _ _ _ h
  obtain ⟨hlt, hm1⟩ := writeBucket_ok _ _ _ h
  have eR := divToUint8_mean _ n aR hn (hsum (fun c => c.r) (fun c hc => (hvalid c hc).1)) h5
  have eG := divToUint8_mean _ n aG hn (hsum (fun c => c.g) (fun c hc => (hvalid c hc).2.1)) h6
  have eB := divToUint8_mean _ n aB hn (hsum (fun c => c.b) (fun c hc => (hvalid c hc).2.2.1)) h7
  refine ⟨hlt, ?_⟩
  rw [hm1, eR, eG, eB]
  unfold meanColor
  rw [hsl]

/-- A returning colour recursion at depth `it` over a range of at least `2 ^ it` 8-bit
colours: the working array is rearranged inside the range only, and the palette entry
number `k` of the run is the mean of the final working array over the leaf range number
`k`. -/
theorem medianCut_entries (S : StdSort) (it : Nat) : ∀ (m m1 : MedianCutter) (s n : Nat),
    2 ^ it ≤ n → s + n ≤ m.colors.length → m.colors.length < 2 ^ 31 →
    (∀ c ∈ m.colors, c.IsUint8) → medianCut S m s (s + n - 1) it = .ok m1 →
    m1.colors.Perm m.colors ∧ (∀ i, i < s ∨ s + n ≤ i → m1.colors[i]? = m.colors[i]?) ∧
    ∀ (i : Fin 16) (k : Nat), k < 2 ^ it → i.val = m.bucketsCount + k →
      ∃ a b, (leafRanges s (s + n - 1) it)[k]? = some (a, b) ∧
        m1.palette i = meanColor (slice m1.colors a b) := by
  induction it with
  | zero =>
    intro m m1 s n hn hlen hsize hvalid h
    rw [pow_zero] at hn
    rw [medianCut_zero] at h
    obtain ⟨hlt, rfl⟩ := medianCutLeaf_mean m m1 s n hn hlen hsize hvalid h
    refine ⟨List.Perm.refl _, fun _ _ => rfl, ?_⟩
    intro i k hk hi
    rw [pow_zero] at hk
    have hk0 : k = 0 := by omega
    subst hk0
    refine ⟨s, s + n - 1, rfl, ?_⟩
    have hi2 : i = ⟨m.bucketsCount, hlt⟩ := Fin.ext (by rw [hi]; rfl)
    rw [hi2]
    exact Function.update_same _ _ _
  | succ it ih =>
    intro m m1 s n hn hlen hsize hvalid h
    have hpos : 0 < 2 ^ it := by positivity
    rw [pow_succ] at hn
    have hs63 : s + n < 2 ^ 63 := lt_of_le_of_lt hlen (lt_trans hsize (by norm_num))
    obtain ⟨hmed, hpred⟩ := split_indices s n (by omega) hs63
    rw [medianCut_succ, hmed] at h
    rw [hmed] at hpred
    rw [hpred] at h
    obtain ⟨sortBy, _, h⟩ := except_bind_eq_ok _ _ _ h
    obtain ⟨colors, hsort, h⟩ := except_bind_eq_ok _ _ _ h
    obtain ⟨m2, hleft, hright⟩ := except_bind_eq_ok _ _ _ h
    obtain ⟨hperm0, hlen0, hframe0⟩ := sortRange_frame S sortBy.key m.colors colors s (s + n - 1) hsort
    obtain ⟨hperm1, hframe1, hent1⟩ := ih { m with colors := colors } m2 s (n / 2) (by omega)
      (by simp only [hlen0]; omega) (by simp only [hlen0]; exact hsize)
      (fun c hc => hvalid c (hperm0.subset hc)) hleft
    simp only at hperm1 hframe1 hent1
    have hlen1 : m2.colors.length = m.colors.length := by rw [hperm1.length_eq, hlen0]
    have hright2 : medianCut S m2 (s + n / 2) (s + n / 2 + (n - n / 2) - 1) it = .ok m1 := by
      rw [show s + n / 2 + (n - n / 2) - 1 = s + n - 1 by omega]
      exact hright
    obtain ⟨hperm2, hframe2, hent2⟩ := ih m2 m1 (s + n / 2) (n - n / 2) (by omega)
      (by rw [hlen1]; omega) (by rw [hlen1]; exact hsize)
      (fun c hc => hvalid c (hperm0.subset (hperm1.subset hc))) hright2
    rw [show s + n / 2 + (n - n / 2) - 1 = s + n - 1 by omega] at hent2
    obtain ⟨hc1, _, _, _⟩ := medianCut_counts S it _ _ _ _ hleft
    obtain ⟨_, _, _, hpal2⟩ := medianCut_counts S it _ _ _ _ hright
    simp only at hc1
    refine ⟨hperm2.trans (hperm1.trans hperm0), ?_, ?_⟩
    · intro i hi
      rw [hframe2 i (by omega), hframe1 i (by omega), hframe0 i (by omega)]
    · intro i k hk hi
      rw [leafRanges_succ s n it (by omega) hs63]
      have hlenL := leafRanges_length it s (s + n / 2 - 1)
      by_cases hkl : k < 2 ^ it
      · obtain ⟨a, b, hab, hpal⟩ := hent1 i k hkl hi
        refine ⟨a, b, ?_, ?_⟩
        · rw [List.getElem?_append_left (by rw [hlenL]; exact hkl)]
          exact hab
        · have hmem : (a, b) ∈ leafRanges s (s + n / 2 - 1) it := List.mem_iff_getElem?.mpr ⟨k, hab⟩
          obtain ⟨_, _, hb, _, _⟩ := (leafRanges_spec it s (n / 2) (by omega) (by omega)).2 _ hmem
          simp only at hb
          rw [hpal2 i (Or.inl (by rw [hc1, hi]; omega)), hpal,
            slice_congr m1.colors m2.colors a b (fun j _ hj => hframe2 j (Or.inl (by omega)))]
      · rw [pow_succ] at hk
        obtain ⟨a, b, hab, hpal⟩ := hent2 i (k - 2 ^ it) (by omega) (by rw [hc1, hi]; omega)
        refine ⟨a, b, ?_, hpal⟩
        rw [List.getElem?_append_right (by rw [hlenL]; omega), hlenL]
        exact hab

/-! ### The representative of a grey leaf -/

theorem divToUint8_value (sum d q : Nat) (h : divToUint8 sum (d : Int) = .ok q) :
    d ≠ 0 ∧ q = sum / d % 256 := by
  unfold divToUint8 at h
  split at h
  · cases h
  · rename_i hd
    injection h with h
    refine ⟨by omega, ?_⟩
    rw [← h, ← Int.ofNat_tdiv]
    generalize sum / d = k
    omega

/-- A returning grey leaf over a non-empty range writes the sum of the range divided by
the member count taken modulo 256, itself taken modulo 256. -/
theorem medianCutGreyscaleLeaf_value (m m1 : MedianCutter) (s n : Nat) (hn : 1 ≤ n)
    (hs : s + n < 2 ^ 64) (h : medianCutGreyscaleLeaf m s (s + n - 1) = .ok m1) :
    n % 256 ≠ 0 ∧ ∃ hlt : m.bucketsCount < 16,
      m1 = { m with palette := Function.update m.palette ⟨m.bucketsCount, hlt⟩
                      ⟨(slice m.greys s (s + n - 1)).sum / (n % 256) % 256,
                        (slice m.greys s (s + n - 1)).sum / (n % 256) % 256,
                        (slice m.greys s (s + n - 1)).sum / (n % 256) % 256, 1⟩
                    bucketsCount := m.bucketsCount + 1 } := by
  rw [medianCutGreyscaleLeaf_unfold, rangeCount_eq s n hn hs] at h
  obtain ⟨_, h1, h⟩ := except_bind_eq_ok _ _ _ h
  obtain ⟨_, h2, h⟩ := except_bind_eq_ok _ _ _ h
  obtain ⟨g, h3, h⟩ := except_bind_eq_ok _ _ _ h
  obtain ⟨hlt, hm1⟩ := writeBucket_ok _ _ _ h
  obtain ⟨hd, hg⟩ := divToUint8_value _ _ _ h3
  refine ⟨hd, hlt, ?_⟩
  rw [hm1, hg]

/-- A returning grey recursion at depth `it` over a range of at least `2 ^ it` members:
the working array is rearranged inside the range only, and the palette entry number `k`
of the run is computed from the final working array over the leaf range number `k`, as
the sum divided by the member count modulo 256. -/
theorem medianCutGreyscale_entries (S : StdSort) (it : Nat) :
    ∀ (m m1 : MedianCutter) (s n : Nat),
    2 ^ it ≤ n → s + n ≤ m.greys.length → m.greys.length < 2 ^ 63 →
    medianCutGreyscale S m s (s + n - 1) it = .ok m1 →
    m1.greys.Perm m.greys ∧ (∀ i, i < s ∨ s + n ≤ i → m1.greys[i]? = m.greys[i]?) ∧
    ∀ (i : Fin 16) (k : Nat), k < 2 ^ it → i.val = m.bucketsCount + k →
      ∃ a b, (leafRanges s (s + n - 1) it)[k]? = some (a, b) ∧ (b - a + 1) % 256 ≠ 0 ∧
        m1.palette i = ⟨(slice m1.greys a b).sum / ((b - a + 1) % 256) % 256,
          (slice m1.greys a b).sum / ((b - a + 1) % 256) % 256,
          (slice m1.greys a b).sum / ((b - a + 1) % 256) % 256, 1⟩ := by
  induction it with
  | zero =>
    intro m m1 s n hn hlen hsize h
    rw [pow_zero] at hn
    rw [medianCutGreyscale_zero] at h
    obtain ⟨hd, hlt, rfl⟩ := medianCutGreyscaleLeaf_value m m1 s n hn
      (lt_of_le_of_lt hlen (lt_trans hsize (by norm_num))) h
    refine ⟨List.Perm.refl _, fun _ _ => rfl, ?_⟩
    intro i k hk hi
    rw [pow_zero] at hk
    have hk0 : k = 0 := by omega
    subst hk0
    have hcount : s + n - 1 - s + 1 = n := by omega
    refine ⟨s, s + n - 1, rfl, by rw [hcount]; exact hd, ?_⟩
    have hi2 : i = ⟨m.bucketsCount, hlt⟩ := Fin.ext (by rw [hi]; rfl)
    rw [hi2, hcount]
    exact Function.update_same _ _ _
  | succ it ih =>
    intro m m1 s n hn hlen hsize h
    have hpos : 0 < 2 ^ it := by positivity
    rw [pow_succ] at hn
    have hs63 : s + n < 2 ^ 63 := lt_of_le_of_lt hlen hsize
    obtain ⟨hmed, hpred⟩ := split_indices s n (by omega) hs63
    rw [medianCutGreyscale_succ, hmed] at h
    rw [hmed] at hpred
    rw [hpred] at h
    obtain ⟨greys, hsort, h⟩ := except_bind_eq_ok _ _ _ h
    obtain ⟨m2, hleft, hright⟩ := except_bind_eq_ok _ _ _ h
    obtain ⟨hperm0, hlen0, hframe0⟩ := sortRange_frame S (fun grey => grey) m.greys greys s
      (s + n - 1) hsort
    obtain ⟨hperm1, hframe1, hent1⟩ := ih { m with greys := greys } m2 s (n / 2) (by omega)
      (by simp only [hlen0]; omega) (by simp only [hlen0]; exact hsize) hleft
    simp only at hperm1 hframe1 hent1
    have hlen1 : m2.greys.length = m.greys.length := by rw [hperm1.length_eq, hlen0]
    have hright2 : medianCutGreyscale S m2 (s + n / 2) (s + n / 2 + (n - n / 2) - 1) it = .ok m1 := by
      rw [show s + n / 2 + (n - n / 2) - 1 = s + n - 1 by omega]
      exact hright
    obtain ⟨hperm2, hframe2, hent2⟩ := ih m2 m1 (s + n / 2) (n - n / 2) (by omega)
      (by rw [hlen1]; omega) (by rw [hlen1]; exact hsize) hright2
    rw [show s + n / 2 + (n - n / 2) - 1 = s + n - 1 by omega] at hent2
    obtain ⟨hc1, _, _, _⟩ := medianCutGreyscale_counts S it _ _ _ _ hleft
    obtain ⟨_, _, _, hpal2⟩ := medianCutGreyscale_counts S it _ _ _ _ hright
    simp only at hc1
    refine ⟨hperm2.trans (hperm1.trans hperm0), ?_, ?_⟩
    · intro i hi
      rw [hframe2 i (by omega), hframe1 i (by omega), hframe0 i (by omega)]
    · intro i k hk hi
      rw [leafRanges_succ s n it (by omega) hs63]
      have hlenL := leafRanges_length it s (s + n / 2 - 1)
      by_cases hkl : k < 2 ^ it
      · obtain ⟨a, b, hab, hd, hpal⟩ := hent1 i k hkl hi
        refine ⟨a, b, ?_, hd, ?_⟩
        · rw [List.getElem?_append_left (by rw [hlenL]; exact hkl)]
          exact hab
        · have hmem : (a, b) ∈ leafRanges s (s + n / 2 - 1) it := List.mem_iff_getElem?.mpr ⟨k, hab⟩
          obtain ⟨_, _, hb, _, _⟩ := (leafRanges_spec it s (n / 2) (by omega) (by omega)).2 _ hmem
          simp only at hb
          rw [hpal2 i (Or.inl (by rw [hc1, hi]; omega)), hpal,
            slice_congr m1.greys m2.greys a b (fun j _ hj => hframe2 j (Or.inl (by omega)))]
      · rw [pow_succ] at hk
        obtain ⟨a, b, hab, hd, hpal⟩ := hent2 i (k - 2 ^ it) (by omega) (by rw [hc1, hi]; omega)
        refine ⟨a, b, ?_, hd, hpal⟩
        rw [List.getElem?_append_right (by rw [hlenL]; omega), hlenL]
        exact hab

/-- A grey leaf over a non-empty range whose member count is not a multiple of 256
returns. -/
theorem medianCutGreyscaleLeaf_total_mod (m : MedianCutter) (s n : Nat) (hn : 1 ≤ n)
    (hmod : n % 256 ≠ 0) (hlen : s + n ≤ m.greys.length) (hsize : m.greys.length ≤ 2 ^ 23)
    (hvalid : ∀ g ∈ m.greys, g < 256) (hb : m.bucketsCount < 16) :
    ∃ m1, medianCutGreyscaleLeaf m s (s + n - 1) = .ok m1 ∧ m1.greys = m.greys := by
  have hsum : (slice m.greys s (s + n - 1)).sum < 2 ^ 31 := by
    have h1 := sum_le_of_uint8 (slice m.greys s (s + n - 1))
      (fun g hg => hvalid g (mem_of_mem_slice _ _ _ _ hg))
    have h2 := slice_length_le_length m.greys s (s + n - 1)
    omega
  have hcount : rangeCount s (s + n - 1) = n := rangeCount_eq s n hn (by omega)
  have hne : ((n % 256 : Nat) : Int) ≠ 0 := by omega
  unfold medianCutGreyscaleLeaf checkRangeLoop
  rw [if_neg (by omega), if_neg (by omega)]
  simp only [bind, Except.bind, checkIntSum, hsum, if_true, hcount, divToUint8_ok _ _ hne]
  rw [writeBucket_lt _ _ hb]
  exact ⟨_, rfl, rfl⟩

/-- The grey recursion returns when no leaf range has a multiple of 256 as member count. -/
theorem medianCutGreyscale_total_mod (S : StdSort) (it : Nat) : ∀ (m : MedianCutter) (s n : Nat),
    2 ^ it ≤ n → s + n ≤ m.greys.length → m.greys.length ≤ 2 ^ 23 →
    (∀ g ∈ m.greys, g < 256) → m.bucketsCount + 2 ^ it ≤ 16 →
    (∀ ab ∈ leafRanges s (s + n - 1) it, (ab.2 - ab.1 + 1) % 256 ≠ 0) →
    ∃ m1, medianCutGreyscale S m s (s + n - 1) it = .ok m1 ∧ m1.greys.Perm m.greys := by
  induction it with
  | zero =>
    intro m s n hn hlen hsize hvalid hb hmod
    rw [pow_zero] at hn hb
    have hm := hmod (s, s + n - 1) (List.mem_singleton.mpr rfl)
    simp only at hm
    rw [show s + n - 1 - s + 1 = n by omega] at hm
    obtain ⟨m1, h1, h2⟩ := medianCutGreyscaleLeaf_total_mod m s n hn hm hlen hsize hvalid (by omega)
    exact ⟨m1, by rw [medianCutGreyscale_zero]; exact h1, by rw [h2]⟩
  | succ it ih =>
    intro m s n hn hlen hsize hvalid hb hmod
    have hpos : 0 < 2 ^ it := by positivity
    rw [pow_succ] at hn hb
    have hs63 : s + n < 2 ^ 63 := lt_of_le_of_lt hlen (lt_of_le_of_lt hsize (by norm_num))
    rw [leafRanges_succ s n it (by omega) hs63] at hmod
    rw [medianCutGreyscale_succ]
    obtain ⟨greys, hsort, hperm⟩ := sortRange_ok S (fun grey => grey) m.greys s (s + n - 1)
      (by omega) (by omega)
    have hlen2 : greys.length = m.greys.length := hperm.length_eq
    obtain ⟨hmed, hpred⟩ := split_indices s n (by omega) hs63
    rw [hmed] at hpred
    obtain ⟨m2, hleft, hperm2⟩ := ih { m with greys := greys } s (n / 2) (by omega)
      (by simp only [hlen2]; omega) (by simp only [hlen2]; exact hsize)
      (fun g hg => hvalid g (hperm.subset hg)) (by simp only; omega)
      (fun ab hab => hmod ab (List.mem_append_left _ hab))
    obtain ⟨hc2, _, _, _⟩ := medianCutGreyscale_counts S it _ _ _ _ hleft
    simp only at hc2 hperm2
    have hlen3 : m2.greys.length = m.greys.length := by rw [hperm2.length_eq, hlen2]
    have hend : s + n / 2 + (n - n / 2) - 1 = s + n - 1 := by omega
    obtain ⟨m3, hright, hperm3⟩ := ih m2 (s + n / 2) (n - n / 2) (by omega)
      (by rw [hlen3]; omega) (by rw [hlen3]; exact hsize)
      (fun g hg => hvalid g (hperm.subset (hperm2.subset hg))) (by rw [hc2]; omega)
      (by rw [hend]; exact fun ab hab => hmod ab (List.mem_append_right _ hab))
    rw [hend] at hright
    refine ⟨m3, ?_, hperm3.trans (hperm2.trans hperm)⟩
    simp only [Except.bind, sortBucketGreyscale, hsort, hmed, hpred, hleft, hright]

/-! ### Balanced partition -/

/-- C26: the recursion of both variants goes from `(start, end)` to `(start, medium - 1)`
and `(medium, end)`; a range of `n >= 2` members is split into `n / 2` members on the
left and the other `(n + 1) / 2` on the right; and for a population of `N >= 16` members
the 16 leaf ranges of the depth-4 recursion on `(0, N - 1)` follow one another from 0 up
to `N - 1` without gap or overlap, none is empty, and each has `N / 16` members, rounded
down or up. -/
theorem balanced_partition (S : StdSort) (N : Nat) (h16 : 16 ≤ N) (hN : N < 2 ^ 63) :
    (∀ (m : MedianCutter) (s e it : Nat), medianCut S m s e (it + 1) =
      (greatestDifference m.colors s e).bind (fun sortBy =>
        (sortBucket S m.colors s e sortBy).bind (fun colors =>
          (medianCut S { m with colors := colors } s (sizePred (mediumOf s e)) it).bind (fun m1 =>
            medianCut S m1 (mediumOf s e) e it)))) ∧
    (∀ (m : MedianCutter) (s e it : Nat), medianCutGreyscale S m s e (it + 1) =
      (sortBucketGreyscale S m.greys s e).bind (fun greys =>
        (medianCutGreyscale S { m with greys := greys } s (sizePred (mediumOf s e)) it).bind
          (fun m1 => medianCutGreyscale S m1 (mediumOf s e) e it))) ∧
    (∀ s e it : Nat, leafRanges s e (it + 1) =
      leafRanges s (sizePred (mediumOf s e)) it ++ leafRanges (mediumOf s e) e it) ∧
    (∀ s n : Nat, 2 ≤ n → s + n ≤ N →
      mediumOf s (s + n - 1) = s + n / 2 ∧ sizePred (mediumOf s (s + n - 1)) = s + n / 2 - 1 ∧
      rangeCount s (sizePred (mediumOf s (s + n - 1))) = n / 2 ∧
      rangeCount (mediumOf s (s + n - 1)) (s + n - 1) = (n + 1) / 2) ∧
    (leafRanges 0 (N - 1) 4).length = 16 ∧
    Contiguous 0 (leafRanges 0 (N - 1) 4) N ∧
    ∀ ab ∈ leafRanges 0 (N - 1) 4, ab.1 ≤ ab.2 ∧ ab.2 < N ∧
      (ab.2 - ab.1 + 1 = N / 16 ∨ ab.2 - ab.1 + 1 = (N + 15) / 16) := by
  refine ⟨fun _ _ _ _ => rfl, fun _ _ _ _ => rfl, fun _ _ _ => rfl, ?_, leafRanges_length 4 0 (N - 1),
    ?_, ?_⟩
  · intro s n hn hs
    obtain ⟨h1, h2⟩ := split_indices s n hn (lt_of_le_of_lt hs hN)
    have hlt : s + n < 2 ^ 64 := lt_trans (lt_of_le_of_lt hs hN) (by norm_num)
    refine ⟨h1, h2, ?_, ?_⟩
    · rw [h2]
      exact rangeCount_eq s (n / 2) (by omega) (by omega)
    · rw [h1]
      have := rangeCount_eq (s + n / 2) (n - n / 2) (by omega) (by omega)
      rw [show s + n / 2 + (n - n / 2) - 1 = s + n - 1 by omega] at this
      rw [this]
      omega
  · have := (leafRanges_spec 4 0 N (by norm_num; exact h16) (by omega)).1
    rw [Nat.zero_add] at this
    exact this
  · intro ab hab
    have h := (leafRanges_spec 4 0 N (by norm_num; exact h16) (by omega)).2 ab
      (by rw [Nat.zero_add]; exact hab)
    obtain ⟨_, h2, h3, h4, h5⟩ := h
    norm_num at h4 h5
    refine ⟨h2, by omega, ?_⟩
    omega

/-- A population of 21 members: eleven leaves of one member and five of two. -/
theorem balanced_partition_witness :
    16 ≤ 21 ∧ 21 < 2 ^ 63 ∧
    leafRanges 0 (21 - 1) 4 =
      [(0, 0), (1, 1), (2, 2), (3, 4), (5, 5), (6, 6), (7, 7), (8, 9), (10, 10), (11, 11),
        (12, 12), (13, 14), (15, 15), (16, 17), (18, 18), (19, 20)] ∧
    Contiguous 0 (leafRanges 0 (21 - 1) 4) 21 :=
  ⟨by decide, by norm_num, by decide,
    (balanced_partition insertionStdSort 21 (by decide) (by norm_num)).2.2.2.2.2.1⟩

/-! ### Leaf representatives -/

/-- The truncated mean of a channel over a non-empty bucket lies between the least and
the greatest value of the channel. -/
theorem mean_between (key : SDL_Color → Nat) (bucket : List SDL_Color) (hne : bucket ≠ []) :
    channelMin key bucket ≤ (bucket.map key).sum / bucket.length ∧
    (bucket.map key).sum / bucket.length ≤ channelMax key bucket := by
  have hpos : 0 < bucket.length := List.length_pos.mpr hne
  obtain ⟨hmin, _⟩ := channelMin_spec key bucket hne
  obtain ⟨hmax, _⟩ := channelMax_spec key bucket hne
  have h1 := List.card_nsmul_le_sum (bucket.map key) (channelMin key bucket) (by
    intro x hx
    obtain ⟨c, hc, rfl⟩ := List.mem_map.mp hx
    exact hmin c hc)
  have h2 := List.sum_le_card_nsmul (bucket.map key) (channelMax key bucket) (by
    intro x hx
    obtain ⟨c, hc, rfl⟩ := List.mem_map.mp hx
    exact hmax c hc)
  rw [List.length_map, smul_eq_mul] at h1 h2
  refine ⟨(Nat.le_div_iff_mul_le hpos).mpr ?_, Nat.div_le_of_le_mul h2⟩
  rw [Nat.mul_comm]
  exact h1

/-- C21: when the colour median cut returns on an image of fewer than `2 ^ 31` 8-bit
pixels, the palette entry number `k` is, per channel, the sum over the leaf range number
`k` of the working array divided by its member count, integer-truncated, and so lies
between the least and the greatest value of the channel in that bucket; the call
returns on every image of 16 to `2 ^ 23` 8-bit pixels. -/
theorem medianCut_leaf_mean (S : StdSort) (img img1 : Image)
    (h : transform S .medianCut img = .returned img1)
    (hvalid : ∀ row ∈ img.originalBmp, ∀ pixel ∈ row, pixel.IsUint8)
    (hN : img.originalBmp.flatten.length < 2 ^ 31) :
    (∃ m0 m1, MedianCutter.new img.originalBmp img.palette = .ok m0 ∧
      m0.colors = img.originalBmp.flatten ∧
      medianCut S m0 0 (sizePred m0.colors.length) 4 = .ok m1 ∧ img1.palette = m1.palette ∧
      m1.colors.Perm img.originalBmp.flatten ∧
      ∀ k : Fin 16, ∃ a b,
        (leafRanges 0 (img.originalBmp.flatten.length - 1) 4)[k.val]? = some (a, b) ∧
        a ≤ b ∧ b < img.originalBmp.flatten.length ∧
        (slice m1.colors a b).length = b - a + 1 ∧
        img1.palette k = meanColor (slice m1.colors a b) ∧
        channelMin (fun c => c.r) (slice m1.colors a b) ≤ (img1.palette k).r ∧
        (img1.palette k).r ≤ channelMax (fun c => c.r) (slice m1.colors a b) ∧
        channelMin (fun c => c.g) (slice m1.colors a b) ≤ (img1.palette k).g ∧
        (img1.palette k).g ≤ channelMax (fun c => c.g) (slice m1.colors a b) ∧
        channelMin (fun c => c.b) (slice m1.colors a b) ≤ (img1.palette k).b ∧
        (img1.palette k).b ≤ channelMax (fun c => c.b) (slice m1.colors a b)) ∧
    (∀ img0 : Image, img0.originalBmp ≠ [] → 16 ≤ img0.originalBmp.flatten.length →
      img0.originalBmp.flatten.length ≤ 2 ^ 23 →
      (∀ row ∈ img0.originalBmp, ∀ pixel ∈ row, pixel.IsUint8) →
      ∃ img2, transform S .medianCut img0 = .returned img2) := by
  refine ⟨?_, fun img0 h1 h2 h3 h4 => medianCutTransformation_total S img0 h1 h2 h3 h4⟩
  obtain ⟨m0, m1, hnew, hb0, hcut, _, hpal, h16⟩ := medianCut_run S img img1 h
  obtain ⟨_, hm0⟩ := MedianCutter_new_ok _ _ _ hnew
  have hc : m0.colors = img.originalBmp.flatten := by rw [hm0]
  have hend : sizePred m0.colors.length = 0 + img.originalBmp.flatten.length - 1 := by
    rw [hc, sizePred_pos _ (by omega) (lt_trans hN (by norm_num)), Nat.zero_add]
  have hcut2 := hcut
  rw [hend] at hcut2
  have hv : ∀ c ∈ m0.colors, c.IsUint8 := by
    intro c hcm
    rw [hc] at hcm
    obtain ⟨row, hrow, hcrow⟩ := List.mem_flatten.mp hcm
    exact hvalid row hrow c hcrow
  obtain ⟨hperm, _, hent⟩ := medianCut_entries S 4 m0 m1 0 img.originalBmp.flatten.length
    (le_trans (by norm_num) h16) (by rw [hc]; omega) (by rw [hc]; exact hN) hv hcut2
  rw [hc] at hperm
  refine ⟨m0, m1, hnew, hc, hcut, hpal, hperm, ?_⟩
  intro k
  obtain ⟨a, b, hab, hentry⟩ := hent k k.val (lt_of_lt_of_le k.isLt (by norm_num)) (by rw [hb0, Nat.zero_add])
  rw [Nat.zero_add] at hab
  have hmem : (a, b) ∈ leafRanges 0 (img.originalBmp.flatten.length - 1) 4 :=
    List.mem_iff_getElem?.mpr ⟨k.val, hab⟩
  obtain ⟨_, h2, h3, _, _⟩ := (leafRanges_spec 4 0 img.originalBmp.flatten.length
    (le_trans (by norm_num) h16) (by omega)).2 (a, b) (by rw [Nat.zero_add]; exact hmem)
  simp only at h2 h3
  have hlen : (slice m1.colors a b).length = b - a + 1 := by
    have := slice_length m1.colors a (b - a + 1) (by omega) (by rw [hperm.length_eq]; omega)
    rw [show a + (b - a + 1) - 1 = b by omega] at this
    exact this
  have hne : slice m1.colors a b ≠ [] := by
    intro hnil
    rw [hnil] at hlen
    simp at hlen
  have hR := mean_between (fun c => c.r) _ hne
  have hG := mean_between (fun c => c.g) _ hne
  have hB := mean_between (fun c => c.b) _ hne
  rw [hpal, hentry]
  exact ⟨a, b, hab, h2, by omega, hlen, rfl, hR.1, hR.2, hG.1, hG.2, hB.1, hB.2⟩

set_option maxRecDepth 100000 in
/-- The 4 by 4 example under the colour median cut. -/
theorem medianCut_leaf_mean_witness :
    (∀ row ∈ exampleFourByFour.originalBmp, ∀ pixel ∈ row, pixel.IsUint8) ∧
    exampleFourByFour.originalBmp.flatten.length < 2 ^ 31 ∧
    ∃ img1, transform insertionStdSort .medianCut exampleFourByFour = .returned img1 ∧
    ((∃ m0 m1, MedianCutter.new exampleFourByFour.originalBmp exampleFourByFour.palette = .ok m0 ∧
      m0.colors = exampleFourByFour.originalBmp.flatten ∧
      medianCut insertionStdSort m0 0 (sizePred m0.colors.length) 4 = .ok m1 ∧
      img1.palette = m1.palette ∧
      m1.colors.Perm exampleFourByFour.originalBmp.flatten ∧
      ∀ k : Fin 16, ∃ a b,
        (leafRanges 0 (exampleFourByFour.originalBmp.flatten.length - 1) 4)[k.val]? = some (a, b) ∧
        a ≤ b ∧ b < exampleFourByFour.originalBmp.flatten.length ∧
        (slice m1.colors a b).length = b - a + 1 ∧
        img1.palette k = meanColor (slice m1.colors a b) ∧
        channelMin (fun c => c.r) (slice m1.colors a b) ≤ (img1.palette k).r ∧
        (img1.palette k).r ≤ channelMax (fun c => c.r) (slice m1.colors a b) ∧
        channelMin (fun c => c.g) (slice m1.colors a b) ≤ (img1.palette k).g ∧
        (img1.palette k).g ≤ channelMax (fun c => c.g) (slice m1.colors a b) ∧
        channelMin (fun c => c.b) (slice m1.colors a b) ≤ (img1.palette k).b ∧
        (img1.palette k).b ≤ channelMax (fun c => c.b) (slice m1.colors a b)) ∧
    (∀ img0 : Image, img0.originalBmp ≠ [] → 16 ≤ img0.originalBmp.flatten.length →
      img0.originalBmp.flatten.length ≤ 2 ^ 23 →
      (∀ row ∈ img0.originalBmp, ∀ pixel ∈ row, pixel.IsUint8) →
      ∃ img2, transform insertionStdSort .medianCut img0 = .returned img2)) :=
  ⟨by decide, by show (16 : Nat) < 2 ^ 31; norm_num, _, rfl,
    medianCut_leaf_mean insertionStdSort exampleFourByFour _ rfl (by decide)
      (by show (16 : Nat) < 2 ^ 31; norm_num)⟩

/-! ### Grey leaves of more than 255 members -/

theorem slice_replicate {α : Type} (x : α) (N a b : Nat) (hab : a ≤ b) (hb : b < N) :
    slice (List.replicate N x) a b = List.replicate (b - a + 1) x := by
  unfold slice
  rw [List.drop_replicate, List.take_replicate]
  congr 1
  omega

/-- The grey recursion on the 4128 luminances of the uniform example: it returns, the
working array still holds 4128 times the luminance 21, and all 16 palette entries are
(149, 149, 149). -/
theorem medianCutGreyscale_uniform_run (S : StdSort) (palette : Palette) :
    ∃ m1, medianCutGreyscale S ⟨exampleUniform.originalBmp, palette, 0, 0,
        exampleUniform.originalBmp.flatten, exampleUniform.originalBmp.flatten.map luminance⟩
        0 (sizePred (exampleUniform.originalBmp.flatten.map luminance).length) 4 = .ok m1 ∧
      m1.greys = List.replicate 4128 21 ∧ ∀ k : Fin 16, m1.palette k = ⟨149, 149, 149, 1⟩ := by
  have hflat : exampleUniform.originalBmp.flatten = List.replicate 4128 ⟨21, 21, 21, 1⟩ := by
    show (List.replicate 16 (List.replicate 258 (⟨21, 21, 21, 1⟩ : SDL_Color))).flatten = _
    rw [List.flatten_replicate_replicate]
  have hlum : luminance ⟨21, 21, 21, 1⟩ = 21 := by decide
  have hgreys : exampleUniform.originalBmp.flatten.map luminance = List.replicate 4128 21 := by
    rw [hflat, List.map_replicate, hlum]
  rw [hgreys, List.length_replicate]
  have hend : sizePred 4128 = 0 + 4128 - 1 := by decide
  rw [hend]
  have hvalid : ∀ g ∈ List.replicate 4128 21, g < 256 := by
    intro g hg
    rw [List.eq_of_mem_replicate hg]
    norm_num
  have hleaves : ∀ ab ∈ leafRanges 0 (0 + 4128 - 1) 4,
      ab.1 ≤ ab.2 ∧ ab.2 < 4128 ∧ ab.2 - ab.1 + 1 = 258 := by decide
  obtain ⟨m1, hrun, hperm⟩ := medianCutGreyscale_total_mod S 4
    ⟨exampleUniform.originalBmp, palette, 0, 0, exampleUniform.originalBmp.flatten,
      List.replicate 4128 21⟩ 0 4128 (by norm_num)
    (by show 0 + 4128 ≤ (List.replicate 4128 21).length; rw [List.length_replicate])
    (by show (List.replicate 4128 21).length ≤ 2 ^ 23; rw [List.length_replicate]; norm_num)
    hvalid (by norm_num)
    (fun ab hab => by rw [(hleaves ab hab).2.2]; norm_num)
  have hg1 : m1.greys = List.replicate 4128 21 := List.perm_replicate.mp hperm
  obtain ⟨_, _, hent⟩ := medianCutGreyscale_entries S 4 _ m1 0 4128 (by norm_num)
    (by show 0 + 4128 ≤ (List.replicate 4128 21).length; rw [List.length_replicate])
    (by show (List.replicate 4128 21).length < 2 ^ 63; rw [List.length_replicate]; norm_num)
    hrun
  refine ⟨m1, hrun, hg1, ?_⟩
  intro k
  obtain ⟨a, b, hab, _, hpal⟩ := hent k k.val (lt_of_lt_of_le k.isLt (by norm_num))
    (Nat.zero_add _).symm
  obtain ⟨h1, h2, h3⟩ := hleaves (a, b) (List.mem_iff_getElem?.mpr ⟨k.val, hab⟩)
  simp only at h1 h2 h3
  rw [hpal, hg1, slice_replicate 21 4128 a b h1 h2, h3, List.sum_replicate, smul_eq_mul]

/-- C22: on the 16 by 258 image of the colour (21, 21, 21), every pixel of luminance 21,
the greyscale median cut returns with all 16 palette entries equal to (149, 149, 149):
each leaf has 258 members and the sum 5418 is divided by 258 mod 256 = 2. The mean of
every bucket is 21. -/
theorem medianCutGreyscale_leaf_not_mean (S : StdSort) :
    exampleUniform.originalBmp.flatten.length = 4128 ∧
    (∀ row ∈ exampleUniform.originalBmp, ∀ pixel ∈ row, luminance pixel = 21) ∧
    meanGrey (List.replicate 258 21) = 21 ∧
    ∃ img1, transform S .medianCutGreyscale exampleUniform = .returned img1 ∧
      ∀ k : Fin 16, img1.palette k = ⟨149, 149, 149, 1⟩ := by
  have hflat : exampleUniform.originalBmp.flatten = List.replicate 4128 ⟨21, 21, 21, 1⟩ := by
    show (List.replicate 16 (List.replicate 258 (⟨21, 21, 21, 1⟩ : SDL_Color))).flatten = _
    rw [List.flatten_replicate_replicate]
  have hne : exampleUniform.originalBmp ≠ [] := by
    intro h
    have hlen := congrArg List.length h
    rw [show exampleUniform.originalBmp = List.replicate 16 (List.replicate 258 ⟨21, 21, 21, 1⟩)
      from rfl, List.length_replicate] at hlen
    exact absurd hlen (by norm_num)
  refine ⟨by rw [hflat, List.length_replicate], ?_,
    by unfold meanGrey; rw [List.sum_replicate, smul_eq_mul, List.length_replicate], ?_⟩
  · intro row hrow pixel hpixel
    have hrow2 : row = List.replicate 258 ⟨21, 21, 21, 1⟩ := List.eq_of_mem_replicate hrow
    rw [hrow2] at hpixel
    rw [List.eq_of_mem_replicate hpixel]
    decide
  · obtain ⟨m1, hrun, _, hpal⟩ := medianCutGreyscale_uniform_run S exampleUniform.palette
    have hperf : perform S ⟨exampleUniform.originalBmp, exampleUniform.palette, 0, 0,
        exampleUniform.originalBmp.flatten, exampleUniform.originalBmp.flatten.map luminance⟩ true =
        .ok (m1.image.map (fun row => row.map (fun pixel =>
          m1.palette (findNeighbourGreyscale m1.palette pixel))), m1) := by
      show performGreyscale S _ = _
      unfold performGreyscale
      simp only
      rw [hrun]
      rfl
    refine ⟨_, runMedianCutter_ok S exampleUniform true _ m1 _
      (MedianCutter_new_of_ne _ _ hne) hperf, hpal⟩

/-- C27: on the 16 by 258 image of the colour (21, 21, 21) the greyscale recursion
returns and its working array is a permutation of the luminances of the pixels, all
equal to 21, but every palette entry has the grey 149, which is the mean of no
selection of pixel values. -/
theorem medianCutGreyscale_entry_not_pixel_mean (S : StdSort) :
    ∃ m0 m1 img1, MedianCutter.new exampleUniform.originalBmp exampleUniform.palette = .ok m0 ∧
      m0.greys = exampleUniform.originalBmp.flatten.map luminance ∧
      medianCutGreyscale S m0 0 (sizePred m0.greys.length) 4 = .ok m1 ∧
      m1.greys.Perm (exampleUniform.originalBmp.flatten.map luminance) ∧
      (∀ grey ∈ m1.greys, grey = 21) ∧
      (∀ bucket : List Nat, bucket ≠ [] → (∀ grey ∈ bucket, grey ∈ m1.greys) →
        meanGrey bucket = 21) ∧
      transform S .medianCutGreyscale exampleUniform = .returned img1 ∧
      img1.palette = m1.palette ∧ ∀ k : Fin 16, (img1.palette k).r = 149 := by
  have hne : exampleUniform.originalBmp ≠ [] := by
    intro h
    have hlen := congrArg List.length h
    rw [show exampleUniform.originalBmp = List.replicate 16 (List.replicate 258 ⟨21, 21, 21, 1⟩)
      from rfl, List.length_replicate] at hlen
    exact absurd hlen (by norm_num)
  have hflat : exampleUniform.originalBmp.flatten = List.replicate 4128 ⟨21, 21, 21, 1⟩ := by
    show (List.replicate 16 (List.replicate 258 (⟨21, 21, 21, 1⟩ : SDL_Color))).flatten = _
    rw [List.flatten_replicate_replicate]
  have hlum : luminance ⟨21, 21, 21, 1⟩ = 21 := by decide
  have hgreys : exampleUniform.originalBmp.flatten.map luminance = List.replicate 4128 21 := by
    rw [hflat, List.map_replicate, hlum]
  obtain ⟨m1, hrun, hg1, hpal⟩ := medianCutGreyscale_uniform_run S exampleUniform.palette
  have hperf : perform S ⟨exampleUniform.originalBmp, exampleUniform.palette, 0, 0,
      exampleUniform.originalBmp.flatten, exampleUniform.originalBmp.flatten.map luminance⟩ true =
      .ok (m1.image.map (fun row => row.map (fun pixel =>
        m1.palette (findNeighbourGreyscale m1.palette pixel))), m1) := by
    show performGreyscale S _ = _
    unfold performGreyscale
    simp only
    rw [hrun]
    rfl
  have hall : ∀ grey ∈ m1.greys, grey = 21 := by
    intro grey hgrey
    rw [hg1] at hgrey
    exact List.eq_of_mem_replicate hgrey
  refine ⟨_, m1, _, MedianCutter_new_of_ne _ _ hne, rfl, hrun, by rw [hg1, hgreys], hall, ?_,
    runMedianCutter_ok S exampleUniform true _ m1 _ (MedianCutter_new_of_ne _ _ hne) hperf, rfl,
    fun k => by show (m1.palette k).r = 149; rw [hpal k]⟩
  intro bucket hbne hb
  have hrep : bucket = List.replicate bucket.length 21 :=
    List.eq_replicate_iff.mpr ⟨rfl, fun g hg => hall g (hb g hg)⟩
  unfold meanGrey
  rw [hrep, List.sum_replicate, smul_eq_mul, List.length_replicate]
  exact Nat.mul_div_cancel_left 21 (List.length_pos.mpr hbne)

/-! ### Palette size and the writes of the leaves -/

/-- A returning colour median cut on fewer than `2 ^ 31` 8-bit pixels: the palette entry
`k` holds the colour stored by the leaf number `k` in the order of the calls. -/
theorem medianCut_run_entries (S : StdSort) (img img1 : Image)
    (h : transform S .medianCut img = .returned img1)
    (hvalid : ∀ row ∈ img.originalBmp, ∀ pixel ∈ row, pixel.IsUint8)
    (hN : img.originalBmp.flatten.length < 2 ^ 31) :
    ∃ m0 m1, MedianCutter.new img.originalBmp img.palette = .ok m0 ∧
      medianCut S m0 0 (sizePred m0.colors.length) 4 = .ok m1 ∧ img1.palette = m1.palette ∧
      ∀ k : Fin 16, ∃ a b,
        (leafRanges 0 (img.originalBmp.flatten.length - 1) 4)[k.val]? = some (a, b) ∧
        img1.palette k = meanColor (slice m1.colors a b) := by
  obtain ⟨m0, m1, hnew, hb0, hcut, _, hpal, h16⟩ := medianCut_run S img img1 h
  obtain ⟨_, hm0⟩ := MedianCutter_new_ok _ _ _ hnew
  have hc : m0.colors = img.originalBmp.flatten := by rw [hm0]
  have hend : sizePred m0.colors.length = 0 + img.originalBmp.flatten.length - 1 := by
    rw [hc, sizePred_pos _ (by omega) (lt_trans hN (by norm_num)), Nat.zero_add]
  have hcut2 := hcut
  rw [hend] at hcut2
  have hv : ∀ c ∈ m0.colors, c.IsUint8 := by
    intro c hcm
    rw [hc] at hcm
    obtain ⟨row, hrow, hcrow⟩ := List.mem_flatten.mp hcm
    exact hvalid row hrow c hcrow
  obtain ⟨_, _, hent⟩ := medianCut_entries S 4 m0 m1 0 img.originalBmp.flatten.length
    (le_trans (by norm_num) h16) (by rw [hc]; omega) (by rw [hc]; exact hN) hv hcut2
  refine ⟨m0, m1, hnew, hcut, hpal, ?_⟩
  intro k
  obtain ⟨a, b, hab, hentry⟩ := hent k k.val (lt_of_lt_of_le k.isLt (by norm_num))
    (by rw [hb0, Nat.zero_add])
  rw [Nat.zero_add] at hab
  exact ⟨a, b, hab, by rw [hpal, hentry]⟩

/-- A returning greyscale median cut: the palette entry `k` holds the grey stored by the
leaf number `k` in the order of the calls. -/
theorem medianCutGreyscale_run_entries (S : StdSort) (img img1 : Image)
    (h : transform S .medianCutGreyscale img = .returned img1)
    (hN : img.originalBmp.flatten.length < 2 ^ 63) :
    ∃ m0 m1, MedianCutter.new img.originalBmp img.palette = .ok m0 ∧
      medianCutGreyscale S m0 0 (sizePred m0.greys.length) 4 = .ok m1 ∧
      img1.palette = m1.palette ∧
      ∀ k : Fin 16, ∃ a b,
        (leafRanges 0 (img.originalBmp.flatten.length - 1) 4)[k.val]? = some (a, b) ∧
        img1.palette k = ⟨(slice m1.greys a b).sum / ((b - a + 1) % 256) % 256,
          (slice m1.greys a b).sum / ((b - a + 1) % 256) % 256,
          (slice m1.greys a b).sum / ((b - a + 1) % 256) % 256, 1⟩ := by
  obtain ⟨m0, m1, hnew, hb0, hcut, _, hpal, h16⟩ := medianCutGreyscale_run S img img1 h
  obtain ⟨_, hm0⟩ := MedianCutter_new_ok _ _ _ hnew
  have hc : m0.greys.length = img.originalBmp.flatten.length := by
    rw [hm0]
    exact List.length_map _ _
  have hend : sizePred m0.greys.length = 0 + img.originalBmp.flatten.length - 1 := by
    rw [hc, sizePred_pos _ (by omega) (lt_trans hN (by norm_num)), Nat.zero_add]
  have hcut2 := hcut
  rw [hend] at hcut2
  obtain ⟨_, _, hent⟩ := medianCutGreyscale_entries S 4 m0 m1 0 img.originalBmp.flatten.length
    (le_trans (by norm_num) h16) (by rw [hc]; omega) (by rw [hc]; exact hN) hcut2
  refine ⟨m0, m1, hnew, hcut, hpal, ?_⟩
  intro k
  obtain ⟨a, b, hab, _, hentry⟩ := hent k k.val (lt_of_lt_of_le k.isLt (by norm_num))
    (by rw [hb0, Nat.zero_add])
  rw [Nat.zero_add] at hab
  exact ⟨a, b, hab, by rw [hpal, hentry]⟩

/-- C10: after a returning transform the palette has exactly 16 entries. For the two
median-cut strategies the run is the depth-4 recursion started with the bucket counter
at 0 on at least 16 pixels; it has 16 leaf calls and ends with the counter at 16. A
returning leaf finds the counter below 16, stores its colour into `palette[counter]`
(the mean of its range for the colour variant, the sum divided by the member count
modulo 256 for the greyscale variant), advances the counter by one and changes no
other entry. At every depth a returning recursion advances the counter by `2 ^ depth`,
keeps it at most 16, and leaves the entries outside its own block of indices as they
were. After the run the entry `k` is the colour stored by the leaf number `k` in the
order of the calls, for `k = 0, ..., 15`. Such runs exist: the colour variant returns on
every image of 16 to `2 ^ 23` 8-bit pixels, the greyscale variant on every image of 16
to 4080 pixels. -/
theorem palette_size_invariant (S : StdSort) (t : Transformation) (img img1 : Image)
    (h : transform S t img = .returned img1) :
    (List.ofFn img1.palette).length = 16 ∧
    (t = .medianCut →
      ∃ m0 m1, MedianCutter.new img.originalBmp img.palette = .ok m0 ∧ m0.bucketsCount = 0 ∧
        medianCut S m0 0 (sizePred m0.colors.length) 4 = .ok m1 ∧ m1.bucketsCount = 16 ∧
        img1.palette = m1.palette ∧ 16 ≤ img.originalBmp.flatten.length) ∧
    (t = .medianCutGreyscale →
      ∃ m0 m1, MedianCutter.new img.originalBmp img.palette = .ok m0 ∧ m0.bucketsCount = 0 ∧
        medianCutGreyscale S m0 0 (sizePred m0.greys.length) 4 = .ok m1 ∧ m1.bucketsCount = 16 ∧
        img1.palette = m1.palette ∧ 16 ≤ img.originalBmp.flatten.length) ∧
    (∀ (depth : Nat) (m m1 : MedianCutter) (s e : Nat), medianCut S m s e depth = .ok m1 →
      m1.bucketsCount = m.bucketsCount + 2 ^ depth ∧ m1.bucketsCount ≤ 16 ∧
      ∀ i : Fin 16, i.val < m.bucketsCount ∨ m.bucketsCount + 2 ^ depth ≤ i.val →
        m1.palette i = m.palette i) ∧
    (∀ (depth : Nat) (m m1 : MedianCutter) (s e : Nat), medianCutGreyscale S m s e depth = .ok m1 →
      m1.bucketsCount = m.bucketsCount + 2 ^ depth ∧ m1.bucketsCount ≤ 16 ∧
      ∀ i : Fin 16, i.val < m.bucketsCount ∨ m.bucketsCount + 2 ^ depth ≤ i.val →
        m1.palette i = m.palette i) ∧
    (∀ img0 : Image, img0.originalBmp ≠ [] → 16 ≤ img0.originalBmp.flatten.length →
      img0.originalBmp.flatten.length ≤ 2 ^ 23 →
      (∀ row ∈ img0.originalBmp, ∀ pixel ∈ row, pixel.IsUint8) →
      ∃ img2, transform S .medianCut img0 = .returned img2) ∧
    (∀ img0 : Image, img0.originalBmp ≠ [] → 16 ≤ img0.originalBmp.flatten.length →
      img0.originalBmp.flatten.length ≤ 4080 →
      ∃ img2, transform S .medianCutGreyscale img0 = .returned img2) ∧
    (∀ (m m1 : MedianCutter) (s n : Nat), 1 ≤ n → s + n ≤ m.colors.length →
      m.colors.length < 2 ^ 31 → (∀ c ∈ m.colors, c.IsUint8) →
      medianCutLeaf m s (s + n - 1) = .ok m1 →
      ∃ hlt : m.bucketsCount < 16,
        m1 = { m with palette := Function.update m.palette ⟨m.bucketsCount, hlt⟩
                        (meanColor (slice m.colors s (s + n - 1)))
                      bucketsCount := m.bucketsCount + 1 }) ∧
    (∀ (m m1 : MedianCutter) (s n : Nat), 1 ≤ n → s + n < 2 ^ 64 →
      medianCutGreyscaleLeaf m s (s + n - 1) = .ok m1 →
      ∃ hlt : m.bucketsCount < 16,
        m1 = { m with palette := Function.update m.palette ⟨m.bucketsCount, hlt⟩
                        ⟨(slice m.greys s (s + n - 1)).sum / (n % 256) % 256,
                          (slice m.greys s (s + n - 1)).sum / (n % 256) % 256,
                          (slice m.greys s (s + n - 1)).sum / (n % 256) % 256, 1⟩
                      bucketsCount := m.bucketsCount + 1 }) ∧
    (leafRanges 0 (img.originalBmp.flatten.length - 1) 4).length = 16 ∧
    (t = .medianCut → (∀ row ∈ img.originalBmp, ∀ pixel ∈ row, pixel.IsUint8) →
      img.originalBmp.flatten.length < 2 ^ 31 →
      ∃ m0 m1, MedianCutter.new img.originalBmp img.palette = .ok m0 ∧
        medianCut S m0 0 (sizePred m0.colors.length) 4 = .ok m1 ∧ img1.palette = m1.palette ∧
        ∀ k : Fin 16, ∃ a b,
          (leafRanges 0 (img.originalBmp.flatten.length - 1) 4)[k.val]? = some (a, b) ∧
          img1.palette k = meanColor (slice m1.colors a b)) ∧
    (t = .medianCutGreyscale → img.originalBmp.flatten.length < 2 ^ 63 →
      ∃ m0 m1, MedianCutter.new img.originalBmp img.palette = .ok m0 ∧
        medianCutGreyscale S m0 0 (sizePred m0.greys.length) 4 = .ok m1 ∧
        img1.palette = m1.palette ∧
        ∀ k : Fin 16, ∃ a b,
          (leafRanges 0 (img.originalBmp.flatten.length - 1) 4)[k.val]? = some (a, b) ∧
          img1.palette k = ⟨(slice m1.greys a b).sum / ((b - a + 1) % 256) % 256,
            (slice m1.greys a b).sum / ((b - a + 1) % 256) % 256,
            (slice m1.greys a b).sum / ((b - a + 1) % 256) % 256, 1⟩) ∧
    (t = .imposedPalette ∨ t = .dithering → img1.palette = imposedPalette) ∧
    (t = .greyscale ∨ t = .ditheringGreyscale → img1.palette = greyscalePalette) ∧
    (t = .dedicatedPalette →
      img1.palette = copyIntoPalette (distinctColours img.originalBmp) (fun _ => black0)) := by
  refine ⟨List.length_ofFn _, ?_, ?_, ?_, ?_,
    fun img0 h1 h2 h3 h4 => medianCutTransformation_total S img0 h1 h2 h3 h4,
    fun img0 h1 h2 h3 => medianCutGreyscaleTransformation_total S img0 h1 h2 h3,
    fun m m1 s n h1 h2 h3 h4 h5 => medianCutLeaf_mean m m1 s n h1 h2 h3 h4 h5,
    fun m m1 s n h1 h2 h3 => (medianCutGreyscaleLeaf_value m m1 s n h1 h2 h3).2,
    leafRanges_length 4 0 _, ?_, ?_, ?_, ?_, ?_⟩
  · intro ht
    subst ht
    exact medianCut_run S img img1 h
  · intro ht
    subst ht
    exact medianCutGreyscale_run S img img1 h
  · intro depth m m1 s e hcut
    obtain ⟨h1, h2, _, h4⟩ := medianCut_counts S depth m m1 s e hcut
    exact ⟨h1, h2, h4⟩
  · intro depth m m1 s e hcut
    obtain ⟨h1, h2, _, h4⟩ := medianCutGreyscale_counts S depth m m1 s e hcut
    exact ⟨h1, h2, h4⟩
  · intro ht hvalid hN
    subst ht
    exact medianCut_run_entries S img img1 h hvalid hN
  · intro ht hN
    subst ht
    exact medianCutGreyscale_run_entries S img img1 h hN
  · intro ht
    rcases ht with ht | ht <;> subst ht <;> injection h with h <;> rw [← h]
  · intro ht
    rcases ht with ht | ht <;> subst ht <;> injection h with h <;> rw [← h]
  · intro ht
    subst ht
    have h : dedicatedPaletteTransformation img = .returned img1 := h
    have hrows : img.originalBmp ≠ [] := by
      intro hnil
      unfold dedicatedPaletteTransformation at h
      rw [hnil] at h
      cases h
    rw [dedicatedPaletteTransformation_eq img hrows] at h
    by_cases hn : (distinctColours img.originalBmp).length > 16
    · rw [if_pos hn] at h
      cases h
    · rw [if_neg hn] at h
      injection h with h
      rw [← h]
      rfl

set_option maxRecDepth 100000 in
/-- The 4 by 4 example under the greyscale median cut, for C10. -/
theorem palette_size_invariant_witness :
    ∃ img1, transform insertionStdSort .medianCutGreyscale exampleFourByFour = .returned img1 ∧
    ((List.ofFn img1.palette).length = 16 ∧
    (Transformation.medianCutGreyscale = .medianCut →
      ∃ m0 m1, MedianCutter.new exampleFourByFour.originalBmp exampleFourByFour.palette = .ok m0 ∧ m0.bucketsCount = 0 ∧
        medianCut insertionStdSort m0 0 (sizePred m0.colors.length) 4 = .ok m1 ∧ m1.bucketsCount = 16 ∧
        img1.palette = m1.palette ∧ 16 ≤ exampleFourByFour.originalBmp.flatten.length) ∧
    (Transformation.medianCutGreyscale = .medianCutGreyscale →
      ∃ m0 m1, MedianCutter.new exampleFourByFour.originalBmp exampleFourByFour.palette = .ok m0 ∧ m0.bucketsCount = 0 ∧
        medianCutGreyscale insertionStdSort m0 0 (sizePred m0.greys.length) 4 = .ok m1 ∧ m1.bucketsCount = 16 ∧
        img1.palette = m1.palette ∧ 16 ≤ exampleFourByFour.originalBmp.flatten.length) ∧
    (∀ (depth : Nat) (m m1 : MedianCutter) (s e : Nat), medianCut insertionStdSort m s e depth = .ok m1 →
      m1.bucketsCount = m.bucketsCount + 2 ^ depth ∧ m1.bucketsCount ≤ 16 ∧
      ∀ i : Fin 16, i.val < m.bucketsCount ∨ m.bucketsCount + 2 ^ depth ≤ i.val →
        m1.palette i = m.palette i) ∧
    (∀ (depth : Nat) (m m1 : MedianCutter) (s e : Nat), medianCutGreyscale insertionStdSort m s e depth = .ok m1 →
      m1.bucketsCount = m.bucketsCount + 2 ^ depth ∧ m1.bucketsCount ≤ 16 ∧
      ∀ i : Fin 16, i.val < m.bucketsCount ∨ m.bucketsCount + 2 ^ depth ≤ i.val →
        m1.palette i = m.palette i) ∧
    (∀ img0 : Image, img0.originalBmp ≠ [] → 16 ≤ img0.originalBmp.flatten.length →
      img0.originalBmp.flatten.length ≤ 2 ^ 23 →
      (∀ row ∈ img0.originalBmp, ∀ pixel ∈ row, pixel.IsUint8) →
      ∃ img2, transform insertionStdSort .medianCut img0 = .returned img2) ∧
    (∀ img0 : Image, img0.originalBmp ≠ [] → 16 ≤ img0.originalBmp.flatten.length →
      img0.originalBmp.flatten.length ≤ 4080 →
      ∃ img2, transform insertionStdSort .medianCutGreyscale img0 = .returned img2) ∧
    (∀ (m m1 : MedianCutter) (s n : Nat), 1 ≤ n → s + n ≤ m.colors.length →
      m.colors.length < 2 ^ 31 → (∀ c ∈ m.colors, c.IsUint8) →
      medianCutLeaf m s (s + n - 1) = .ok m1 →
      ∃ hlt : m.bucketsCount < 16,
        m1 = { m with palette := Function.update m.palette ⟨m.bucketsCount, hlt⟩
                        (meanColor (slice m.colors s (s + n - 1)))
                      bucketsCount := m.bucketsCount + 1 }) ∧
    (∀ (m m1 : MedianCutter) (s n : Nat), 1 ≤ n → s + n < 2 ^ 64 →
      medianCutGreyscaleLeaf m s (s + n - 1) = .ok m1 →
      ∃ hlt : m.bucketsCount < 16,
        m1 = { m with palette := Function.update m.palette ⟨m.bucketsCount, hlt⟩
                        ⟨(slice m.greys s (s + n - 1)).sum / (n % 256) % 256,
                          (slice m.greys s (s + n - 1)).sum / (n % 256) % 256,
                          (slice m.greys s (s + n - 1)).sum / (n % 256) % 256, 1⟩
                      bucketsCount := m.bucketsCount + 1 }) ∧
    (leafRanges 0 (exampleFourByFour.originalBmp.flatten.length - 1) 4).length = 16 ∧
    (Transformation.medianCutGreyscale = .medianCut → (∀ row ∈ exampleFourByFour.originalBmp, ∀ pixel ∈ row, pixel.IsUint8) →
      exampleFourByFour.originalBmp.flatten.length < 2 ^ 31 →
      ∃ m0 m1, MedianCutter.new exampleFourByFour.originalBmp exampleFourByFour.palette = .ok m0 ∧
        medianCut insertionStdSort m0 0 (sizePred m0.colors.length) 4 = .ok m1 ∧ img1.palette = m1.palette ∧
        ∀ k : Fin 16, ∃ a b,
          (leafRanges 0 (exampleFourByFour.originalBmp.flatten.length - 1) 4)[k.val]? = some (a, b) ∧
          img1.palette k = meanColor (slice m1.colors a b)) ∧
    (Transformation.medianCutGreyscale = .medianCutGreyscale → exampleFourByFour.originalBmp.flatten.length < 2 ^ 63 →
      ∃ m0 m1, MedianCutter.new exampleFourByFour.originalBmp exampleFourByFour.palette = .ok m0 ∧
        medianCutGreyscale insertionStdSort m0 0 (sizePred m0.greys.length) 4 = .ok m1 ∧
        img1.palette = m1.palette ∧
        ∀ k : Fin 16, ∃ a b,
          (leafRanges 0 (exampleFourByFour.originalBmp.flatten.length - 1) 4)[k.val]? = some (a, b) ∧
          img1.palette k = ⟨(slice m1.greys a b).sum / ((b - a + 1) % 256) % 256,
            (slice m1.greys a b).sum / ((b - a + 1) % 256) % 256,
            (slice m1.greys a b).sum / ((b - a + 1) % 256) % 256, 1⟩) ∧
    (Transformation.medianCutGreyscale = .imposedPalette ∨ Transformation.medianCutGreyscale = .dithering → img1.palette = imposedPalette) ∧
    (Transformation.medianCutGreyscale = .greyscale ∨ Transformation.medianCutGreyscale = .ditheringGreyscale → img1.palette = greyscalePalette) ∧
    (Transformation.medianCutGreyscale = .dedicatedPalette →
      img1.palette = copyIntoPalette (distinctColours exampleFourByFour.originalBmp) (fun _ => black0))) :=
  ⟨_, rfl, palette_size_invariant insertionStdSort .medianCutGreyscale exampleFourByFour _ rfl⟩

end ProjectGK
